import Mathlib

/-!
# Sum-Product Network graph construction, validation and training (deeplearn, `model::Spn`)

A shallow embedding of `src/model/spnet/Spn.cpp`.

Conventions of the embedding.

* A `Node*` is a `Node` value carrying the address `addr` of the heap object; `new`
  hands out consecutive addresses starting from the `alloc` argument of the function
  that allocates, so two objects created by one construction never share an address.
* A `std::vector<T*>&` in/out parameter is a `List` argument and a `List` in the result.
* `math::pimatrix` is a `size1 × size2` table of numbers.  Every finite `float` is a
  rational number, so entries are rationals; the C++ conversion `(int) x` is truncation
  toward zero, and it is undefined when the truncated value does not fit the 32-bit
  `int`.  Reading outside the table is undefined in the source (the uBLAS index check
  throws or is compiled out).  The embedding returns `none` for the whole call in both
  cases.
* `int` is 32 bits wide and `float` is the IEEE single format, in which every integer
  below `2^24` in absolute value is a value.
* A function that can hit such an undefined read, or a thrown exception, returns an
  `Option`; `some (b, ...)` is a normal return with return value `b`.
* Protocol-buffer optional fields are a `has_x` flag together with the value `x` that the
  accessor returns (the declared default when the field is absent).
* `Spn::Train` is the list of the calls it makes to its collaborators, in call order; the
  collaborators that are not part of the sources (data handler, file system, the metrics
  left by `TrainOneBatch` and `Evaluate`) are the fields of an environment `TrainEnv`.  A
  failed assertion and a remainder by zero make the call undefined (`none`).
* `Spn::Forward` and `Spn::Backward` are the lists of the calls they make on the nodes,
  in call order; the class `Node` is not part of the sources.
* A method that changes a node object (`MergeNodeData`) changes what every pointer to
  that object sees: the node vector and the end nodes of the edges are updated together,
  the object being identified by its address.
-/

namespace Spn

/-! ## Data model -/

/-- Modelled from the spec: the enumeration `NodeData::NodeType` is declared in the
protocol-buffer description, which is not part of the sources; the spec lists its members
as Input, Hidden, Query, Sum, Product, Max. -/
inductive NodeType where
  | INPUT | HIDDEN | QUERY | SUM | PRODUCT | MAX
  deriving DecidableEq, Repr

/-- The message `NodeData` as far as `Spn.cpp` writes it: `set_name`, `set_type`,
`set_dimension`, `set_input_start_index`.  An input start index never set is `none`. -/
structure NodeData where
  name : String
  type : NodeType
  dimension : Int
  input_start_index : Option Int
  deriving DecidableEq, Repr

/-- The concrete class `CreateNewNode` instantiates. -/
inductive NodeClass where
  | InputNode | SumNode | ProductNode | MaxNode
  deriving DecidableEq, Repr

/-- A heap-allocated node object: its address, its dynamic class and the `NodeData` it was
constructed from. -/
structure Node where
  addr : Nat
  cls : NodeClass
  data : NodeData
  deriving DecidableEq, Repr

/-- An edge object `new Edge(node1, node2, directed)`; a directed edge goes from `node1`
to `node2`. -/
structure Edge where
  node1 : Node
  node2 : Node
  directed : Bool
  deriving DecidableEq, Repr

/-- The class `math::pimatrix` (`src/math/pimatrix.h`): a dense `size1 × size2` table. -/
structure pimatrix where
  size1 : Nat
  size2 : Nat
  entry : Nat → Nat → ℚ

/-- The read `m(i, j)` (`pimatrix::operator()`); `none` outside the table. -/
def pimatrix.get (m : pimatrix) (i j : Nat) : Option ℚ :=
  if i < m.size1 ∧ j < m.size2 then some (m.entry i j) else none

/-- The integer part of a number: rounding toward zero. -/
def truncate (x : ℚ) : Int :=
  if 0 ≤ x then Int.floor x else Int.ceil x

/-- The C++ conversion `(int) x` of a `float` to the 32-bit `int`: truncation toward zero.
The conversion is undefined (`none`) when the truncated value is outside the range
`-2^31 .. 2^31 - 1` of `int`. -/
def toInt (x : ℚ) : Option Int :=
  if -2 ^ 31 ≤ truncate x ∧ truncate x < 2 ^ 31 then some (truncate x) else none

/-- A matrix given by its rows, for writing concrete inputs; `size2` is the length of the
first row. -/
def pimatrix.ofRows (rows : List (List ℚ)) : pimatrix where
  size1 := rows.length
  size2 := (rows.headD []).length
  entry := fun i j => (rows.getD i []).getD j 0

/-- The message `SpnLayerInit`: one layer description of the layered form.  The matrix
fields hold the matrix that `FromDebugString` parses from the text field. -/
structure SpnLayerInit where
  type : NodeType
  name : String
  has_size : Bool
  size : Int
  has_input_indices : Bool
  input_indices : pimatrix
  has_node_list : Bool
  node_list : pimatrix
  has_product_combinations : Bool
  product_combinations : Int

/-- The message `SpnData`: the explicit (adjacency) form and the layered form. -/
structure SpnData where
  has_adjacency_matrix : Bool
  adjacency_matrix : pimatrix
  has_input_indices : Bool
  input_indices : pimatrix
  has_node_list : Bool
  node_list : pimatrix
  layers : List SpnLayerInit

/-! ## `Spn::Validate` -/

/-- The root search of `Spn::Validate` (the `for` loop over `m_nodeList`), started with
`m_root = root`.  The result is `(false, m_root)` when the loop leaves the function through
`return false` (a second node without outgoing edges), and `(true, m_root)` when the loop
runs to its end. -/
def Validate.findRoot (GetOutgoingEdgesCount : Node → Nat) :
    List Node → Option Node → Bool × Option Node
  | [], root => (true, root)
  | n :: rest, root =>
    if GetOutgoingEdgesCount n = 0 then
      match root with
      | some r => (false, some r)
      | none => Validate.findRoot GetOutgoingEdgesCount rest (some n)
    else Validate.findRoot GetOutgoingEdgesCount rest root

/-- The function `Spn::Validate`.  `bRet` is the result of the base-class
`Model::Validate()` (not part of the sources), which also leaves the ordered node list
`m_nodeList`; `GetOutgoingEdgesCount` is the accessor of `Node`.  The result is the
returned flag and the value of `m_root` afterwards; `none` is the undefined
`*m_nodeList.rbegin()` on an empty list. -/
def Validate (bRet : Bool) (GetOutgoingEdgesCount : Node → Nat)
    (m_nodeList : List Node) (m_root : Option Node) : Option (Bool × Option Node) :=
  if !bRet then some (false, m_root)
  else
    match Validate.findRoot GetOutgoingEdgesCount m_nodeList none with
    | (false, root) => some (false, root)
    | (true, root) =>
      match m_nodeList.getLast? with
      | none => none
      | some lastNode => some (decide (root ≠ none ∧ root = some lastNode), root)

/-! ## Node creation -/

/-- The function `Spn::CreateNewNode`, with the address `addr` that `new` hands out.
`none` is the `NULL` of the `default:` branch, which no member of the enumeration
reaches. -/
def CreateNewNode (nodeData : NodeData) (addr : Nat) : Option Node :=
  match nodeData.type with
  | .INPUT => some ⟨addr, .InputNode, nodeData⟩
  | .HIDDEN => some ⟨addr, .InputNode, nodeData⟩
  | .QUERY => some ⟨addr, .InputNode, nodeData⟩
  | .SUM => some ⟨addr, .SumNode, nodeData⟩
  | .PRODUCT => some ⟨addr, .ProductNode, nodeData⟩
  | .MAX => some ⟨addr, .MaxNode, nodeData⟩

/-- The node name `boost::format("%1%_%2%") % layerName % i`. -/
def fmtNodeName (layerName : String) (i : Nat) : String :=
  layerName ++ "_" ++ toString i

/-- The conversion `(size_t) n` of an `int` (64-bit `size_t`). -/
def sizeT (n : Int) : Nat :=
  (n % (2 ^ 64 : Int)).toNat

/-! ## Explicit (adjacency) construction: `Spn::LoadSpnListInit` -/

/-- The node loop of `LoadSpnListInit` (`for (i = 0; i < nodeList.size2(); ++i)`), with
`fuel` iterations left, at index `i`.  `decode` is the enumeration membership test
`NodeData_NodeType_IsValid` together with the cast to `NodeData_NodeType`: `decode c` is the
member with numeric code `c`, if there is one.  `idx` is the input start index held by the
`nodeData` object, which the loop reuses from one iteration to the next.  The result is
`(false, [])` on the `return false` paths, which delete and clear `nodes`. -/
def LoadSpnListInit.nodeLoop (decode : Int → Option NodeType)
    (nodeList inputIndices : pimatrix) (alloc : Nat) :
    Nat → Nat → Option Int → List Node → Option (Bool × List Node)
  | 0, _, _, nodes => some (true, nodes)
  | fuel + 1, i, idx, nodes =>
    match (nodeList.get 0 i).bind toInt with
    | none => none
    | some iType =>
      match decode iType with
      | none => some (false, [])
      | some nodeType =>
        if nodeType = NodeType.INPUT ∨ nodeType = NodeType.QUERY then
          match (inputIndices.get 0 i).bind toInt with
          | none => none
          | some inputIdx =>
            if inputIdx < 0 then some (false, [])
            else
              match CreateNewNode ⟨toString i, nodeType, 1, some inputIdx⟩ (alloc + i) with
              | none => some (false, [])
              | some tmpNode =>
                LoadSpnListInit.nodeLoop decode nodeList inputIndices alloc fuel (i + 1)
                  (some inputIdx) (nodes ++ [tmpNode])
        else
          match CreateNewNode ⟨toString i, nodeType, 1, idx⟩ (alloc + i) with
          | none => some (false, [])
          | some tmpNode =>
            LoadSpnListInit.nodeLoop decode nodeList inputIndices alloc fuel (i + 1)
              idx (nodes ++ [tmpNode])

/-- The inner loop of the adjacency pass (`for (size_t j = 0; j < i; ++j)`), with `fuel`
iterations left, at column `j` of row `i`.  The result is `(false, [])` when a pair
`(i, j)`, `(j, i)` is nonzero in both directions; `nodes.at(i)` outside the list throws. -/
def LoadSpnListInit.rowLoop (adjMatrix : pimatrix) (nodes : List Node) (i : Nat) :
    Nat → Nat → List Edge → Option (Bool × List Edge)
  | 0, _, edges => some (true, edges)
  | fuel + 1, j, edges =>
    match adjMatrix.get i j, adjMatrix.get j i with
    | some a, some b =>
      if a ≠ 0 ∧ b ≠ 0 then some (false, [])
      else if a ≠ 0 then
        match nodes[i]?, nodes[j]? with
        | some ni, some nj =>
          LoadSpnListInit.rowLoop adjMatrix nodes i fuel (j + 1) (edges ++ [⟨ni, nj, true⟩])
        | _, _ => none
      else if b ≠ 0 then
        match nodes[j]?, nodes[i]? with
        | some nj, some ni =>
          LoadSpnListInit.rowLoop adjMatrix nodes i fuel (j + 1) (edges ++ [⟨nj, ni, true⟩])
        | _, _ => none
      else LoadSpnListInit.rowLoop adjMatrix nodes i fuel (j + 1) edges
    | _, _ => none

/-- The outer loop of the adjacency pass (`for (i = 0; i < adjMatrix.size1(); ++i)`), with
`fuel` rows left, at row `i`. -/
def LoadSpnListInit.adjLoop (adjMatrix : pimatrix) (nodes : List Node) :
    Nat → Nat → List Edge → Option (Bool × List Edge)
  | 0, _, edges => some (true, edges)
  | fuel + 1, i, edges =>
    match LoadSpnListInit.rowLoop adjMatrix nodes i i 0 edges with
    | none => none
    | some (false, _) => some (false, [])
    | some (true, edges1) => LoadSpnListInit.adjLoop adjMatrix nodes fuel (i + 1) edges1

/-- The function `Spn::LoadSpnListInit`.  `nodes` and `edges` are the in/out vectors; the
result holds the return value and the two vectors on return.  The three matrices are those
parsed from `node_list`, `adjacency_matrix` and `input_indices`. -/
def LoadSpnListInit (decode : Int → Option NodeType) (spnData : SpnData) (alloc : Nat)
    (nodes : List Node) (edges : List Edge) : Option (Bool × List Node × List Edge) :=
  let nodeList := spnData.node_list
  let adjMatrix := spnData.adjacency_matrix
  let inputIndices := spnData.input_indices
  if nodeList.size1 ≠ 1 ∨ nodeList.size2 < 1 ∨ adjMatrix.size1 ≠ adjMatrix.size2
      ∨ adjMatrix.size1 ≠ nodeList.size2 then
    some (false, nodes, edges)
  else
    match LoadSpnListInit.nodeLoop decode nodeList inputIndices alloc nodeList.size2 0 none
        nodes with
    | none => none
    | some (false, nodes1) => some (false, nodes1, edges)
    | some (true, nodes1) =>
      match LoadSpnListInit.adjLoop adjMatrix nodes1 adjMatrix.size1 0 edges with
      | none => none
      | some (false, _) => some (false, [], [])
      | some (true, edges1) => some (true, nodes1, edges1)

/-! ## Layered construction -/

/-- The node loop of `CreateInputLayer` (`for (int i = 0; i < layerInit.size(); ++i)`). -/
def CreateInputLayer.loop (decode : Int → Option NodeType) (layerInit : SpnLayerInit)
    (nodeList inputIndices : pimatrix) (alloc : Nat) :
    Nat → Nat → List Node → Option (Bool × List Node)
  | 0, _, newNodes => some (true, newNodes)
  | fuel + 1, i, newNodes =>
    let iType : Option (Option NodeType) :=
      if layerInit.has_node_list then ((nodeList.get 0 i).bind toInt).map decode
      else some (some layerInit.type)
    match iType with
    | none => none
    | some none => some (false, [])
    | some (some nodeType) =>
      match (inputIndices.get 0 i).bind toInt with
      | none => none
      | some inputIdx =>
        if inputIdx < 0 then some (false, [])
        else
          match CreateNewNode ⟨fmtNodeName layerInit.name i, nodeType, 1, some inputIdx⟩
              (alloc + i) with
          | none => none
          | some newNode =>
            CreateInputLayer.loop decode layerInit nodeList inputIndices alloc fuel (i + 1)
              (newNodes ++ [newNode])

/-- The function `Spn::CreateInputLayer`. -/
def CreateInputLayer (decode : Int → Option NodeType) (layerInit : SpnLayerInit)
    (alloc : Nat) (newNodes : List Node) (newEdges : List Edge) :
    Option (Bool × List Node × List Edge) :=
  if !layerInit.has_size || !layerInit.has_input_indices then
    some (false, newNodes, newEdges)
  else
    let inputIndices := layerInit.input_indices
    if inputIndices.size1 ≠ 1 ∨ inputIndices.size2 ≠ sizeT layerInit.size then
      some (false, newNodes, newEdges)
    else if layerInit.has_node_list
        ∧ (layerInit.node_list.size1 ≠ 1 ∨ layerInit.node_list.size2 ≠ sizeT layerInit.size) then
      some (false, newNodes, newEdges)
    else
      match CreateInputLayer.loop decode layerInit layerInit.node_list inputIndices alloc
          layerInit.size.toNat 0 newNodes with
      | none => none
      | some (b, newNodes1) => some (b, newNodes1, newEdges)

/-- The node loop of `CreateSumMaxLayer`: each new node is connected to every node of the
lower layer.  `none` is the failed `BOOST_ASSERT(newNode)`. -/
def CreateSumMaxLayer.loop (layerInit : SpnLayerInit) (lowerLayer : List Node)
    (alloc : Nat) : Nat → Nat → List Node → List Edge → Option (List Node × List Edge)
  | 0, _, newNodes, newEdges => some (newNodes, newEdges)
  | fuel + 1, i, newNodes, newEdges =>
    match CreateNewNode ⟨fmtNodeName layerInit.name i, layerInit.type, 1, none⟩
        (alloc + i) with
    | none => none
    | some newNode =>
      CreateSumMaxLayer.loop layerInit lowerLayer alloc fuel (i + 1) (newNodes ++ [newNode])
        (newEdges ++ lowerLayer.map (fun lower => ⟨lower, newNode, true⟩))

/-- The function `Spn::CreateSumMaxLayer`; `none` is a failed assertion. -/
def CreateSumMaxLayer (layerInit : SpnLayerInit) (lowerLayer : List Node) (alloc : Nat)
    (newNodes : List Node) (newEdges : List Edge) : Option (Bool × List Node × List Edge) :=
  if layerInit.type ≠ NodeType.SUM ∧ layerInit.type ≠ NodeType.MAX then none
  else if !layerInit.has_size then some (false, newNodes, newEdges)
  else
    match CreateSumMaxLayer.loop layerInit lowerLayer alloc layerInit.size.toNat 0
        newNodes newEdges with
    | none => none
    | some (newNodes1, newEdges1) => some (true, newNodes1, newEdges1)

/-- The spacing of the `float` values at the natural number `m`: the least power of two
`u` with `m < 2^24 * u`, searched upward from `u` in at most `fuel` doublings.  A `float`
has 24 significant bits. -/
def floatSpacing (m : Nat) : Nat → Nat → Nat
  | 0, u => u
  | fuel + 1, u => if m < 2 ^ 24 * u then u else floatSpacing m fuel (2 * u)

/-- The `float` value nearest to the natural number `m`, a tie going to the even
significand; the `float` values reach up to `2^128`, that is 104 doublings of the
spacing.  Every `m` below `2^24` is a `float` value. -/
def roundToFloat (m : Nat) : Nat :=
  if 2 * (m % floatSpacing m 104 1) < floatSpacing m 104 1
      ∨ (2 * (m % floatSpacing m 104 1) = floatSpacing m 104 1
        ∧ m / floatSpacing m 104 1 % 2 = 0) then
    m / floatSpacing m 104 1 * floatSpacing m 104 1
  else (m / floatSpacing m 104 1 + 1) * floatSpacing m 104 1

/-- The initialisation `int numComs = boost::math::binomial_coefficient<float>(n, k)`.
The library call is a domain error (an exception, `none`) for `k > n`; otherwise it
returns the binomial coefficient as a `float`, that is, rounded to the nearest `float`
value.  The conversion of that value to the 32-bit `int` is undefined (`none`) from
`2^31` on.  A coefficient below `2^24` comes out exact. -/
def binomial_coefficient (n k : Nat) : Option Nat :=
  if k > n then none
  else if roundToFloat (Nat.choose n k) < 2 ^ 31 then some (roundToFloat (Nat.choose n k))
  else none

/-- The `p`-element sublists of a list, in lexicographic order of their positions: first
those that keep the head, then those that drop it. -/
def combinationsOf {α : Type} : List α → Nat → List (List α)
  | _, 0 => [[]]
  | [], _ + 1 => []
  | x :: xs, p + 1 => (combinationsOf xs p).map (fun c => x :: c) ++ combinationsOf xs (p + 1)

/-- Modelled from the spec: `util::Util::combination(children, n, p, j)` is defined in
`Util.cpp`, which is not part of the sources.  The spec numbers the `C(n, p)` combinations
of the lower-layer nodes `1 .. C(n, p)` in a fixed canonical order that depends only on
`(n, p, j)`; the model takes the lexicographic order of the ascending index lists over
`1 .. n`, and leaves the call undefined (`none`) for `j` outside `1 .. C(n, p)`. -/
def combination (n p j : Nat) : Option (List Nat) :=
  if j = 0 then none else (combinationsOf (List.range' 1 n) p)[j - 1]?

/-- The edge loop of `CreateProductLayer` (`for (int k = 0; k < p; ++k)`), with `fuel`
iterations left, at position `k`: one edge from `lowerLayer.at(children[k] - 1)` to
`newNode` is pushed per iteration.  `none` when `children[k]` was not written or `at`
throws. -/
def CreateProductLayer.childEdges (lowerLayer : List Node) (children : List Nat)
    (newNode : Node) : Nat → Nat → List Edge → Option (List Edge)
  | 0, _, newEdges => some newEdges
  | fuel + 1, k, newEdges =>
    match children[k]? with
    | none => none
    | some c =>
      if c = 0 then none
      else
        match lowerLayer[c - 1]? with
        | none => none
        | some lower =>
          CreateProductLayer.childEdges lowerLayer children newNode fuel (k + 1)
            (newEdges ++ [⟨lower, newNode, true⟩])

/-- The combination loop of `CreateProductLayer` (`for (int j = 1; j <= numComs; ++j)`) at
combination order `p`, with `fuel` iterations left, at combination number `j`; the state
is `iNodeCount` and the two output vectors. -/
def CreateProductLayer.combLoop (layerInit : SpnLayerInit) (lowerLayer : List Node)
    (alloc p : Nat) :
    Nat → Nat → Nat → List Node → List Edge → Option (Nat × List Node × List Edge)
  | 0, _, iNodeCount, newNodes, newEdges => some (iNodeCount, newNodes, newEdges)
  | fuel + 1, j, iNodeCount, newNodes, newEdges =>
    match CreateNewNode ⟨fmtNodeName layerInit.name iNodeCount, layerInit.type, 1, none⟩
        (alloc + iNodeCount) with
    | none => none
    | some newNode =>
      match combination lowerLayer.length p j with
      | none => none
      | some children =>
        match CreateProductLayer.childEdges lowerLayer children newNode p 0 newEdges with
        | none => none
        | some newEdges1 =>
          CreateProductLayer.combLoop layerInit lowerLayer alloc p fuel (j + 1)
            (iNodeCount + 1) (newNodes ++ [newNode]) newEdges1

/-- The order loop of `CreateProductLayer`
(`for (int p = 1; p <= layerInit.product_combinations(); ++p)`), with `fuel` orders left,
at order `p`. -/
def CreateProductLayer.orderLoop (layerInit : SpnLayerInit) (lowerLayer : List Node)
    (alloc : Nat) :
    Nat → Nat → Nat → List Node → List Edge → Option (List Node × List Edge)
  | 0, _, _, newNodes, newEdges => some (newNodes, newEdges)
  | fuel + 1, p, iNodeCount, newNodes, newEdges =>
    match binomial_coefficient lowerLayer.length p with
    | none => none
    | some numComs =>
      match CreateProductLayer.combLoop layerInit lowerLayer alloc p numComs 1 iNodeCount
          newNodes newEdges with
      | none => none
      | some (iNodeCount1, newNodes1, newEdges1) =>
        CreateProductLayer.orderLoop layerInit lowerLayer alloc fuel (p + 1) iNodeCount1
          newNodes1 newEdges1

/-- The function `Spn::CreateProductLayer`; `none` is a failed assertion, the
`bad_array_new_length` of `new int[n]` with negative `n`, or a throwing callee. -/
def CreateProductLayer (layerInit : SpnLayerInit) (lowerLayer : List Node) (alloc : Nat)
    (newNodes : List Node) (newEdges : List Edge) : Option (Bool × List Node × List Edge) :=
  if layerInit.type ≠ NodeType.PRODUCT then none
  else if !layerInit.has_product_combinations ∧ layerInit.product_combinations ≥ 1
      ∧ layerInit.product_combinations ≤ 3 then
    some (false, newNodes, newEdges)
  else if layerInit.product_combinations < 0 then none
  else
    match CreateProductLayer.orderLoop layerInit lowerLayer alloc
        layerInit.product_combinations.toNat 1 0 newNodes newEdges with
    | none => none
    | some (newNodes1, newEdges1) => some (true, newNodes1, newEdges1)

/-- The function `Spn::CreateLayer`: only the layer types Input, Sum and Product have a
`case`; every other type takes the `default:` branch. -/
def CreateLayer (decode : Int → Option NodeType) (layerInit : SpnLayerInit)
    (lowerLayer : List Node) (alloc : Nat) (newNodes : List Node) (newEdges : List Edge) :
    Option (Bool × List Node × List Edge) :=
  match layerInit.type with
  | .INPUT => CreateInputLayer decode layerInit alloc newNodes newEdges
  | .SUM => CreateSumMaxLayer layerInit lowerLayer alloc newNodes newEdges
  | .PRODUCT => CreateProductLayer layerInit lowerLayer alloc newNodes newEdges
  | _ => some (false, newNodes, newEdges)

/-- The state of the layer loop of `LoadSpnLayerInit`: the previous layer, the next free
address, and the two output vectors. -/
structure LayerState where
  lastLayer : List Node
  alloc : Nat
  nodes : List Node
  edges : List Edge
  deriving DecidableEq

/-- The layer loop of `LoadSpnLayerInit` (`for (int i = 0; i < spnData.layers_size(); ++i)`)
over the layers still to build.  A failing `CreateLayer` deletes and clears `nodes` and
`edges` and returns false. -/
def LoadSpnLayerInit.loop (decode : Int → Option NodeType) :
    List SpnLayerInit → LayerState → Option (Bool × LayerState)
  | [], st => some (true, st)
  | layerInit :: rest, st =>
    match CreateLayer decode layerInit st.lastLayer st.alloc [] [] with
    | none => none
    | some (false, _, _) => some (false, ⟨st.lastLayer, st.alloc, [], []⟩)
    | some (true, newNodes, newEdges) =>
      LoadSpnLayerInit.loop decode rest
        ⟨newNodes, st.alloc + newNodes.length, st.nodes ++ newNodes, st.edges ++ newEdges⟩

/-- The function `Spn::LoadSpnLayerInit`; `none` is the failed
`BOOST_ASSERT(spnData.layers_size() > 0)` or a throwing callee. -/
def LoadSpnLayerInit (decode : Int → Option NodeType) (spnData : SpnData) (alloc : Nat)
    (nodes : List Node) (edges : List Edge) : Option (Bool × List Node × List Edge) :=
  match spnData.layers with
  | [] => none
  | layer0 :: _ =>
    if layer0.type ≠ NodeType.INPUT then some (false, nodes, edges)
    else
      match LoadSpnLayerInit.loop decode spnData.layers ⟨[], alloc, nodes, edges⟩ with
      | none => none
      | some (b, st) => some (b, st.nodes, st.edges)

/-! ## Auxiliary definitions for the statements -/

/-- The class that `CreateNewNode` instantiates for a node type. -/
def classOf : NodeType → NodeClass
  | .INPUT => .InputNode
  | .HIDDEN => .InputNode
  | .QUERY => .InputNode
  | .SUM => .SumNode
  | .PRODUCT => .ProductNode
  | .MAX => .MaxNode

/-- The `i`-th node that `CreateSumMaxLayer` and `CreateProductLayer` create for a layer:
name `<layerName>_<i>`, the layer type, dimension 1, at address `alloc + i`. -/
def layerNode (layerInit : SpnLayerInit) (alloc i : Nat) : Node :=
  ⟨alloc + i, classOf layerInit.type, ⟨fmtNodeName layerInit.name i, layerInit.type, 1, none⟩⟩

/-- The ordered pair `(source, destination)` of the edge that the adjacency pass creates
when it visits row `i` and column `j < i`, if it creates one. -/
def pairOf (adjMatrix : pimatrix) (i j : Nat) : Option (Nat × Nat) :=
  if adjMatrix.entry i j ≠ 0 then some (i, j)
  else if adjMatrix.entry j i ≠ 0 then some (j, i)
  else none

/-- The directed edge between the nodes at two positions of the node vector. -/
def edgeOf (nodes : List Node) (q : Nat × Nat) : Option Edge :=
  match nodes[q.1]?, nodes[q.2]? with
  | some a, some b => some ⟨a, b, true⟩
  | _, _ => none

/-- The pairs of all edges of an adjacency pass over `n` rows, in creation order. -/
def edgePairs (adjMatrix : pimatrix) (n : Nat) : List (Nat × Nat) :=
  (List.range' 0 n).flatMap (fun i => (List.range' 0 i).filterMap (pairOf adjMatrix i))

/-- The edges that one order of `CreateProductLayer` creates: the nodes of the `s`-th
combination in `combos` all point to the layer node number `i + s`. -/
def comboEdges (layerInit : SpnLayerInit) (alloc : Nat) : Nat → List (List Node) → List Edge
  | _, [] => []
  | i, c :: combos =>
    c.map (fun lower => (⟨lower, layerNode layerInit alloc i, true⟩ : Edge))
      ++ comboEdges layerInit alloc (i + 1) combos

/-- The nodes that `fuel` consecutive orders of `CreateProductLayer` create, starting at
order `p` with `iNodeCount = i`, as one block per order: the block of order `p` has as
many nodes as `numComs` says, the rounded binomial coefficient. -/
def productBlocks (layerInit : SpnLayerInit) (n alloc : Nat) : Nat → Nat → Nat → List (List Node)
  | 0, _, _ => []
  | fuel + 1, p, i =>
    (List.range' i (roundToFloat (n.choose p))).map (layerNode layerInit alloc)
      :: productBlocks layerInit n alloc fuel (p + 1) (i + roundToFloat (n.choose p))

/-- The edges that `fuel` consecutive orders of `CreateProductLayer` create, starting at
order `p` with `iNodeCount = i`: order `p` uses the first `numComs` combinations. -/
def productEdges (layerInit : SpnLayerInit) (lowerLayer : List Node) (alloc : Nat) :
    Nat → Nat → Nat → List Edge
  | 0, _, _ => []
  | fuel + 1, p, i =>
    comboEdges layerInit alloc i
        ((combinationsOf lowerLayer p).take (roundToFloat (lowerLayer.length.choose p)))
      ++ productEdges layerInit lowerLayer alloc fuel (p + 1)
        (i + roundToFloat (lowerLayer.length.choose p))

/-- The child set of a node: the sources of the edges that enter it. -/
def childSet (edges : List Edge) (v : Node) : Finset Node :=
  ((edges.filter (fun e => decide (e.node2 = v))).map (fun e => e.node1)).toFinset

/-! ## Concrete descriptions

The layers of the three-layer network of the spec (an Input layer of size 4 bound to the
input indices 0, 1, 2, 3, a Product layer, a Sum layer of size 1) and variations of them. -/

/-- The matrix parsed from an absent or empty text field. -/
def emptyMatrix : pimatrix := pimatrix.ofRows []

/-- A numbering of the node types in declaration order, for the concrete examples. -/
def declarationOrder (code : Int) : Option NodeType :=
  if code = 0 then some .INPUT
  else if code = 1 then some .HIDDEN
  else if code = 2 then some .QUERY
  else if code = 3 then some .SUM
  else if code = 4 then some .PRODUCT
  else if code = 5 then some .MAX
  else none

/-- The Input layer of size 4 bound to the input indices 0, 1, 2, 3. -/
def exampleInputLayer : SpnLayerInit :=
  ⟨.INPUT, "in", true, 4, true, pimatrix.ofRows [[0, 1, 2, 3]], false, emptyMatrix, false, 0⟩

/-- The four nodes that `exampleInputLayer` builds at addresses 0 to 3. -/
def exampleInputs : List Node :=
  [⟨0, .InputNode, ⟨"in_0", .INPUT, 1, some 0⟩⟩, ⟨1, .InputNode, ⟨"in_1", .INPUT, 1, some 1⟩⟩,
   ⟨2, .InputNode, ⟨"in_2", .INPUT, 1, some 2⟩⟩, ⟨3, .InputNode, ⟨"in_3", .INPUT, 1, some 3⟩⟩]

/-- A Product layer description; `has` tells whether `product_combinations` is specified
and `k` is the value its accessor returns. -/
def productLayerOfOrder (has : Bool) (k : Int) : SpnLayerInit :=
  ⟨.PRODUCT, "prod", false, 0, false, emptyMatrix, false, emptyMatrix, has, k⟩

/-- A lower layer of 467 Input nodes, at the addresses `0 .. 466`. -/
def exampleWideLayer : List Node :=
  (List.range' 0 467).map
    (fun i => (⟨i, .InputNode, ⟨fmtNodeName "in" i, .INPUT, 1, some (i : Int)⟩⟩ : Node))

/-- A Sum layer description of size 1. -/
def exampleSumLayer : SpnLayerInit :=
  ⟨.SUM, "sum", true, 1, false, emptyMatrix, false, emptyMatrix, false, 0⟩

/-- A Max layer description of size 1. -/
def exampleMaxLayer : SpnLayerInit :=
  ⟨.MAX, "max", true, 1, false, emptyMatrix, false, emptyMatrix, false, 0⟩

/-- A layered description with the given layers and no adjacency form. -/
def layeredData (layers : List SpnLayerInit) : SpnData :=
  ⟨false, emptyMatrix, false, emptyMatrix, false, emptyMatrix, layers⟩

/-- An explicit (adjacency) description given by its three parsed matrices. -/
def explicitData (nodeList adjMatrix inputIndices : pimatrix) : SpnData :=
  ⟨true, adjMatrix, true, inputIndices, true, nodeList, []⟩

/-- An explicit description of an Input node bound to input index 2 and a Sum node, with
the entries `A[0][1]` and `A[1][1]` of the adjacency matrix nonzero. -/
def exampleExplicit : SpnData :=
  explicitData (pimatrix.ofRows [[0, 3]]) (pimatrix.ofRows [[0, 1], [0, 1]])
    (pimatrix.ofRows [[2, 0]])

/-- The two nodes that `exampleExplicit` builds at addresses 0 and 1; the `nodeData` object
of the Sum node still holds the input start index of the node before it. -/
def exampleExplicitNodes : List Node :=
  [⟨0, .InputNode, ⟨"0", .INPUT, 1, some 2⟩⟩, ⟨1, .SumNode, ⟨"1", .SUM, 1, some 2⟩⟩]

/-- The edge from the Input node to the Sum node of `exampleExplicit`. -/
def exampleExplicitEdge : Edge :=
  ⟨⟨0, .InputNode, ⟨"0", .INPUT, 1, some 2⟩⟩, ⟨1, .SumNode, ⟨"1", .SUM, 1, some 2⟩⟩, true⟩

/-! ## Selection of the construction protocol: `Spn::LoadSpnInit` -/

/-- The function `Spn::LoadSpnInit`: the layered form is taken whenever the layer list is
not empty (with a warning when the adjacency form is present too), the adjacency form when
all three of its fields are present, and nothing is built otherwise. -/
def LoadSpnInit (decode : Int → Option NodeType) (spnData : SpnData) (alloc : Nat)
    (nodes : List Node) (edges : List Edge) : Option (Bool × List Node × List Edge) :=
  let bListInit := spnData.has_adjacency_matrix && spnData.has_input_indices
    && spnData.has_node_list
  let bLayerwiseInit := decide (spnData.layers.length > 0)
  if !bListInit && !bLayerwiseInit then some (true, nodes, edges)
  else if bLayerwiseInit then LoadSpnLayerInit decode spnData alloc nodes edges
  else LoadSpnListInit decode spnData alloc nodes edges

/-! ## The doubled batch and the error signal of `Spn::TrainOneBatch` -/

/-- Modelled from the spec: the constructor `pimatrix(m, n, initVal = 0)` (`pimatrix.cpp` is
not part of the sources): an `m × n` matrix filled with the initial value. -/
def pimatrix.filled (m n : Nat) (initVal : ℚ) : pimatrix :=
  ⟨m, n, fun _ _ => initVal⟩

/-- Modelled from the spec: `dest.copyRows(source, startRowSrc, rowCount, startRowDest)`
(row slice copy; `pimatrix.cpp` is not part of the sources) copies `rowCount` rows of
`source`, from row `startRowSrc` on, into the rows of `dest` from row `startRowDest` on.
What the call does with rows outside either matrix is not specified; the model changes
the rows `startRowDest ≤ i < startRowDest + rowCount` only. -/
def pimatrix.copyRows (dest source : pimatrix) (startRowSrc rowCount startRowDest : Nat) :
    pimatrix :=
  ⟨dest.size1, dest.size2, fun i j =>
    if startRowDest ≤ i ∧ i < startRowDest + rowCount then
      source.entry (startRowSrc + (i - startRowDest)) j
    else dest.entry i j⟩

/-- Modelled from the spec: `m.setValue(v, startRow, rowCount, startCol, colCount)`
("set a slice of the matrix to the given value", `pimatrix.h`; `pimatrix.cpp` is not part
of the sources).  The model changes the entries of the slice only. -/
def pimatrix.setValue (m : pimatrix) (v : ℚ) (startRow rowCount startCol colCount : Nat) :
    pimatrix :=
  ⟨m.size1, m.size2, fun i j =>
    if (startRow ≤ i ∧ i < startRow + rowCount) ∧ (startCol ≤ j ∧ j < startCol + colCount)
    then v else m.entry i j⟩

/-- Modelled from the spec: `m.element_inverse()` ("compute 1/x for each entry x in the
matrix", `pimatrix.h`; `pimatrix.cpp` is not part of the sources).  The reciprocal is the
exact one; the rounding of the `float` division is not modelled, and the model is only
meaningful for nonzero entries. -/
def pimatrix.element_inverse (m : pimatrix) : pimatrix :=
  ⟨m.size1, m.size2, fun i j => (m.entry i j)⁻¹⟩

/-- Modelled from the spec: `m.element_negate(startRow, rowCount, startCol, colCount)`
(negate a subrange; `pimatrix.cpp` is not part of the sources).  The model changes the
entries of the slice only. -/
def pimatrix.element_negate (m : pimatrix) (startRow rowCount startCol colCount : Nat) :
    pimatrix :=
  ⟨m.size1, m.size2, fun i j =>
    if (startRow ≤ i ∧ i < startRow + rowCount) ∧ (startCol ≤ j ∧ j < startCol + colCount)
    then - m.entry i j else m.entry i j⟩

/-- The loop of `TrainOneBatch` over `m_queryNodes` that sets the query columns of the
second half of the doubled batch to 1.  `GetInputStartIndex` and `GetDimension` are the
accessors of `Node` (not part of the sources). -/
def TrainOneBatch.setQueries (GetInputStartIndex GetDimension : Node → Nat) (nSamples : Nat) :
    List Node → pimatrix → pimatrix
  | [], twoBatch => twoBatch
  | q :: rest, twoBatch =>
    TrainOneBatch.setQueries GetInputStartIndex GetDimension nSamples rest
      (twoBatch.setValue 1 nSamples nSamples (GetInputStartIndex q) (GetDimension q))

/-- The doubled batch that `TrainOneBatch` builds (lines 315-330): two copies of the
batch, the query columns of the second copy set to 1. -/
def TrainOneBatch.twoBatch (GetInputStartIndex GetDimension : Node → Nat)
    (m_queryNodes : List Node) (batch : pimatrix) : pimatrix :=
  let nSamples := batch.size1
  let twoBatch := pimatrix.filled (nSamples * 2) batch.size2 0
  let twoBatch := twoBatch.copyRows batch 0 nSamples 0
  let twoBatch := twoBatch.copyRows batch 0 nSamples nSamples
  TrainOneBatch.setQueries GetInputStartIndex GetDimension nSamples m_queryNodes twoBatch

/-- The error signal that `TrainOneBatch` builds from the joint probability (lines
339-341): a copy, inverted element-wise, its second half negated. -/
def TrainOneBatch.mError (nSamples : Nat) (mJointProb : pimatrix) : pimatrix :=
  let mError := mJointProb
  let mError := mError.element_inverse
  mError.element_negate nSamples nSamples 0 1

/-- The first part of `Spn::TrainOneBatch` (lines 315-347), up to the error signal that is
seeded into the root with `AccumDerivatives`: the result holds `twoBatch`, `mJointProb`
and `mError`.  `Forward` is the forward pass of the graph on a batch; `none` is the failed
`BOOST_ASSERT` on the shape of its result. -/
def TrainOneBatch (GetInputStartIndex GetDimension : Node → Nat)
    (Forward : pimatrix → pimatrix) (m_queryNodes : List Node) (batch : pimatrix) :
    Option (pimatrix × pimatrix × pimatrix) :=
  let nSamples := batch.size1
  let twoBatch := TrainOneBatch.twoBatch GetInputStartIndex GetDimension m_queryNodes batch
  let mJointProb := Forward twoBatch
  if mJointProb.size1 = 2 * nSamples ∧ mJointProb.size2 = 1 then
    some (twoBatch, mJointProb, TrainOneBatch.mError nSamples mJointProb)
  else none

/-! ## Metrics -/

/-- Modelled from the spec: the enumeration `Metric::MetricType` is declared in the
protocol-buffer description, which is not part of the sources; the code names its member
`NLL`, every other member is `OTHER`. -/
inductive MetricType where
  | NLL | OTHER (code : Nat)
  deriving DecidableEq, Repr

/-- The message `Metric`: a type and the two repeated fields `steps` and `values`. -/
structure Metric where
  type : MetricType
  steps : List Int
  values : List ℚ
  deriving DecidableEq

/-- The message `Metrics`: the repeated field `metrics`. -/
abbrev Metrics := List Metric

/-- The index of the last metric of type `t` (the loop `for (i = size - 1; i >= 0; --i)`
with `break` of `getLastMetricAvg` and `appendStats`), `none` when the loop ends with
`i < 0`. -/
def lastMetricIndex (t : MetricType) : Metrics → Option Nat
  | [] => none
  | m :: rest =>
    match lastMetricIndex t rest with
    | some i => some (i + 1)
    | none => if m.type = t then some 0 else none

/-- The quotient `m.values(idx) / m.steps(idx)` at `idx = m.steps_size() - 1`, which
`getLastMetricAvg` and `appendStats` compute.  `none` when an index is outside its
repeated field, and when the step count is 0, where the `float` quotient is no number of
the model. -/
def Metric.lastAvg (m : Metric) : Option ℚ :=
  if m.steps.length = 0 then none
  else
    match m.values[m.steps.length - 1]?, m.steps[m.steps.length - 1]? with
    | some v, some s => if s = 0 then none else some (v / (s : ℚ))
    | _, _ => none

/-- The function `getLastMetricAvg`; `HugeValue` is `math::pimatrix::HugeValue()`. -/
def getLastMetricAvg (HugeValue : ℚ) (metrics : Metrics) (t : MetricType) : Option ℚ :=
  match lastMetricIndex t metrics with
  | none => some HugeValue
  | some i =>
    match metrics[i]? with
    | none => none
    | some m => m.lastAvg

/-- The body of the loop of `Spn::appendStats` for one metric `m` of `newMetrics`. -/
def appendStats.one (iTrainStep : Int) (metrics : Metrics) (m : Metric) : Option Metrics :=
  match m.lastAvg with
  | none => none
  | some avg =>
    match lastMetricIndex m.type metrics with
    | none => some (metrics ++ [⟨m.type, [iTrainStep], [avg]⟩])
    | some i =>
      some (metrics.modify (fun mNew => ⟨mNew.type, mNew.steps ++ [iTrainStep],
        mNew.values ++ [avg]⟩) i)

/-- The function `Spn::appendStats`: the metrics of `newMetrics` are visited from the last
to the first. -/
def appendStats (metrics newMetrics : Metrics) (iTrainStep : Int) : Option Metrics :=
  newMetrics.reverse.foldlM (appendStats.one iTrainStep) metrics

/-! ## The training loop: `Spn::Train` -/

/-- The message `Operation.StopCondition`. -/
structure StopCondition where
  all_processed : Bool
  steps : Int
  deriving DecidableEq

/-- The fields of the message `Operation` that `Spn::Train` reads. -/
structure Operation where
  name : String
  batch_size : Int
  stop_condition : StopCondition
  checkpoint_after : Int
  eval_after : Int
  normalize_each_train_step : Bool
  checkpoint_directory : String
  deriving DecidableEq

/-- The last component `%3%` of a checkpoint file name `<model>_<operation>_<%3%>.bin`. -/
inductive CheckpointTag where
  | step (iTrainStep : Int) | BEST | LAST
  deriving DecidableEq, Repr

/-- The calls of `Spn::Train` to its collaborators, in the order in which they are made.
`TrainOneBatch`, `Evaluate`, `printMetrics` and `WriteProto` carry the value of
`iTrainStep` at the call; `Evaluate` tells whether it runs on the test set. -/
inductive TrainEvent where
  | deleteDataHandler
  | create_directories
  | normalizeWeights
  | EndLoadNextBatch
  | BeginLoadNextBatch
  | TrainOneBatch (iTrainStep : Int)
  | Evaluate (testSet : Bool) (iTrainStep : Int)
  | printMetrics (iTrainStep : Int)
  | WriteProto (iTrainStep : Int) (tag : CheckpointTag)
  | Prune
  deriving DecidableEq, Repr

/-- The environment of a call of `Spn::Train`: the state of the object and the answers of
its collaborators (none of which is part of the sources), as far as they decide what
`Train` does. -/
structure TrainEnv where
  /-- The condition `!m_nodeList.empty() && m_root` of the opening assertion. -/
  validated : Bool
  /-- Whether `Util::LoadDataHandler` returns a handler. -/
  dataHandler : Bool
  /-- The value of `trainSet->GetNumBatches()` before `SetBatchSize`. -/
  numBatchesAtLoad : Nat
  /-- The value of `trainSet->GetNumBatches()` after `SetBatchSize(batch_size)`. -/
  numBatches : Nat
  /-- Whether the data handler has a test set. -/
  testSet : Bool
  /-- Whether the checkpoint directory exists. -/
  directoryExists : Bool
  /-- The result of `boost::filesystem::create_directories`. -/
  create_directories : Bool
  /-- Whether `select_model_criterion()` is `Hyperparams::CRITERION_NLL`. -/
  criterionNLL : Bool
  /-- The value of `math::pimatrix::HugeValue()`. -/
  HugeValue : ℚ
  /-- The metrics that `TrainOneBatch` leaves in `trainMetrics` at a step; `none` when the
  call is undefined. -/
  TrainOneBatch : Int → Option Metrics
  /-- The metrics that `Evaluate` leaves at a step, on the validation set (`false`) or the
  test set (`true`); `none` when the call is undefined. -/
  Evaluate : Bool → Int → Option Metrics
  /-- The series `test_metrics` of `m_modelData` at the call. -/
  test_metrics : Metrics
  /-- The series `valid_metrics` of `m_modelData` at the call. -/
  valid_metrics : Metrics
  /-- The series `train_metrics` of `m_modelData` at the call. -/
  train_metrics : Metrics

/-- The function `Spn::stopCondition`. -/
def stopCondition (cond : StopCondition) (iStep : Int) : Bool :=
  decide (iStep < cond.steps)

/-- The function `Spn::evalCondition`; `%` is the truncating remainder of C++, undefined
(`none`) for a zero divisor. -/
def evalCondition (eval_after iStep : Int) : Option Bool :=
  if eval_after = 0 then none else some (Int.tmod iStep eval_after == 0)

/-- The function `Spn::checkpointCondition`. -/
def checkpointCondition (checkpoint_after iStep : Int) : Option Bool :=
  if checkpoint_after = 0 then none else some (Int.tmod iStep checkpoint_after == 0)

/-- The state of the training loop: the loop counter, the best validation score, the
metric series of `m_modelData`, and the calls made so far. -/
structure TrainState where
  iTrainStep : Int
  bestValidScore : ℚ
  test_metrics : Metrics
  valid_metrics : Metrics
  train_metrics : Metrics
  trace : List TrainEvent
  deriving DecidableEq

/-- The metric bookkeeping of the evaluation block of the training loop (lines 196-209):
the evaluation passes on the validation set and, when there is one, on the test set, the
three `appendStats`, the `getLastMetricAvg` calls of `printMetrics`, and the validation
NLL `evalNll`.  The result is `evalNll` and the new series `test_metrics`,
`valid_metrics`, `train_metrics`; `none` when one of the calls is undefined. -/
def Train.evaluationMetrics (env : TrainEnv) (trainMetrics : Metrics) (st : TrainState) :
    Option (ℚ × Metrics × Metrics × Metrics) :=
  match env.Evaluate false st.iTrainStep with
  | none => none
  | some evalMetrics =>
    match (if env.testSet then env.Evaluate true st.iTrainStep else some []) with
    | none => none
    | some testMetrics =>
      match (if env.testSet then appendStats st.test_metrics testMetrics st.iTrainStep
          else some st.test_metrics),
        appendStats st.valid_metrics evalMetrics st.iTrainStep,
        appendStats st.train_metrics trainMetrics st.iTrainStep,
        getLastMetricAvg env.HugeValue trainMetrics MetricType.NLL,
        (if env.testSet then getLastMetricAvg env.HugeValue testMetrics MetricType.NLL
          else some 0),
        getLastMetricAvg env.HugeValue evalMetrics MetricType.NLL with
      | some test_metrics, some valid_metrics, some train_metrics, some _, some _,
          some evalNll =>
        some (evalNll, test_metrics, valid_metrics, train_metrics)
      | _, _, _, _, _, _ => none

/-- The evaluation block of the training loop (lines 194-223), entered when
`evalCondition(...) && evalOp` holds: the evaluation passes with their bookkeeping, and
the model selection, which writes the BEST checkpoint when the criterion is NLL and the
validation NLL is below the best score seen. -/
def Train.evaluation (env : TrainEnv) (trainMetrics : Metrics) (st : TrainState) :
    Option TrainState :=
  match Train.evaluationMetrics env trainMetrics st with
  | none => none
  | some (evalNll, test_metrics, valid_metrics, train_metrics) =>
    if env.criterionNLL && decide (evalNll < st.bestValidScore) then
      some ⟨st.iTrainStep, evalNll, test_metrics, valid_metrics, train_metrics,
        st.trace ++ [TrainEvent.Evaluate false st.iTrainStep]
          ++ (if env.testSet then [TrainEvent.Evaluate true st.iTrainStep] else [])
          ++ [TrainEvent.printMetrics st.iTrainStep,
              TrainEvent.WriteProto st.iTrainStep CheckpointTag.BEST]⟩
    else
      some ⟨st.iTrainStep, st.bestValidScore, test_metrics, valid_metrics, train_metrics,
        st.trace ++ [TrainEvent.Evaluate false st.iTrainStep]
          ++ (if env.testSet then [TrainEvent.Evaluate true st.iTrainStep] else [])
          ++ [TrainEvent.printMetrics st.iTrainStep]⟩

/-- The body of the training loop (lines 177-239) at step `st.iTrainStep`: the batch
hand-over, `TrainOneBatch`, the optional normalization, the evaluation block and the
checkpoint block. -/
def Train.body (trainOp : Operation) (evalOp : Option Operation) (env : TrainEnv)
    (st : TrainState) : Option TrainState :=
  match env.TrainOneBatch st.iTrainStep, evalCondition trainOp.eval_after st.iTrainStep,
    checkpointCondition trainOp.checkpoint_after st.iTrainStep with
  | some trainMetrics, some doEval, some doCheckpoint =>
    match (if doEval && evalOp.isSome then
        Train.evaluation env trainMetrics
          ⟨st.iTrainStep, st.bestValidScore, st.test_metrics, st.valid_metrics,
            st.train_metrics,
            st.trace ++ [TrainEvent.EndLoadNextBatch, TrainEvent.BeginLoadNextBatch,
                TrainEvent.TrainOneBatch st.iTrainStep]
              ++ (if trainOp.normalize_each_train_step then [TrainEvent.normalizeWeights]
                  else [])⟩
      else
        some ⟨st.iTrainStep, st.bestValidScore, st.test_metrics, st.valid_metrics,
          st.train_metrics,
          st.trace ++ [TrainEvent.EndLoadNextBatch, TrainEvent.BeginLoadNextBatch,
              TrainEvent.TrainOneBatch st.iTrainStep]
            ++ (if trainOp.normalize_each_train_step then [TrainEvent.normalizeWeights]
                else [])⟩) with
    | none => none
    | some st2 =>
      if doCheckpoint then
        some ⟨st2.iTrainStep, st2.bestValidScore, st2.test_metrics, st2.valid_metrics,
          st2.train_metrics,
          st2.trace ++ [TrainEvent.WriteProto st.iTrainStep (CheckpointTag.step st.iTrainStep),
            TrainEvent.WriteProto st.iTrainStep CheckpointTag.LAST]⟩
      else some st2
  | _, _, _ => none

/-- At most `n` passes of the training loop
`for (iTrainStep = 0; stopCondition(stopCond, iTrainStep); ++iTrainStep)`: a pass tests
the stop condition, runs the body and increments `iTrainStep`; once the condition fails
the state stays as it is. -/
def Train.iterations (trainOp : Operation) (evalOp : Option Operation) (env : TrainEnv)
    (stopCond : StopCondition) : Nat → TrainState → Option TrainState
  | 0, st => some st
  | n + 1, st =>
    if stopCondition stopCond st.iTrainStep then
      match Train.body trainOp evalOp env st with
      | none => none
      | some st1 =>
        Train.iterations trainOp evalOp env stopCond n
          ⟨st1.iTrainStep + 1, st1.bestValidScore, st1.test_metrics, st1.valid_metrics,
            st1.train_metrics, st1.trace⟩
    else some st

/-- The stop condition that `Train` uses: for "all processed" the step count is replaced
by the batch count of the training set. -/
def Train.stopCond (trainOp : Operation) (env : TrainEnv) : StopCondition :=
  if trainOp.stop_condition.all_processed then
    ⟨trainOp.stop_condition.all_processed, (env.numBatches : Int)⟩
  else trainOp.stop_condition

/-- The state in which the training loop starts. -/
def Train.start (env : TrainEnv) : TrainState :=
  ⟨0, env.HugeValue, env.test_metrics, env.valid_metrics, env.train_metrics,
    (if env.directoryExists then [] else [TrainEvent.create_directories])
      ++ [TrainEvent.normalizeWeights]⟩

/-- The function `Spn::Train`: the result is the sequence of calls it makes.  `none` is a
failed assertion or an undefined operation.  The loop counter starts at 0 and the loop
ends when it reaches the step count, so `steps.toNat` passes run the loop to its end. -/
def Train (trainOp : Operation) (evalOp : Option Operation) (env : TrainEnv) :
    Option (List TrainEvent) :=
  if !env.validated then none
  else if !env.dataHandler then some []
  else if env.numBatchesAtLoad = 0 then some [TrainEvent.deleteDataHandler]
  else if !env.directoryExists && !env.create_directories then
    some [TrainEvent.create_directories, TrainEvent.deleteDataHandler]
  else
    match Train.iterations trainOp evalOp env (Train.stopCond trainOp env)
        (Train.stopCond trainOp env).steps.toNat (Train.start env) with
    | none => none
    | some st =>
      some (st.trace ++ [TrainEvent.Prune, TrainEvent.normalizeWeights,
        TrainEvent.deleteDataHandler])

/-- The number that a list of decimal digit characters denotes, continuing from `acc`. -/
def digitsValue (acc : Nat) : List Char → Nat
  | [] => acc
  | c :: cs => digitsValue (10 * acc + (c.toNat - 48)) cs

/-! ## Auxiliary definitions for the statements about `Train` -/

/-- A metric whose last average `values(idx) / steps(idx)` is defined. -/
def Metric.wellFormed (m : Metric) : Prop := m.lastAvg ≠ none

/-- An environment whose `TrainOneBatch` and `Evaluate` calls are defined at every step
and leave metrics whose last averages are defined. -/
def TrainEnv.wellBehaved (env : TrainEnv) : Prop :=
  (∀ i, ∃ ms, env.TrainOneBatch i = some ms ∧ ∀ m ∈ ms, m.wellFormed)
  ∧ (∀ b i, ∃ ms, env.Evaluate b i = some ms ∧ ∀ m ∈ ms, m.wellFormed)

/-- The validation NLL average of a step: `getLastMetricAvg` of the metrics that
`Evaluate` leaves on the validation set at that step. -/
def validNLL (env : TrainEnv) (iTrainStep : Int) : Option ℚ :=
  match env.Evaluate false iTrainStep with
  | none => none
  | some evalMetrics => getLastMetricAvg env.HugeValue evalMetrics MetricType.NLL

/-- The calls of one pass of the training loop at step `i`, given whether the evaluation
block is entered, whether it writes the BEST checkpoint, and whether the checkpoint block
is entered. -/
def Train.stepEvents (trainOp : Operation) (env : TrainEnv) (i : Int)
    (doEval best doCheckpoint : Bool) : List TrainEvent :=
  [TrainEvent.EndLoadNextBatch, TrainEvent.BeginLoadNextBatch, TrainEvent.TrainOneBatch i]
    ++ (if trainOp.normalize_each_train_step then [TrainEvent.normalizeWeights] else [])
    ++ (if doEval then
          [TrainEvent.Evaluate false i]
            ++ (if env.testSet then [TrainEvent.Evaluate true i] else [])
            ++ [TrainEvent.printMetrics i]
            ++ (if best then [TrainEvent.WriteProto i CheckpointTag.BEST] else [])
        else [])
    ++ (if doCheckpoint then
          [TrainEvent.WriteProto i (CheckpointTag.step i),
            TrainEvent.WriteProto i CheckpointTag.LAST]
        else [])

/-- The step of a `TrainOneBatch` call. -/
def TrainEvent.trainedStep : TrainEvent → Option Int
  | TrainEvent.TrainOneBatch i => some i
  | _ => none

/-- The step of an `Evaluate` call on the validation set. -/
def TrainEvent.evaluatedStep : TrainEvent → Option Int
  | TrainEvent.Evaluate false i => some i
  | _ => none

/-- The number in the file name of a step-numbered checkpoint. -/
def TrainEvent.numberedCheckpoint : TrainEvent → Option Int
  | TrainEvent.WriteProto _ (CheckpointTag.step n) => some n
  | _ => none

/-- The step at which a LAST checkpoint is written. -/
def TrainEvent.lastCheckpoint : TrainEvent → Option Int
  | TrainEvent.WriteProto i CheckpointTag.LAST => some i
  | _ => none

/-- The steps at which `TrainOneBatch` is called, in call order. -/
def trainedSteps (trace : List TrainEvent) : List Int :=
  trace.filterMap TrainEvent.trainedStep

/-- The steps at which `Evaluate` is called on the validation set, in call order. -/
def evaluatedSteps (trace : List TrainEvent) : List Int :=
  trace.filterMap TrainEvent.evaluatedStep

/-- The numbers of the step-numbered checkpoints written, in call order. -/
def numberedCheckpoints (trace : List TrainEvent) : List Int :=
  trace.filterMap TrainEvent.numberedCheckpoint

/-- The steps at which the LAST checkpoint is written, in call order. -/
def lastCheckpoints (trace : List TrainEvent) : List Int :=
  trace.filterMap TrainEvent.lastCheckpoint

/-- A training operation: 5 fixed steps, a checkpoint every 5 steps, an evaluation every
2 steps. -/
def exampleTrainOp : Operation := ⟨"train", 10, ⟨false, 5⟩, 5, 2, false, "checkpoints"⟩

/-- An evaluation operation. -/
def exampleEvalOp : Operation := ⟨"eval", 20, ⟨true, 0⟩, 1, 1, false, "checkpoints"⟩

/-- An environment with 3 batches, no test set, and a checkpoint directory that can be
created; the validation NLL average of step `i` is `(100 - 10 * i) / 20`. -/
def exampleTrainEnv : TrainEnv :=
  ⟨true, true, 3, 3, false, false, true, true, 1000,
    fun _ => some [⟨MetricType.NLL, [10], [20]⟩],
    fun _ i => some [⟨MetricType.NLL, [20], [100 - 10 * (i : ℚ)]⟩], [], [], []⟩

/-- The environment `exampleTrainEnv` with a training set of zero batches. -/
def exampleEmptyTrainEnv : TrainEnv :=
  ⟨true, true, 0, 0, false, false, true, true, 1000,
    fun _ => some [⟨MetricType.NLL, [10], [20]⟩],
    fun _ i => some [⟨MetricType.NLL, [20], [100 - 10 * (i : ℚ)]⟩], [], [], []⟩

/-- The invariant of the training loop on which model selection rests: the best score is
at most the sentinel; every evaluation made so far was made at an earlier step, for which
the evaluation block was entered, and, when the criterion is NLL, the best score is at
most its validation NLL average; every BEST checkpoint written so far was written at an
earlier, evaluated step whose validation NLL average was below the sentinel and below
that of every evaluation made before it. -/
def Train.invariant (trainOp : Operation) (evalOp : Option Operation) (env : TrainEnv)
    (st : TrainState) : Prop :=
  st.bestValidScore ≤ env.HugeValue
  ∧ (∀ j, TrainEvent.Evaluate false j ∈ st.trace →
      j < st.iTrainStep ∧ evalOp.isSome = true
      ∧ evalCondition trainOp.eval_after j = some true
      ∧ ∃ w, validNLL env j = some w ∧ (env.criterionNLL = true → st.bestValidScore ≤ w))
  ∧ (∀ i, TrainEvent.WriteProto i CheckpointTag.BEST ∈ st.trace →
      i < st.iTrainStep ∧ TrainEvent.Evaluate false i ∈ st.trace
      ∧ env.criterionNLL = true
      ∧ ∃ v, validNLL env i = some v ∧ v < env.HugeValue
        ∧ ∀ j, j < i → TrainEvent.Evaluate false j ∈ st.trace →
            ∃ w, validNLL env j = some w ∧ v < w)

/-- The calls of the run of `exampleTrainOp` with `exampleEvalOp` in `exampleTrainEnv`. -/
def exampleTrace : List TrainEvent :=
  [TrainEvent.create_directories, TrainEvent.normalizeWeights,
    TrainEvent.EndLoadNextBatch, TrainEvent.BeginLoadNextBatch, TrainEvent.TrainOneBatch 0,
    TrainEvent.Evaluate false 0, TrainEvent.printMetrics 0,
    TrainEvent.WriteProto 0 CheckpointTag.BEST,
    TrainEvent.WriteProto 0 (CheckpointTag.step 0),
    TrainEvent.WriteProto 0 CheckpointTag.LAST,
    TrainEvent.EndLoadNextBatch, TrainEvent.BeginLoadNextBatch, TrainEvent.TrainOneBatch 1,
    TrainEvent.EndLoadNextBatch, TrainEvent.BeginLoadNextBatch, TrainEvent.TrainOneBatch 2,
    TrainEvent.Evaluate false 2, TrainEvent.printMetrics 2,
    TrainEvent.WriteProto 2 CheckpointTag.BEST,
    TrainEvent.EndLoadNextBatch, TrainEvent.BeginLoadNextBatch, TrainEvent.TrainOneBatch 3,
    TrainEvent.EndLoadNextBatch, TrainEvent.BeginLoadNextBatch, TrainEvent.TrainOneBatch 4,
    TrainEvent.Evaluate false 4, TrainEvent.printMetrics 4,
    TrainEvent.WriteProto 4 CheckpointTag.BEST,
    TrainEvent.Prune, TrainEvent.normalizeWeights, TrainEvent.deleteDataHandler]

/-! ## The passes over the ordered node list: `Spn::Forward` and `Spn::Backward` -/

/-- The calls that `Spn::Forward` and `Spn::Backward` make on the nodes of the graph, in
the order in which they are made.  The class `Node` is not part of the sources; a call is
recorded with the node it is made on. -/
inductive PassEvent where
  | SetValue (n : Node)
  | SetValueOne (n : Node) (rows : Nat)
  | Forward (n : Node)
  | Backward (n : Node)
  | GetActivations (n : Node)
  deriving DecidableEq, Repr

/-- The members of an `Spn` object: the vectors that `FromProto` fills, and the ordered
node list and the root that validation leaves (`m_nodeList` is a member of the base class
`Model`, which is not part of the sources). -/
structure SpnObject where
  m_edges : List Edge
  m_nodes : List Node
  m_inputNodes : List Node
  m_hiddenNodes : List Node
  m_queryNodes : List Node
  m_nodeList : List Node
  m_root : Option Node
  deriving DecidableEq, Repr

/-- The function `Spn::Forward`: the leaf values are set when a batch is given, then
`Forward` is called on the nodes of `m_nodeList` from `begin()` to `end()`, and the
activations of the root are read.  `none` is the dereference of a null `m_root`. -/
def Forward (spn : SpnObject) (batch : Option pimatrix) : Option (List PassEvent) :=
  let setData : List PassEvent :=
    match batch with
    | none => []
    | some b =>
      spn.m_inputNodes.map PassEvent.SetValue
        ++ spn.m_hiddenNodes.map (fun n => PassEvent.SetValueOne n b.size1)
        ++ spn.m_queryNodes.map PassEvent.SetValue
  match spn.m_root with
  | none => none
  | some root =>
    some (setData ++ spn.m_nodeList.map PassEvent.Forward ++ [PassEvent.GetActivations root])

/-- The loop of `Spn::Backward` over the reverse iterators of `m_nodeList`: a reverse
iterator at distance `k` from `rend()` stands on the element of index `k - 1`; `++it`
moves it one step towards `rend()`. -/
def Backward.loop (m_nodeList : List Node) : Nat → List PassEvent → Option (List PassEvent)
  | 0, calls => some calls
  | k + 1, calls =>
    match m_nodeList[k]? with
    | none => none
    | some n => Backward.loop m_nodeList k (calls ++ [PassEvent.Backward n])

/-- The function `Spn::Backward`: the loop starts at `rbegin()`, at distance
`m_nodeList.size()` from `rend()`. -/
def Backward (spn : SpnObject) : Option (List PassEvent) :=
  Backward.loop spn.m_nodeList spn.m_nodeList.length []

/-- The node of a `Forward` call. -/
def PassEvent.forwardNode : PassEvent → Option Node
  | PassEvent.Forward n => some n
  | _ => none

/-- The node of a `Backward` call. -/
def PassEvent.backwardNode : PassEvent → Option Node
  | PassEvent.Backward n => some n
  | _ => none

/-! ## Wiring from a stored structure: `Spn::LoadSpnStructure` and `Spn::FromProto` -/

/-- The message `EdgeData` as far as `LoadSpnStructure` reads it: the names of the two
end nodes and the `directed` flag. -/
structure EdgeData where
  node1 : String
  node2 : String
  directed : Bool
  deriving DecidableEq, Repr

/-- The message `ModelData` as far as `FromProto` and `LoadSpnStructure` read it;
`model_type_SPN` is the condition `model_type() == ModelData::SPN`. -/
structure ModelData where
  model_type_SPN : Bool
  has_spn_data : Bool
  spn_data : SpnData
  nodes : List NodeData
  edges : List EdgeData
  has_hyper_params : Bool

/-- The function `findNodeByName`; `GetName()` of a node is the name in its node data. -/
def findNodeByName (sNodeName : String) (n : Node) : Bool :=
  sNodeName == n.data.name

/-- The effect of `newNode->MergeNodeData(nodeData)` on what a pointer to a node sees: the
object at the address of `target` becomes `merged`, every other object stays as it is. -/
def mergedObject (target merged n : Node) : Node :=
  if n.addr = target.addr then merged else n

/-- The node loop of `LoadSpnStructure` (`for (i = nodes_size() - 1; i >= 0; --i)`) over
the node descriptions still to visit, last description first; `created` counts the nodes
created so far.  `MergeNodeData` is the method of `Node` (not part of the sources): the
node after the merge.  The edges are carried along because they point to the nodes that a
merge changes. -/
def LoadSpnStructure.nodeLoop (MergeNodeData : Node → NodeData → Node) (bNewModel : Bool)
    (alloc : Nat) : List NodeData → Nat → List Node → List Edge → List Node × List Edge
  | [], _, nodes, edges => (nodes, edges)
  | nodeData :: rest, created, nodes, edges =>
    if bNewModel then
      match CreateNewNode nodeData (alloc + created) with
      | some newNode =>
        LoadSpnStructure.nodeLoop MergeNodeData bNewModel alloc rest (created + 1)
          (nodes ++ [newNode]) edges
      | none =>
        LoadSpnStructure.nodeLoop MergeNodeData bNewModel alloc rest created nodes edges
    else
      match nodes.find? (findNodeByName nodeData.name) with
      | none =>
        LoadSpnStructure.nodeLoop MergeNodeData bNewModel alloc rest created nodes edges
      | some newNode =>
        LoadSpnStructure.nodeLoop MergeNodeData bNewModel alloc rest created
          (nodes.map (mergedObject newNode (MergeNodeData newNode nodeData)))
          (edges.map (fun e =>
            ⟨mergedObject newNode (MergeNodeData newNode nodeData) e.node1,
              mergedObject newNode (MergeNodeData newNode nodeData) e.node2, e.directed⟩))

/-- The edge loop of `LoadSpnStructure` (`for (i = edges_size() - 1; i >= 0; --i)`) over
the edge descriptions still to visit, last description first: a description with an end
node that `std::find_if` does not find is skipped with `continue`. -/
def LoadSpnStructure.edgeLoop (nodes : List Node) : List EdgeData → List Edge → List Edge
  | [], edges => edges
  | edgeData :: rest, edges =>
    match nodes.find? (findNodeByName edgeData.node1) with
    | none => LoadSpnStructure.edgeLoop nodes rest edges
    | some node1 =>
      match nodes.find? (findNodeByName edgeData.node2) with
      | none => LoadSpnStructure.edgeLoop nodes rest edges
      | some node2 =>
        LoadSpnStructure.edgeLoop nodes rest (edges ++ [⟨node1, node2, edgeData.directed⟩])

/-- The function `Spn::LoadSpnStructure`: the return value and the two vectors on return.
`MergeEdgeData` changes the parameters of the new edge object, which the model does not
carry. -/
def LoadSpnStructure (MergeNodeData : Node → NodeData → Node) (modelData : ModelData)
    (alloc : Nat) (nodes : List Node) (edges : List Edge) : Bool × List Node × List Edge :=
  let bNewModel := decide (nodes.length = 0) && decide (edges.length = 0)
  let afterNodes := LoadSpnStructure.nodeLoop MergeNodeData bNewModel alloc
    modelData.nodes.reverse 0 nodes edges
  (true, afterNodes.1, LoadSpnStructure.edgeLoop afterNodes.1 modelData.edges.reverse
    afterNodes.2)

/-- The function `Spn::FromProto`.  The outer `none` is the failed assertion on the model
type or an undefined `LoadSpnInit`; `some none` is the return value `NULL`.  The return
value of `LoadSpnStructure` is not looked at.  `MergeHyperparams` changes parameters of
the nodes and edges that the model does not carry.  The constructor leaves `m_root` null and the ordered node list
empty. -/
def FromProto (decode : Int → Option NodeType) (MergeNodeData : Node → NodeData → Node)
    (modelData : ModelData) (alloc : Nat) : Option (Option SpnObject) :=
  if !modelData.model_type_SPN then none
  else
    match (if modelData.has_spn_data then LoadSpnInit decode modelData.spn_data alloc [] []
        else some (true, [], [])) with
    | none => none
    | some (false, _, _) => some none
    | some (true, nodes, edges) =>
      let wired : Bool × List Node × List Edge :=
        if modelData.nodes.length > 0 ∨ modelData.edges.length > 0 then
          LoadSpnStructure MergeNodeData modelData alloc nodes edges
        else (true, nodes, edges)
      if wired.2.1.length = 0 ∨ wired.2.2.length = 0 then some none
      else
        some (some ⟨wired.2.2, wired.2.1,
          wired.2.1.filter (fun n => decide (n.data.type = NodeType.INPUT)),
          wired.2.1.filter (fun n => decide (n.data.type = NodeType.HIDDEN)),
          wired.2.1.filter (fun n => decide (n.data.type = NodeType.QUERY)), [], none⟩)

/-- An explicit description of an Input node and four Sum nodes with the edges
0 → 1, 1 → 2, 2 → 3, 3 → 1 and 3 → 4: the nodes 1, 2, 3 lie on a cycle, and node 4 is
the only node without outgoing edges. -/
def exampleCyclic : SpnData :=
  explicitData (pimatrix.ofRows [[0, 3, 3, 3, 3]])
    (pimatrix.ofRows [[0, 1, 0, 0, 0], [0, 0, 1, 0, 0], [0, 0, 0, 1, 0], [0, 1, 0, 0, 1],
      [0, 0, 0, 0, 0]])
    (pimatrix.ofRows [[0, 0, 0, 0, 0]])

/-- An explicit description of a Sum node, an Input node and a Sum node with the edges
0 → 2 and 1 → 2: no edge enters the Sum node 0. -/
def exampleOrphanSum : SpnData :=
  explicitData (pimatrix.ofRows [[3, 0, 3]])
    (pimatrix.ofRows [[0, 0, 1], [0, 0, 1], [0, 0, 0]]) (pimatrix.ofRows [[0, 0, 0]])

/-- An Input layer of size 2 whose type vector makes its second node a Sum node. -/
def exampleMixedInputLayer : SpnLayerInit :=
  ⟨.INPUT, "in", true, 2, true, pimatrix.ofRows [[0, 1]], true, pimatrix.ofRows [[0, 3]],
    false, 0⟩

/-- An explicit description of a single Input node whose input-index vector is empty. -/
def exampleNoInputIndices : SpnData :=
  explicitData (pimatrix.ofRows [[0]]) (pimatrix.ofRows [[0]]) emptyMatrix

/-- The model description of a stored SPN without an own node list. -/
def storedModel (spnData : SpnData) (edges : List EdgeData) : ModelData :=
  ⟨true, true, spnData, [], edges, false⟩

/-- The method `MergeNodeData` taken as the replacement of the node data, for the concrete
examples. -/
def replaceNodeData (n : Node) (nodeData : NodeData) : Node :=
  ⟨n.addr, n.cls, nodeData⟩

/-! ## Auxiliary definitions for the statements about wiring and passes -/

/-- The edge that the edge loop of `LoadSpnStructure` creates for an edge description over
the node vector `nodes`, if it creates one: both end nodes have to be found by name. -/
def LoadSpnStructure.wire (nodes : List Node) (edgeData : EdgeData) : Option Edge :=
  match nodes.find? (findNodeByName edgeData.node1),
    nodes.find? (findNodeByName edgeData.node2) with
  | some node1, some node2 => some ⟨node1, node2, edgeData.directed⟩
  | _, _ => none

/-- The model description without the edge descriptions equal to `edgeData`. -/
def ModelData.withoutEdge (modelData : ModelData) (edgeData : EdgeData) : ModelData :=
  ⟨modelData.model_type_SPN, modelData.has_spn_data, modelData.spn_data, modelData.nodes,
    modelData.edges.filter (fun d => decide (d ≠ edgeData)), modelData.has_hyper_params⟩

/-- The nodes on which a pass calls `Forward`, in call order. -/
def forwardNodes (calls : List PassEvent) : List Node :=
  calls.filterMap PassEvent.forwardNode

/-- The nodes on which a pass calls `Backward`, in call order. -/
def backwardNodes (calls : List PassEvent) : List Node :=
  calls.filterMap PassEvent.backwardNode

/-- An `Spn` object whose ordered node list holds the two nodes of `exampleExplicit`, with
the Sum node as root. -/
def exampleValidated : SpnObject :=
  ⟨[exampleExplicitEdge], exampleExplicitNodes,
    [⟨0, .InputNode, ⟨"0", .INPUT, 1, some 2⟩⟩], [], [], exampleExplicitNodes,
    some ⟨1, .SumNode, ⟨"1", .SUM, 1, some 2⟩⟩⟩

/-- There is a directed edge from `a` to `b` in the edge vector. -/
def connected (edges : List Edge) (a b : Node) : Prop :=
  ∃ e ∈ edges, e.node1 = a ∧ e.node2 = b

/-- The node that `exampleCyclic` builds at position `i`. -/
def exampleCyclicNode (i : Nat) : Node :=
  if i = 0 then ⟨0, .InputNode, ⟨"0", .INPUT, 1, some 0⟩⟩
  else ⟨i, .SumNode, ⟨toString i, .SUM, 1, some 0⟩⟩

/-- The five nodes that `exampleCyclic` builds. -/
def exampleCyclicNodes : List Node :=
  (List.range 5).map exampleCyclicNode

/-- The five edges that `exampleCyclic` builds, in creation order. -/
def exampleCyclicEdges : List Edge :=
  [(0, 1), (1, 2), (3, 1), (2, 3), (3, 4)].map
    (fun q => ⟨exampleCyclicNode q.1, exampleCyclicNode q.2, true⟩)

/-! ## Validation: the root is the unique sink and comes last -/

theorem Validate.findRoot_some (out : Node → Nat) (l : List Node) (r : Node) :
    Validate.findRoot out l (some r)
      = (decide (l.countP (fun n => decide (out n = 0)) = 0), some r) := by
  induction l with
  | nil => simp [Validate.findRoot]
  | cons n rest ih =>
    by_cases hz : out n = 0
    · simp [Validate.findRoot, hz]
    · simp [Validate.findRoot, hz, ih]

theorem Validate.findRoot_none (out : Node → Nat) (l : List Node) :
    Validate.findRoot out l none
      = (decide (l.countP (fun n => decide (out n = 0)) ≤ 1),
         l.find? (fun n => decide (out n = 0))) := by
  induction l with
  | nil => simp [Validate.findRoot]
  | cons n rest ih =>
    by_cases hz : out n = 0
    · simp [Validate.findRoot, hz, Validate.findRoot_some]
    · simp [Validate.findRoot, hz, ih]

theorem find_sink_eq_last_iff (out : Node → Nat) (l : List Node) (h : l ≠ [])
    (hc : l.countP (fun n => decide (out n = 0)) ≤ 1) :
    l.find? (fun n => decide (out n = 0)) = some (l.getLast h)
      ↔ l.countP (fun n => decide (out n = 0)) = 1 ∧ out (l.getLast h) = 0 := by
  obtain ⟨init, hl⟩ : ∃ init, l = init ++ [l.getLast h] :=
    ⟨l.dropLast, (List.dropLast_append_getLast h).symm⟩
  generalize l.getLast h = last at hl
  subst hl
  constructor
  · intro hf
    have hz : out last = 0 := by
      have := List.find?_some hf
      simpa using this
    refine ⟨?_, hz⟩
    have : 1 ≤ (init ++ [last]).countP (fun n => decide (out n = 0)) := by
      simp [List.countP_append, hz]
    omega
  · rintro ⟨hone, hz⟩
    have hinit : init.countP (fun n => decide (out n = 0)) = 0 := by
      simp [List.countP_append, hz] at hone
      simpa using hone
    have hnone : init.find? (fun n => decide (out n = 0)) = none := by
      rw [List.find?_eq_none]
      intro x hx
      have := (List.countP_eq_zero.mp hinit) x hx
      simpa using this
    simp [List.find?_append, hnone, hz]

/-- Claim C1: when the base-model validation succeeds and the ordered node list is not
empty, `Spn::Validate` returns; it returns true exactly when one single entry of the node
list has zero outgoing edges and the last entry has zero outgoing edges (so that single
node is the last one), and when it returns true `m_root` is the last node of the list. -/
theorem Validate_true_iff_unique_sink_last (GetOutgoingEdgesCount : Node → Nat)
    (m_nodeList : List Node) (m_root : Option Node) (h : m_nodeList ≠ []) :
    ∃ b root, Validate true GetOutgoingEdgesCount m_nodeList m_root = some (b, root)
      ∧ (b = true ↔
          (m_nodeList.countP (fun n => decide (GetOutgoingEdgesCount n = 0)) = 1
            ∧ GetOutgoingEdgesCount (m_nodeList.getLast h) = 0))
      ∧ (b = true → root = some (m_nodeList.getLast h)) := by
  have hlast : m_nodeList.getLast? = some (m_nodeList.getLast h) :=
    List.getLast?_eq_getLast _ h
  by_cases hc : m_nodeList.countP (fun n => decide (GetOutgoingEdgesCount n = 0)) ≤ 1
  · refine ⟨decide (m_nodeList.find? (fun n => decide (GetOutgoingEdgesCount n = 0))
        = some (m_nodeList.getLast h)),
      m_nodeList.find? (fun n => decide (GetOutgoingEdgesCount n = 0)), ?_, ?_, ?_⟩
    · simp only [Validate, Validate.findRoot_none, hc, decide_True, hlast]
      cases hf : m_nodeList.find? (fun n => decide (GetOutgoingEdgesCount n = 0)) <;> simp
    · rw [← find_sink_eq_last_iff GetOutgoingEdgesCount m_nodeList h hc]
      simp
    · simp
  · refine ⟨false, m_nodeList.find? (fun n => decide (GetOutgoingEdgesCount n = 0)),
      ?_, ?_, ?_⟩
    · simp only [Validate, Validate.findRoot_none, hc, decide_False]
      rfl
    · constructor
      · intro hb
        cases hb
      · rintro ⟨hone, -⟩
        omega
    · intro hb
      cases hb

/-- A three-node list whose only sink is the last node validates, with that node as
root. -/
theorem Validate_true_iff_unique_sink_last_witness :
    ∃ b root,
      Validate true (fun n => if n.addr = 2 then 0 else 1)
          [⟨0, .InputNode, ⟨"0", .INPUT, 1, some 0⟩⟩, ⟨1, .InputNode, ⟨"1", .INPUT, 1, some 1⟩⟩,
           ⟨2, .SumNode, ⟨"2", .SUM, 1, none⟩⟩] none = some (b, root)
      ∧ (b = true ↔
          (([⟨0, .InputNode, ⟨"0", .INPUT, 1, some 0⟩⟩, ⟨1, .InputNode, ⟨"1", .INPUT, 1, some 1⟩⟩,
             ⟨2, .SumNode, ⟨"2", .SUM, 1, none⟩⟩] : List Node).countP
              (fun n => decide ((fun n : Node => if n.addr = 2 then 0 else 1) n = 0)) = 1
            ∧ (fun n : Node => if n.addr = 2 then 0 else 1)
                (([⟨0, .InputNode, ⟨"0", .INPUT, 1, some 0⟩⟩,
                   ⟨1, .InputNode, ⟨"1", .INPUT, 1, some 1⟩⟩,
                   ⟨2, .SumNode, ⟨"2", .SUM, 1, none⟩⟩] : List Node).getLast (by simp)) = 0))
      ∧ (b = true → root = some
          (([⟨0, .InputNode, ⟨"0", .INPUT, 1, some 0⟩⟩, ⟨1, .InputNode, ⟨"1", .INPUT, 1, some 1⟩⟩,
             ⟨2, .SumNode, ⟨"2", .SUM, 1, none⟩⟩] : List Node).getLast (by simp))) :=
  Validate_true_iff_unique_sink_last (fun n => if n.addr = 2 then 0 else 1)
    [⟨0, .InputNode, ⟨"0", .INPUT, 1, some 0⟩⟩, ⟨1, .InputNode, ⟨"1", .INPUT, 1, some 1⟩⟩,
     ⟨2, .SumNode, ⟨"2", .SUM, 1, none⟩⟩] none (by simp)

/-! ## Node creation -/

theorem CreateNewNode_eq (nodeData : NodeData) (addr : Nat) :
    CreateNewNode nodeData addr = some ⟨addr, classOf nodeData.type, nodeData⟩ := by
  unfold CreateNewNode classOf
  cases nodeData.type <;> rfl

theorem layerNode_injective (layerInit : SpnLayerInit) (alloc : Nat) {a b : Nat}
    (h : layerNode layerInit alloc a = layerNode layerInit alloc b) : a = b := by
  have := congrArg Node.addr h
  simp only [layerNode] at this
  omega

/-! ## Sum layers -/

theorem length_flatMap_const {α β : Type} (ts : List α) (f : α → List β) (n : Nat)
    (h : ∀ t ∈ ts, (f t).length = n) : (ts.flatMap f).length = ts.length * n := by
  induction ts with
  | nil => simp
  | cons t rest ih =>
    have h1 : (f t).length = n := h t (by simp)
    have h2 : (rest.flatMap f).length = rest.length * n :=
      ih (fun u hu => h u (by simp [hu]))
    simp only [List.flatMap_cons, List.length_append, List.length_cons, h1, h2]
    ring

theorem CreateSumMaxLayer.loop_eq (layerInit : SpnLayerInit) (lowerLayer : List Node)
    (alloc : Nat) (fuel i : Nat) (newNodes : List Node) (newEdges : List Edge) :
    CreateSumMaxLayer.loop layerInit lowerLayer alloc fuel i newNodes newEdges
      = some (newNodes ++ (List.range' i fuel).map (layerNode layerInit alloc),
          newEdges ++ (List.range' i fuel).flatMap (fun t =>
            lowerLayer.map (fun lower => (⟨lower, layerNode layerInit alloc t, true⟩ : Edge)))) := by
  induction fuel generalizing i newNodes newEdges with
  | zero => simp [CreateSumMaxLayer.loop]
  | succ fuel ih =>
    simp only [CreateSumMaxLayer.loop, CreateNewNode_eq, ih, List.range'_succ, List.map_cons,
      List.flatMap_cons, List.append_assoc, List.singleton_append]
    rfl

theorem filter_blocks_into (lowerLayer : List Node) (mk : Nat → Node)
    (hinj : ∀ a b, mk a = mk b → a = b) (ts : List Nat) (hts : ts.Nodup) (t0 : Nat)
    (ht0 : t0 ∈ ts) :
    ((ts.flatMap (fun t => lowerLayer.map (fun lower => (⟨lower, mk t, true⟩ : Edge)))).filter
        (fun e => decide (e.node2 = mk t0))).map (fun e => e.node1) = lowerLayer := by
  have hself : ∀ t, ((lowerLayer.map (fun lower => (⟨lower, mk t, true⟩ : Edge))).filter
      (fun e => decide (e.node2 = mk t))).map (fun e => e.node1) = lowerLayer := by
    intro t
    induction lowerLayer with
    | nil => rfl
    | cons x xs ih => simp [List.filter_cons, ih]
  have hother : ∀ t, t ≠ t0 → (lowerLayer.map (fun lower => (⟨lower, mk t, true⟩ : Edge))).filter
      (fun e => decide (e.node2 = mk t0)) = [] := by
    intro t ht
    rw [List.filter_eq_nil_iff]
    intro e he
    obtain ⟨x, -, rfl⟩ := List.mem_map.mp he
    simpa using fun h => ht (hinj _ _ h)
  have hnone : ∀ ts : List Nat, t0 ∉ ts →
      (ts.flatMap (fun t => lowerLayer.map (fun lower => (⟨lower, mk t, true⟩ : Edge)))).filter
        (fun e => decide (e.node2 = mk t0)) = [] := by
    intro ts
    induction ts with
    | nil => intro _; rfl
    | cons t rest ih =>
      intro hnot
      have h1 : t ≠ t0 := fun h => hnot (by simp [h])
      have h2 : t0 ∉ rest := fun h => hnot (by simp [h])
      simp [List.flatMap_cons, List.filter_append, hother t h1, ih h2]
  induction ts with
  | nil => cases ht0
  | cons t rest ih =>
    have hnd := List.nodup_cons.mp hts
    by_cases h : t = t0
    · subst h
      simp only [List.flatMap_cons, List.filter_append, List.map_append, hself,
        hnone rest hnd.1, List.map_nil, List.append_nil]
    · have hmem : t0 ∈ rest := by
        rcases List.mem_cons.mp ht0 with h' | h'
        · exact absurd h'.symm h
        · exact h'
      simp only [List.flatMap_cons, List.filter_append, List.map_append, hother t h,
        List.map_nil, List.nil_append]
      exact ih hnd.2 hmem

/-- Claim C8: for a Sum layer description with explicit size `s` over a lower layer of `n`
nodes, `CreateLayer` (called, as `LoadSpnLayerInit` does, with empty output vectors)
succeeds and creates `s` distinct Sum nodes and `s * n` edges; every edge is directed and
enters a new node, and the sources of the edges entering a new node are, in order, exactly
the nodes of the lower layer.  A Sum layer description without a size is rejected with
nothing created. -/
theorem CreateLayer_sum_fully_connected (decode : Int → Option NodeType)
    (layerInit : SpnLayerInit) (lowerLayer : List Node) (alloc s : Nat)
    (htype : layerInit.type = NodeType.SUM) :
    (layerInit.has_size = true → layerInit.size = (s : Int) →
      ∃ newNodes newEdges,
        CreateLayer decode layerInit lowerLayer alloc [] [] = some (true, newNodes, newEdges)
        ∧ newNodes.length = s ∧ newNodes.Nodup
        ∧ newEdges.length = s * lowerLayer.length
        ∧ (∀ e ∈ newEdges, e.directed = true ∧ e.node2 ∈ newNodes)
        ∧ (∀ v ∈ newNodes, v.cls = NodeClass.SumNode ∧ v.data.type = NodeType.SUM
            ∧ (newEdges.filter (fun e => decide (e.node2 = v))).map (fun e => e.node1)
                = lowerLayer))
    ∧ (layerInit.has_size = false →
        CreateLayer decode layerInit lowerLayer alloc [] [] = some (false, [], [])) := by
  constructor
  · intro hsize hs
    refine ⟨[] ++ (List.range' 0 s).map (layerNode layerInit alloc),
      [] ++ (List.range' 0 s).flatMap (fun t =>
        lowerLayer.map (fun lower => (⟨lower, layerNode layerInit alloc t, true⟩ : Edge))),
      ?_, ?_, ?_, ?_, ?_, ?_⟩
    · simp only [CreateLayer, htype, CreateSumMaxLayer, hsize, hs, Int.toNat_ofNat,
        CreateSumMaxLayer.loop_eq]
      simp
    · simp
    · refine (List.nodup_range' _ _).map_on ?_
      intro a _ b _ h
      exact layerNode_injective layerInit alloc h
    · rw [List.nil_append, length_flatMap_const _ _ lowerLayer.length (by simp)]
      simp
    · intro e he
      simp only [List.nil_append, List.mem_flatMap, List.mem_map] at he
      obtain ⟨t, ht, x, -, rfl⟩ := he
      exact ⟨rfl, by simpa using ⟨t, by simpa using ht, rfl⟩⟩
    · intro v hv
      simp only [List.nil_append, List.mem_map] at hv
      obtain ⟨t, ht, rfl⟩ := hv
      refine ⟨?_, ?_, ?_⟩
      · simp [layerNode, htype, classOf]
      · simp [layerNode, htype]
      · rw [List.nil_append]
        exact filter_blocks_into lowerLayer (layerNode layerInit alloc)
          (fun a b h => layerNode_injective layerInit alloc h) _ (List.nodup_range' _ _) t ht
  · intro hsize
    simp [CreateLayer, htype, CreateSumMaxLayer, hsize]

/-- The witness of claim C8: the Sum layer of size 1 over the four example inputs. -/
theorem CreateLayer_sum_fully_connected_witness :
    ∃ newNodes newEdges,
      CreateLayer declarationOrder exampleSumLayer exampleInputs 4 [] []
        = some (true, newNodes, newEdges)
      ∧ newNodes.length = 1 ∧ newNodes.Nodup
      ∧ newEdges.length = 1 * exampleInputs.length
      ∧ (∀ e ∈ newEdges, e.directed = true ∧ e.node2 ∈ newNodes)
      ∧ (∀ v ∈ newNodes, v.cls = NodeClass.SumNode ∧ v.data.type = NodeType.SUM
          ∧ (newEdges.filter (fun e => decide (e.node2 = v))).map (fun e => e.node1)
              = exampleInputs) :=
  (CreateLayer_sum_fully_connected declarationOrder exampleSumLayer exampleInputs 4 1 rfl).1
    rfl rfl

/-! ## Max layers -/

/-- Claim C9, evaluated at a Max layer of size 1 over the four example inputs:
`CreateLayer` has no `case` for the Max type and returns false with nothing created,
although `CreateSumMaxLayer`, which it never reaches for that type, builds the fully
connected Max node. -/
theorem CreateLayer_max_layer_rejected :
    CreateLayer declarationOrder exampleMaxLayer exampleInputs 4 [] [] = some (false, [], [])
    ∧ CreateSumMaxLayer exampleMaxLayer exampleInputs 4 [] []
        = some (true, [layerNode exampleMaxLayer 4 0],
            exampleInputs.map (fun lower => ⟨lower, layerNode exampleMaxLayer 4 0, true⟩)) := by
  constructor <;> decide

/-! ## The guard of `CreateProductLayer` -/

/-- Claim C7, evaluated at two Product layer descriptions over the four example inputs:
with `product_combinations = 4` specified the layer is built (15 nodes, 32 edges) and the
function returns true; with `product_combinations` not specified and an accessor value of
0 the function returns true as well.  The guard only rejects an unspecified field whose
accessor value lies in 1..3. -/
theorem CreateProductLayer_guard_accepts :
    (CreateProductLayer (productLayerOfOrder true 4) exampleInputs 4 [] []).map
        (fun r => (r.1, r.2.1.length, r.2.2.length)) = some (true, 15, 32)
    ∧ CreateProductLayer (productLayerOfOrder false 0) exampleInputs 4 [] []
        = some (true, [], [])
    ∧ CreateProductLayer (productLayerOfOrder false 2) exampleInputs 4 [] []
        = some (false, [], []) := by
  refine ⟨?_, ?_, ?_⟩ <;> decide

/-! ## Failure policy of the layered construction -/

theorem LoadSpnLayerInit.loop_append (decode : Int → Option NodeType)
    (pre rest : List SpnLayerInit) (st0 st : LayerState)
    (h : LoadSpnLayerInit.loop decode pre st0 = some (true, st)) :
    LoadSpnLayerInit.loop decode (pre ++ rest) st0 = LoadSpnLayerInit.loop decode rest st := by
  induction pre generalizing st0 with
  | nil =>
    simp only [LoadSpnLayerInit.loop, Option.some.injEq, Prod.mk.injEq, true_and] at h
    subst h
    rfl
  | cons l pre ih =>
    simp only [List.cons_append, LoadSpnLayerInit.loop] at h ⊢
    rcases hc : CreateLayer decode l st0.lastLayer st0.alloc [] [] with _ | ⟨b, ns, es⟩
    · simp [hc] at h
    · cases b
      · simp [hc] at h
      · simp only [hc] at h ⊢
        exact ih _ h

/-- Claim C10: when the layers before some layer are all built and the creation of that
layer fails, `LoadSpnLayerInit`, called with empty output vectors, returns false and both
output vectors are empty. -/
theorem LoadSpnLayerInit_failure_returns_nothing (decode : Int → Option NodeType)
    (spnData : SpnData) (alloc : Nat) (pre post : List SpnLayerInit)
    (layerInit : SpnLayerInit) (st : LayerState) (newNodes : List Node)
    (newEdges : List Edge)
    (hlayers : spnData.layers = pre ++ layerInit :: post)
    (hpre : LoadSpnLayerInit.loop decode pre ⟨[], alloc, [], []⟩ = some (true, st))
    (hfail : CreateLayer decode layerInit st.lastLayer st.alloc [] []
      = some (false, newNodes, newEdges)) :
    LoadSpnLayerInit decode spnData alloc [] [] = some (false, [], []) := by
  have hloop : LoadSpnLayerInit.loop decode spnData.layers ⟨[], alloc, [], []⟩
      = some (false, ⟨st.lastLayer, st.alloc, [], []⟩) := by
    rw [hlayers, LoadSpnLayerInit.loop_append decode pre _ _ st hpre]
    simp [LoadSpnLayerInit.loop, hfail]
  unfold LoadSpnLayerInit
  rcases hl : spnData.layers with _ | ⟨layer0, tl⟩
  · rw [hl] at hlayers
    cases pre <;> simp at hlayers
  · rw [hl] at hloop
    by_cases h0 : layer0.type ≠ NodeType.INPUT
    · simp [h0]
    · simp only [h0, if_false, hloop]

/-- The witness of claim C10: an Input layer followed by a Max layer, whose creation
fails after the four input nodes were built. -/
theorem LoadSpnLayerInit_failure_returns_nothing_witness :
    LoadSpnLayerInit declarationOrder (layeredData [exampleInputLayer, exampleMaxLayer]) 0 [] []
      = some (false, [], []) :=
  LoadSpnLayerInit_failure_returns_nothing declarationOrder
    (layeredData [exampleInputLayer, exampleMaxLayer]) 0 [exampleInputLayer] []
    exampleMaxLayer ⟨exampleInputs, 4, exampleInputs, []⟩ [] [] rfl (by decide) (by decide)

/-! ## Explicit construction: the adjacency pass -/

theorem pimatrix.get_eq_some {m : pimatrix} {i j : Nat} {a : ℚ} (h : m.get i j = some a) :
    a = m.entry i j ∧ i < m.size1 ∧ j < m.size2 := by
  unfold pimatrix.get at h
  split at h
  · rename_i hb
    simp only [Option.some.injEq] at h
    exact ⟨h.symm, hb.1, hb.2⟩
  · cases h

theorem pimatrix.get_of_lt {m : pimatrix} {i j : Nat} (hi : i < m.size1) (hj : j < m.size2) :
    m.get i j = some (m.entry i j) := by
  simp [pimatrix.get, hi, hj]

theorem LoadSpnListInit.rowLoop_true (adjMatrix : pimatrix) (nodes : List Node) (i : Nat)
    (fuel j : Nat) (edges edges1 : List Edge)
    (h : LoadSpnListInit.rowLoop adjMatrix nodes i fuel j edges = some (true, edges1)) :
    edges1 = edges ++ ((List.range' j fuel).filterMap (pairOf adjMatrix i)).filterMap
        (edgeOf nodes)
      ∧ ∀ c, j ≤ c → c < j + fuel →
          ¬ (adjMatrix.entry i c ≠ 0 ∧ adjMatrix.entry c i ≠ 0) := by
  induction fuel generalizing j edges with
  | zero =>
    simp only [LoadSpnListInit.rowLoop, Option.some.injEq, Prod.mk.injEq, true_and] at h
    subst h
    refine ⟨by simp, ?_⟩
    intro c h1 h2
    omega
  | succ fuel ih =>
    unfold LoadSpnListInit.rowLoop at h
    rcases ha : adjMatrix.get i j with _ | a
    · simp [ha] at h
    rcases hb : adjMatrix.get j i with _ | b
    · simp [ha, hb] at h
    obtain ⟨rfl, -, -⟩ := pimatrix.get_eq_some ha
    obtain ⟨rfl, -, -⟩ := pimatrix.get_eq_some hb
    simp only [ha, hb] at h
    by_cases hsym : adjMatrix.entry i j ≠ 0 ∧ adjMatrix.entry j i ≠ 0
    · simp [hsym] at h
    · simp only [hsym, if_false] at h
      have hstep : ∀ c, j ≤ c → c < j + (fuel + 1) →
          (∀ c, j + 1 ≤ c → c < j + 1 + fuel →
            ¬ (adjMatrix.entry i c ≠ 0 ∧ adjMatrix.entry c i ≠ 0)) →
          ¬ (adjMatrix.entry i c ≠ 0 ∧ adjMatrix.entry c i ≠ 0) := by
        intro c h1 h2 hrest
        by_cases hc : c = j
        · subst hc
          exact hsym
        · exact hrest c (by omega) (by omega)
      by_cases h1 : adjMatrix.entry i j ≠ 0
      · rw [if_pos h1] at h
        rcases hni : nodes[i]? with _ | ni
        · simp [hni] at h
        rcases hnj : nodes[j]? with _ | nj
        · simp [hni, hnj] at h
        simp only [hni, hnj] at h
        obtain ⟨heq, hrest⟩ := ih _ _ h
        refine ⟨?_, fun c hc1 hc2 => hstep c hc1 hc2 hrest⟩
        rw [heq, List.range'_succ]
        simp [pairOf, h1, edgeOf, hni, hnj]
      · rw [if_neg h1] at h
        by_cases h2 : adjMatrix.entry j i ≠ 0
        · rw [if_pos h2] at h
          rcases hnj : nodes[j]? with _ | nj
          · simp [hnj] at h
          rcases hni : nodes[i]? with _ | ni
          · simp [hni, hnj] at h
          simp only [hni, hnj] at h
          obtain ⟨heq, hrest⟩ := ih _ _ h
          refine ⟨?_, fun c hc1 hc2 => hstep c hc1 hc2 hrest⟩
          rw [heq, List.range'_succ]
          simp [pairOf, h1, h2, edgeOf, hni, hnj]
        · rw [if_neg h2] at h
          obtain ⟨heq, hrest⟩ := ih _ _ h
          refine ⟨?_, fun c hc1 hc2 => hstep c hc1 hc2 hrest⟩
          rw [heq, List.range'_succ]
          simp [pairOf, h1, h2]

theorem LoadSpnListInit.adjLoop_true (adjMatrix : pimatrix) (nodes : List Node)
    (fuel i : Nat) (edges edges1 : List Edge)
    (h : LoadSpnListInit.adjLoop adjMatrix nodes fuel i edges = some (true, edges1)) :
    edges1 = edges ++ ((List.range' i fuel).flatMap (fun r =>
        (List.range' 0 r).filterMap (pairOf adjMatrix r))).filterMap (edgeOf nodes)
      ∧ ∀ r c, i ≤ r → r < i + fuel → c < r →
          ¬ (adjMatrix.entry r c ≠ 0 ∧ adjMatrix.entry c r ≠ 0) := by
  induction fuel generalizing i edges with
  | zero =>
    simp only [LoadSpnListInit.adjLoop, Option.some.injEq, Prod.mk.injEq, true_and] at h
    subst h
    refine ⟨by simp, ?_⟩
    intro r c h1 h2
    omega
  | succ fuel ih =>
    unfold LoadSpnListInit.adjLoop at h
    rcases hr : LoadSpnListInit.rowLoop adjMatrix nodes i i 0 edges with _ | ⟨b, es⟩
    · simp [hr] at h
    cases b
    · simp [hr] at h
    simp only [hr] at h
    obtain ⟨heq1, hrow⟩ := LoadSpnListInit.rowLoop_true _ _ _ _ _ _ _ hr
    obtain ⟨heq, hrest⟩ := ih _ _ h
    constructor
    · rw [heq, heq1, List.range'_succ]
      simp [List.filterMap_append]
    · intro r c h1 h2 h3
      by_cases hri : r = i
      · subst hri
        exact hrow c (by omega) (by omega)
      · exact hrest r c (by omega) (by omega) h3

theorem LoadSpnListInit.rowLoop_false (adjMatrix : pimatrix) (nodes : List Node) (i : Nat)
    (fuel j : Nat) (edges edges1 : List Edge)
    (h : LoadSpnListInit.rowLoop adjMatrix nodes i fuel j edges = some (false, edges1)) :
    edges1 = [] := by
  induction fuel generalizing j edges with
  | zero => simp [LoadSpnListInit.rowLoop] at h
  | succ fuel ih =>
    unfold LoadSpnListInit.rowLoop at h
    rcases ha : adjMatrix.get i j with _ | a
    · simp [ha] at h
    rcases hb : adjMatrix.get j i with _ | b
    · simp [ha, hb] at h
    simp only [ha, hb] at h
    split at h
    · simp only [Option.some.injEq, Prod.mk.injEq, true_and] at h
      exact h.symm
    · split at h
      · split at h
        · exact ih _ _ h
        · cases h
      · split at h
        · split at h
          · exact ih _ _ h
          · cases h
        · exact ih _ _ h

theorem LoadSpnListInit.adjLoop_false (adjMatrix : pimatrix) (nodes : List Node)
    (fuel i : Nat) (edges edges1 : List Edge)
    (h : LoadSpnListInit.adjLoop adjMatrix nodes fuel i edges = some (false, edges1)) :
    edges1 = [] := by
  induction fuel generalizing i edges with
  | zero => simp [LoadSpnListInit.adjLoop] at h
  | succ fuel ih =>
    unfold LoadSpnListInit.adjLoop at h
    rcases hr : LoadSpnListInit.rowLoop adjMatrix nodes i i 0 edges with _ | ⟨b, es⟩
    · simp [hr] at h
    cases b
    · simp only [hr, Option.some.injEq, Prod.mk.injEq, true_and] at h
      exact h.symm
    · simp only [hr] at h
      exact ih _ _ h

theorem LoadSpnListInit.rowLoop_isSome (adjMatrix : pimatrix) (nodes : List Node) (i : Nat)
    (hrow : i < adjMatrix.size1) (hcol : i < adjMatrix.size2) (hnodes : i < nodes.length)
    (fuel j : Nat) (hj : j + fuel ≤ i) (edges : List Edge) :
    ∃ r, LoadSpnListInit.rowLoop adjMatrix nodes i fuel j edges = some r := by
  induction fuel generalizing j edges with
  | zero => exact ⟨_, rfl⟩
  | succ fuel ih =>
    unfold LoadSpnListInit.rowLoop
    have hji : j < i := by omega
    rw [pimatrix.get_of_lt hrow (by omega), pimatrix.get_of_lt (by omega) hcol]
    have hni : nodes[i]? = some nodes[i] := List.getElem?_eq_getElem hnodes
    have hnj : nodes[j]? = some (nodes[j]) := List.getElem?_eq_getElem (by omega)
    simp only [hni, hnj]
    split
    · exact ⟨_, rfl⟩
    · split
      · exact ih _ (by omega) _
      · split
        · exact ih _ (by omega) _
        · exact ih _ (by omega) _

theorem LoadSpnListInit.adjLoop_isSome (adjMatrix : pimatrix) (nodes : List Node)
    (hsq : adjMatrix.size1 = adjMatrix.size2) (hnodes : adjMatrix.size1 ≤ nodes.length)
    (fuel i : Nat) (hi : i + fuel ≤ adjMatrix.size1) (edges : List Edge) :
    ∃ r, LoadSpnListInit.adjLoop adjMatrix nodes fuel i edges = some r := by
  induction fuel generalizing i edges with
  | zero => exact ⟨_, rfl⟩
  | succ fuel ih =>
    unfold LoadSpnListInit.adjLoop
    obtain ⟨⟨b, es⟩, hr⟩ := LoadSpnListInit.rowLoop_isSome adjMatrix nodes i (by omega)
      (by omega) (by omega) i 0 (by omega) edges
    rw [hr]
    cases b
    · exact ⟨_, rfl⟩
    · exact ih _ (by omega) _

/-! ## Explicit construction: the node pass -/

theorem toInt_eq_some {x : ℚ} {c : Int} (h : toInt x = some c) :
    c = truncate x ∧ -2 ^ 31 ≤ c ∧ c < 2 ^ 31 := by
  unfold toInt at h
  split at h
  · rename_i hr
    simp only [Option.some.injEq] at h
    subst h
    exact ⟨rfl, hr.1, hr.2⟩
  · cases h

theorem LoadSpnListInit.nodeLoop_true (decode : Int → Option NodeType)
    (nodeList inputIndices : pimatrix) (alloc : Nat) (fuel i : Nat) (idx : Option Int)
    (nodes nodes1 : List Node)
    (h : LoadSpnListInit.nodeLoop decode nodeList inputIndices alloc fuel i idx nodes
      = some (true, nodes1)) :
    ∃ created, nodes1 = nodes ++ created ∧ created.length = fuel
      ∧ ∀ k n, created[k]? = some n →
          n.addr = alloc + (i + k)
          ∧ ∃ t c, nodeList.get 0 (i + k) = some t ∧ toInt t = some c
            ∧ decode c = some n.data.type
            ∧ ((n.data.type = NodeType.INPUT ∨ n.data.type = NodeType.QUERY) →
                ∃ v inputIdx, inputIndices.get 0 (i + k) = some v ∧ toInt v = some inputIdx
                  ∧ 0 ≤ inputIdx ∧ n.data.input_start_index = some inputIdx) := by
  induction fuel generalizing i idx nodes with
  | zero =>
    simp only [LoadSpnListInit.nodeLoop, Option.some.injEq, Prod.mk.injEq, true_and] at h
    exact ⟨[], by simp [h], rfl, by simp⟩
  | succ fuel ih =>
    unfold LoadSpnListInit.nodeLoop at h
    rcases ht : nodeList.get 0 i with _ | t
    · simp [ht] at h
    rcases hc : toInt t with _ | c
    · simp [ht, hc] at h
    rcases hd : decode c with _ | nodeType
    · simp [ht, hc, hd] at h
    simp only [ht, hc, hd, Option.some_bind, CreateNewNode_eq] at h
    by_cases hin : nodeType = NodeType.INPUT ∨ nodeType = NodeType.QUERY
    · rw [if_pos hin] at h
      rcases hv : inputIndices.get 0 i with _ | v
      · simp [hv] at h
      rcases hvc : toInt v with _ | inputIdx
      · simp [hv, hvc] at h
      simp only [hv, hvc, Option.some_bind] at h
      by_cases hneg : inputIdx < 0
      · simp [hneg] at h
      · rw [if_neg hneg] at h
        obtain ⟨created, heq, hlen, hall⟩ := ih _ _ _ h
        refine ⟨(⟨alloc + i, classOf nodeType, ⟨toString i, nodeType, 1, some inputIdx⟩⟩
          : Node) :: created, by simp [heq], by simp [hlen], ?_⟩
        intro k n hk
        cases k with
        | zero =>
          simp only [List.getElem?_cons_zero, Option.some.injEq] at hk
          subst hk
          exact ⟨rfl, t, c, ht, hc, hd, fun _ => ⟨v, inputIdx, hv, hvc, by omega, rfl⟩⟩
        | succ k =>
          simp only [List.getElem?_cons_succ] at hk
          have := hall k n hk
          rwa [show i + 1 + k = i + (k + 1) by omega] at this
    · rw [if_neg hin] at h
      obtain ⟨created, heq, hlen, hall⟩ := ih _ _ _ h
      refine ⟨(⟨alloc + i, classOf nodeType, ⟨toString i, nodeType, 1, idx⟩⟩ : Node)
        :: created, by simp [heq], by simp [hlen], ?_⟩
      intro k n hk
      cases k with
      | zero =>
        simp only [List.getElem?_cons_zero, Option.some.injEq] at hk
        subst hk
        exact ⟨rfl, t, c, ht, hc, hd, fun hty => absurd hty hin⟩
      | succ k =>
        simp only [List.getElem?_cons_succ] at hk
        have := hall k n hk
        rwa [show i + 1 + k = i + (k + 1) by omega] at this

theorem LoadSpnListInit.nodeLoop_false (decode : Int → Option NodeType)
    (nodeList inputIndices : pimatrix) (alloc : Nat) (fuel i : Nat) (idx : Option Int)
    (nodes nodes1 : List Node)
    (h : LoadSpnListInit.nodeLoop decode nodeList inputIndices alloc fuel i idx nodes
      = some (false, nodes1)) :
    nodes1 = [] := by
  induction fuel generalizing i idx nodes with
  | zero => simp [LoadSpnListInit.nodeLoop] at h
  | succ fuel ih =>
    unfold LoadSpnListInit.nodeLoop at h
    rcases ht : nodeList.get 0 i with _ | t
    · simp [ht] at h
    rcases hc : toInt t with _ | c
    · simp [ht, hc] at h
    rcases hd : decode c with _ | nodeType
    · simp only [ht, hc, hd, Option.some_bind, Option.some.injEq, Prod.mk.injEq,
        true_and] at h
      exact h.symm
    simp only [ht, hc, hd, Option.some_bind, CreateNewNode_eq] at h
    split at h
    · rcases hv : inputIndices.get 0 i with _ | v
      · simp [hv] at h
      rcases hvc : toInt v with _ | inputIdx
      · simp [hv, hvc] at h
      simp only [hv, hvc, Option.some_bind] at h
      split at h
      · simp only [Option.some.injEq, Prod.mk.injEq, true_and] at h
        exact h.symm
      · exact ih _ _ _ h
    · exact ih _ _ _ h

theorem LoadSpnListInit.nodeLoop_isSome (decode : Int → Option NodeType)
    (nodeList inputIndices : pimatrix) (alloc : Nat) (hrow : 0 < nodeList.size1)
    (hrow2 : 0 < inputIndices.size1) (fuel i : Nat) (hcol : i + fuel ≤ nodeList.size2)
    (hcol2 : i + fuel ≤ inputIndices.size2)
    (hrange : ∀ c, c < i + fuel →
      (toInt (nodeList.entry 0 c)).isSome = true
        ∧ (toInt (inputIndices.entry 0 c)).isSome = true)
    (idx : Option Int) (nodes : List Node) :
    ∃ r, LoadSpnListInit.nodeLoop decode nodeList inputIndices alloc fuel i idx nodes
      = some r := by
  induction fuel generalizing i idx nodes with
  | zero => exact ⟨_, rfl⟩
  | succ fuel ih =>
    unfold LoadSpnListInit.nodeLoop
    obtain ⟨h1, h2⟩ := hrange i (by omega)
    obtain ⟨c, hc⟩ := Option.isSome_iff_exists.mp h1
    obtain ⟨inputIdx, hv⟩ := Option.isSome_iff_exists.mp h2
    rw [pimatrix.get_of_lt hrow (by omega), pimatrix.get_of_lt hrow2 (by omega)]
    simp only [Option.some_bind, hc, hv, CreateNewNode_eq]
    split
    · exact ⟨_, rfl⟩
    · split
      · split
        · exact ⟨_, rfl⟩
        · exact ih _ (by omega) (by omega) (fun c hc => hrange c (by omega)) _ _
      · exact ih _ (by omega) (by omega) (fun c hc => hrange c (by omega)) _ _

/-! ## Explicit construction: the whole function -/

theorem LoadSpnListInit_true (decode : Int → Option NodeType) (spnData : SpnData)
    (alloc : Nat) (nodes nodes1 : List Node) (edges edges1 : List Edge)
    (h : LoadSpnListInit decode spnData alloc nodes edges = some (true, nodes1, edges1)) :
    (spnData.node_list.size1 = 1 ∧ 1 ≤ spnData.node_list.size2
      ∧ spnData.adjacency_matrix.size1 = spnData.adjacency_matrix.size2
      ∧ spnData.adjacency_matrix.size1 = spnData.node_list.size2)
    ∧ LoadSpnListInit.nodeLoop decode spnData.node_list spnData.input_indices alloc
        spnData.node_list.size2 0 none nodes = some (true, nodes1)
    ∧ LoadSpnListInit.adjLoop spnData.adjacency_matrix nodes1
        spnData.adjacency_matrix.size1 0 edges = some (true, edges1) := by
  unfold LoadSpnListInit at h
  simp only at h
  split at h
  · simp at h
  · rename_i hdims
    refine ⟨by omega, ?_⟩
    rcases hn : LoadSpnListInit.nodeLoop decode spnData.node_list spnData.input_indices alloc
      spnData.node_list.size2 0 none nodes with _ | ⟨b, ns⟩
    · simp [hn] at h
    cases b
    · simp [hn] at h
    simp only [hn] at h
    rcases ha : LoadSpnListInit.adjLoop spnData.adjacency_matrix ns
      spnData.adjacency_matrix.size1 0 edges with _ | ⟨b, es⟩
    · simp [ha] at h
    cases b
    · simp [ha] at h
    simp only [ha, Option.some.injEq, Prod.mk.injEq, true_and] at h
    obtain ⟨rfl, rfl⟩ := h
    exact ⟨rfl, ha⟩

theorem LoadSpnListInit_false (decode : Int → Option NodeType) (spnData : SpnData)
    (alloc : Nat) (nodes1 : List Node) (edges1 : List Edge)
    (h : LoadSpnListInit decode spnData alloc [] [] = some (false, nodes1, edges1)) :
    nodes1 = [] ∧ edges1 = [] := by
  unfold LoadSpnListInit at h
  simp only at h
  split at h
  · simp only [Option.some.injEq, Prod.mk.injEq, true_and] at h
    exact ⟨h.1.symm, h.2.symm⟩
  · rcases hn : LoadSpnListInit.nodeLoop decode spnData.node_list spnData.input_indices alloc
      spnData.node_list.size2 0 none [] with _ | ⟨b, ns⟩
    · simp [hn] at h
    cases b
    · simp only [hn, Option.some.injEq, Prod.mk.injEq, true_and] at h
      have := LoadSpnListInit.nodeLoop_false _ _ _ _ _ _ _ _ _ hn
      exact ⟨by rw [← h.1, this], h.2.symm⟩
    simp only [hn] at h
    rcases ha : LoadSpnListInit.adjLoop spnData.adjacency_matrix ns
      spnData.adjacency_matrix.size1 0 [] with _ | ⟨b, es⟩
    · simp [ha] at h
    cases b
    · simp only [ha, Option.some.injEq, Prod.mk.injEq, true_and] at h
      exact ⟨h.1.symm, h.2.symm⟩
    · simp [ha] at h

theorem LoadSpnListInit_isSome (decode : Int → Option NodeType) (spnData : SpnData)
    (alloc : Nat) (hrow : 0 < spnData.input_indices.size1)
    (hcol : spnData.node_list.size2 ≤ spnData.input_indices.size2)
    (hrange : ∀ c, c < spnData.node_list.size2 →
      (toInt (spnData.node_list.entry 0 c)).isSome = true
        ∧ (toInt (spnData.input_indices.entry 0 c)).isSome = true) :
    ∃ r, LoadSpnListInit decode spnData alloc [] [] = some r := by
  unfold LoadSpnListInit
  simp only
  split
  · exact ⟨_, rfl⟩
  · rename_i hdims
    obtain ⟨⟨b, ns⟩, hn⟩ := LoadSpnListInit.nodeLoop_isSome decode spnData.node_list
      spnData.input_indices alloc (by omega) hrow spnData.node_list.size2 0 (by omega)
      (by omega) (fun c hc => hrange c (by omega)) none []
    rw [hn]
    cases b
    · exact ⟨_, rfl⟩
    · obtain ⟨created, heq, hlen, -⟩ := LoadSpnListInit.nodeLoop_true _ _ _ _ _ _ _ _ _ hn
      obtain ⟨⟨b, es⟩, ha⟩ := LoadSpnListInit.adjLoop_isSome spnData.adjacency_matrix ns
        (by omega) (by rw [heq]; simp only [List.nil_append, hlen]; omega)
        spnData.adjacency_matrix.size1 0 (by omega) []
      simp only [ha]
      cases b <;> exact ⟨_, rfl⟩

theorem LoadSpnListInit_false_of_not_true (decode : Int → Option NodeType)
    (spnData : SpnData) (alloc : Nat) (hrow : 0 < spnData.input_indices.size1)
    (hcol : spnData.node_list.size2 ≤ spnData.input_indices.size2)
    (hrange : ∀ c, c < spnData.node_list.size2 →
      (toInt (spnData.node_list.entry 0 c)).isSome = true
        ∧ (toInt (spnData.input_indices.entry 0 c)).isSome = true)
    (h : ∀ ns es, LoadSpnListInit decode spnData alloc [] [] ≠ some (true, ns, es)) :
    LoadSpnListInit decode spnData alloc [] [] = some (false, [], []) := by
  obtain ⟨⟨b, ns, es⟩, hr⟩ := LoadSpnListInit_isSome decode spnData alloc hrow hcol hrange
  cases b
  · obtain ⟨rfl, rfl⟩ := LoadSpnListInit_false decode spnData alloc ns es hr
    exact hr
  · exact absurd hr (h ns es)

theorem LoadSpnListInit_never_true_of_symmetric_pair (decode : Int → Option NodeType)
    (spnData : SpnData) (alloc i j : Nat) (a b : ℚ) (hij : i ≠ j)
    (ha : spnData.adjacency_matrix.get i j = some a) (ha0 : a ≠ 0)
    (hb : spnData.adjacency_matrix.get j i = some b) (hb0 : b ≠ 0)
    (nodes : List Node) (edges : List Edge) (ns : List Node) (es : List Edge) :
    LoadSpnListInit decode spnData alloc nodes edges ≠ some (true, ns, es) := by
  intro h
  obtain ⟨-, -, hadj⟩ := LoadSpnListInit_true _ _ _ _ _ _ _ h
  obtain ⟨-, hasym⟩ := LoadSpnListInit.adjLoop_true _ _ _ _ _ _ hadj
  obtain ⟨rfl, hi1, -⟩ := pimatrix.get_eq_some ha
  obtain ⟨rfl, hj1, -⟩ := pimatrix.get_eq_some hb
  rcases Nat.lt_or_gt_of_ne hij with hlt | hgt
  · exact hasym j i (by omega) (by omega) hlt ⟨hb0, ha0⟩
  · exact hasym i j (by omega) (by omega) hgt ⟨ha0, hb0⟩

/-- Claim C4: a description whose adjacency matrix has a pair `i ≠ j` with `A[i][j] ≠ 0`
and `A[j][i] ≠ 0` is never accepted, whatever the output vectors hold on entry; called
with empty output vectors, every return of `LoadSpnListInit` on such a description is the
return of false with both output vectors empty; and the call does return, with false and
both output vectors empty, when every read and conversion on its way is defined: the
input-index vector has a row and at least as many columns as the node-type vector, and
the entries of both vectors that may be converted with `(int)` are in the range of
`int`. -/
theorem LoadSpnListInit_rejects_symmetric_pair (decode : Int → Option NodeType)
    (spnData : SpnData) (alloc i j : Nat) (a b : ℚ) (hij : i ≠ j)
    (ha : spnData.adjacency_matrix.get i j = some a) (ha0 : a ≠ 0)
    (hb : spnData.adjacency_matrix.get j i = some b) (hb0 : b ≠ 0) :
    (∀ nodes edges ns es,
        LoadSpnListInit decode spnData alloc nodes edges ≠ some (true, ns, es))
    ∧ (∀ r ns es, LoadSpnListInit decode spnData alloc [] [] = some (r, ns, es) →
        r = false ∧ ns = [] ∧ es = [])
    ∧ (0 < spnData.input_indices.size1 →
        spnData.node_list.size2 ≤ spnData.input_indices.size2 →
        (∀ c, c < spnData.node_list.size2 →
          (toInt (spnData.node_list.entry 0 c)).isSome = true
            ∧ (toInt (spnData.input_indices.entry 0 c)).isSome = true) →
        LoadSpnListInit decode spnData alloc [] [] = some (false, [], [])) := by
  have hnever := LoadSpnListInit_never_true_of_symmetric_pair decode spnData alloc i j a b
    hij ha ha0 hb hb0
  refine ⟨hnever, ?_, fun hrow hcol hrange =>
    LoadSpnListInit_false_of_not_true decode spnData alloc hrow hcol hrange (hnever [] [])⟩
  intro r ns es h
  cases r
  · obtain ⟨h1, h2⟩ := LoadSpnListInit_false decode spnData alloc ns es h
    exact ⟨rfl, h1, h2⟩
  · exact absurd h (hnever [] [] ns es)

/-- The witness of claim C4: an Input node and a Sum node connected in both directions. -/
theorem LoadSpnListInit_rejects_symmetric_pair_witness :
    (pimatrix.ofRows [[0, 1], [1, 0]]).get 0 1 = some 1
    ∧ (pimatrix.ofRows [[0, 1], [1, 0]]).get 1 0 = some 1
    ∧ (∀ nodes edges ns es,
        LoadSpnListInit declarationOrder
          (explicitData (pimatrix.ofRows [[0, 3]]) (pimatrix.ofRows [[0, 1], [1, 0]])
            (pimatrix.ofRows [[0, 0]])) 0 nodes edges ≠ some (true, ns, es))
    ∧ LoadSpnListInit declarationOrder
        (explicitData (pimatrix.ofRows [[0, 3]]) (pimatrix.ofRows [[0, 1], [1, 0]])
          (pimatrix.ofRows [[0, 0]])) 0 [] [] = some (false, [], []) :=
  ⟨by decide, by decide,
   (LoadSpnListInit_rejects_symmetric_pair declarationOrder
      (explicitData (pimatrix.ofRows [[0, 3]]) (pimatrix.ofRows [[0, 1], [1, 0]])
        (pimatrix.ofRows [[0, 0]])) 0 0 1 1 1 (by decide) (by decide) (by decide)
      (by decide) (by decide)).1,
   (LoadSpnListInit_rejects_symmetric_pair declarationOrder
      (explicitData (pimatrix.ofRows [[0, 3]]) (pimatrix.ofRows [[0, 1], [1, 0]])
        (pimatrix.ofRows [[0, 0]])) 0 0 1 1 1 (by decide) (by decide) (by decide)
      (by decide) (by decide)).2.2 (by decide) (by decide) (by decide)⟩

/-- Claim C6, as amended.  The entries of the two vectors are converted with `(int)`, so
the checks see their truncation toward zero, and the conversion is defined only for
entries whose truncation is in the range `-2^31 .. 2^31 - 1` of `int`.  Called with empty
output vectors on a description whose input-index vector has a row and at least as many
columns as the node-type vector, and whose entries in both vectors are in that range,
`LoadSpnListInit` returns false with an empty node vector whenever the truncation of some
entry of the node-type vector is not the code of a member of the enumeration, or some node
typed Input or Query has an input-index entry whose truncation is negative.  When it
returns true there is one node per column of the node-type vector, node `i` has the type
coded by the truncation of entry `i`, and an Input or Query node `i` is bound to the
truncation of entry `i` of the input-index vector, which is non-negative and below
`2^31`. -/
theorem LoadSpnListInit_checks_types_and_indices (decode : Int → Option NodeType)
    (spnData : SpnData) (alloc : Nat) :
    (0 < spnData.input_indices.size1 →
      spnData.node_list.size2 ≤ spnData.input_indices.size2 →
      (∀ c, c < spnData.node_list.size2 →
        (toInt (spnData.node_list.entry 0 c)).isSome = true
          ∧ (toInt (spnData.input_indices.entry 0 c)).isSome = true) →
      ((∃ i t c, spnData.node_list.get 0 i = some t ∧ toInt t = some c ∧ decode c = none)
        ∨ (∃ i t c ty v inputIdx, spnData.node_list.get 0 i = some t ∧ toInt t = some c
            ∧ decode c = some ty ∧ (ty = NodeType.INPUT ∨ ty = NodeType.QUERY)
            ∧ spnData.input_indices.get 0 i = some v ∧ toInt v = some inputIdx
            ∧ inputIdx < 0)) →
      LoadSpnListInit decode spnData alloc [] [] = some (false, [], []))
    ∧ (∀ ns es, LoadSpnListInit decode spnData alloc [] [] = some (true, ns, es) →
        ns.length = spnData.node_list.size2
        ∧ ∀ i n, ns[i]? = some n →
            ∃ t c, spnData.node_list.get 0 i = some t ∧ toInt t = some c
              ∧ c = truncate t ∧ decode c = some n.data.type
              ∧ ((n.data.type = NodeType.INPUT ∨ n.data.type = NodeType.QUERY) →
                  ∃ v inputIdx, spnData.input_indices.get 0 i = some v
                    ∧ toInt v = some inputIdx ∧ inputIdx = truncate v
                    ∧ 0 ≤ inputIdx ∧ inputIdx < 2 ^ 31
                    ∧ n.data.input_start_index = some inputIdx)) := by
  have hsucc : ∀ ns es, LoadSpnListInit decode spnData alloc [] [] = some (true, ns, es) →
      ns.length = spnData.node_list.size2
      ∧ ∀ i n, ns[i]? = some n →
          ∃ t c, spnData.node_list.get 0 i = some t ∧ toInt t = some c
            ∧ c = truncate t ∧ decode c = some n.data.type
            ∧ ((n.data.type = NodeType.INPUT ∨ n.data.type = NodeType.QUERY) →
                ∃ v inputIdx, spnData.input_indices.get 0 i = some v
                  ∧ toInt v = some inputIdx ∧ inputIdx = truncate v
                  ∧ 0 ≤ inputIdx ∧ inputIdx < 2 ^ 31
                  ∧ n.data.input_start_index = some inputIdx) := by
    intro ns es h
    obtain ⟨-, hnode, -⟩ := LoadSpnListInit_true _ _ _ _ _ _ _ h
    obtain ⟨created, heq, hlen, hall⟩ := LoadSpnListInit.nodeLoop_true _ _ _ _ _ _ _ _ _ hnode
    rw [List.nil_append] at heq
    subst heq
    refine ⟨hlen, fun i n hn => ?_⟩
    obtain ⟨-, t, c, ht, hc, hd, hidx⟩ := hall i n hn
    rw [Nat.zero_add] at ht
    refine ⟨t, c, ht, hc, (toInt_eq_some hc).1, hd, fun hty => ?_⟩
    obtain ⟨v, inputIdx, hv, hvc, hpos, hbind⟩ := hidx hty
    rw [Nat.zero_add] at hv
    exact ⟨v, inputIdx, hv, hvc, (toInt_eq_some hvc).1, hpos, (toInt_eq_some hvc).2.2, hbind⟩
  refine ⟨fun hrow hcol hrange hbad => ?_, hsucc⟩
  apply LoadSpnListInit_false_of_not_true decode spnData alloc hrow hcol hrange
  intro ns es h
  obtain ⟨hlen, hall⟩ := hsucc ns es h
  rcases hbad with ⟨i, t, c, ht, hc, hd⟩ | ⟨i, t, c, ty, v, inputIdx, ht, hc, hd, hty, hv, hvc, hneg⟩
  · have hi : i < ns.length := by
      rw [hlen]
      exact (pimatrix.get_eq_some ht).2.2
    obtain ⟨t1, c1, ht1, hc1, -, hd1, -⟩ := hall i ns[i] (List.getElem?_eq_getElem hi)
    rw [ht] at ht1
    cases ht1
    rw [hc] at hc1
    cases hc1
    rw [hd] at hd1
    cases hd1
  · have hi : i < ns.length := by
      rw [hlen]
      exact (pimatrix.get_eq_some ht).2.2
    obtain ⟨t1, c1, ht1, hc1, -, hd1, hidx⟩ := hall i ns[i] (List.getElem?_eq_getElem hi)
    rw [ht] at ht1
    cases ht1
    rw [hc] at hc1
    cases hc1
    rw [hd] at hd1
    cases hd1
    obtain ⟨v1, idx1, hv1, hvc1, -, hpos, -, -⟩ := hidx hty
    rw [hv] at hv1
    cases hv1
    rw [hvc] at hvc1
    cases hvc1
    omega

/-- Claim C6 fails as stated: a single node whose type entry is 1/2 and whose input-index
entry is -1/2.  Under the numbering `declarationOrder` the type entry is no member code,
and the index entry is negative; both truncate to 0, so the description is accepted and
the node is an Input node bound to input index 0. -/
theorem LoadSpnListInit_negative_fraction_accepted :
    (pimatrix.ofRows [[mkRat (-1) 2]]).get 0 0 = some (mkRat (-1) 2)
    ∧ mkRat (-1) 2 < 0
    ∧ LoadSpnListInit declarationOrder
        (explicitData (pimatrix.ofRows [[mkRat 1 2]]) (pimatrix.ofRows [[0]])
          (pimatrix.ofRows [[mkRat (-1) 2]])) 0 [] []
      = some (true, [⟨0, .InputNode, ⟨"0", .INPUT, 1, some 0⟩⟩], []) := by
  refine ⟨?_, ?_, ?_⟩ <;> decide

/-! ## Explicit construction: the edges of an accepted description -/

theorem pairOf_eq_some {adjMatrix : pimatrix} {i j : Nat} {q : Nat × Nat}
    (h : pairOf adjMatrix i j = some q) :
    (q = (i, j) ∧ adjMatrix.entry i j ≠ 0)
      ∨ (q = (j, i) ∧ adjMatrix.entry i j = 0 ∧ adjMatrix.entry j i ≠ 0) := by
  unfold pairOf at h
  by_cases h1 : adjMatrix.entry i j ≠ 0
  · rw [if_pos h1] at h
    exact Or.inl ⟨by simpa using h.symm, h1⟩
  · rw [if_neg h1] at h
    by_cases h2 : adjMatrix.entry j i ≠ 0
    · rw [if_pos h2] at h
      exact Or.inr ⟨by simpa using h.symm, by simpa using h1, h2⟩
    · rw [if_neg h2] at h
      cases h

theorem mem_edgePairs_row {adjMatrix : pimatrix} {i : Nat} {q : Nat × Nat}
    (h : q ∈ (List.range' 0 i).filterMap (pairOf adjMatrix i)) :
    q.1 ≠ q.2 ∧ max q.1 q.2 = i ∧ adjMatrix.entry q.1 q.2 ≠ 0 := by
  obtain ⟨j, hj, hq⟩ := List.mem_filterMap.mp h
  have hji : j < i := by
    have := List.mem_range'_1.mp hj
    omega
  rcases pairOf_eq_some hq with ⟨rfl, h1⟩ | ⟨rfl, -, h2⟩
  · exact ⟨by simp only; omega, by simp only; omega, h1⟩
  · exact ⟨by simp only; omega, by simp only; omega, h2⟩

theorem mem_edgePairs (adjMatrix : pimatrix) (n : Nat)
    (hasym : ∀ r c, r < n → c < r →
      ¬ (adjMatrix.entry r c ≠ 0 ∧ adjMatrix.entry c r ≠ 0)) (q : Nat × Nat) :
    q ∈ edgePairs adjMatrix n
      ↔ q.1 < n ∧ q.2 < n ∧ q.1 ≠ q.2 ∧ adjMatrix.entry q.1 q.2 ≠ 0 := by
  unfold edgePairs
  rw [List.mem_flatMap]
  constructor
  · rintro ⟨i, hi, hq⟩
    have hin : i < n := by
      have := List.mem_range'_1.mp hi
      omega
    obtain ⟨h1, h2, h3⟩ := mem_edgePairs_row hq
    exact ⟨by omega, by omega, h1, h3⟩
  · rintro ⟨h1, h2, hne, hentry⟩
    obtain ⟨a, b⟩ := q
    simp only at h1 h2 hne hentry
    rcases Nat.lt_or_gt_of_ne hne with hlt | hgt
    · refine ⟨b, List.mem_range'_1.mpr ⟨by omega, by omega⟩, ?_⟩
      refine List.mem_filterMap.mpr ⟨a, List.mem_range'_1.mpr ⟨by omega, by omega⟩, ?_⟩
      have hzero : adjMatrix.entry b a = 0 := by
        by_contra hnz
        exact hasym b a h2 hlt ⟨hnz, hentry⟩
      simp [pairOf, hzero, hentry]
    · refine ⟨a, List.mem_range'_1.mpr ⟨by omega, by omega⟩, ?_⟩
      refine List.mem_filterMap.mpr ⟨b, List.mem_range'_1.mpr ⟨by omega, by omega⟩, ?_⟩
      simp [pairOf, hentry]

theorem nodup_edgePairs (adjMatrix : pimatrix) (n : Nat) : (edgePairs adjMatrix n).Nodup := by
  unfold edgePairs
  rw [List.nodup_flatMap]
  constructor
  · intro i _
    refine List.Nodup.filterMap ?_ (List.nodup_range' _ _)
    intro j j1 q hq hq1
    rcases pairOf_eq_some (Option.mem_def.mp hq) with ⟨rfl, -⟩ | ⟨rfl, -, -⟩ <;>
      rcases pairOf_eq_some (Option.mem_def.mp hq1) with ⟨h, -⟩ | ⟨h, -, -⟩ <;>
      simp only [Prod.mk.injEq] at h <;> omega
  · refine (List.pairwise_lt_range' 0 n).imp ?_
    intro i i1 hlt q hq hq1
    have h1 := (mem_edgePairs_row hq).2.1
    have h2 := (mem_edgePairs_row hq1).2.1
    omega

theorem edgeOf_eq_some {nodes : List Node} {q : Nat × Nat} {e : Edge} :
    edgeOf nodes q = some e
      ↔ ∃ ni nj, nodes[q.1]? = some ni ∧ nodes[q.2]? = some nj ∧ e = ⟨ni, nj, true⟩ := by
  unfold edgeOf
  rcases h1 : nodes[q.1]? with _ | a
  · simp
  rcases h2 : nodes[q.2]? with _ | b
  · simp
  simp only [Option.some.injEq]
  constructor
  · intro h
    exact ⟨a, b, rfl, rfl, h.symm⟩
  · rintro ⟨ni, nj, rfl, rfl, rfl⟩
    rfl

theorem getElem?_injective_of_addr {nodes : List Node} {alloc : Nat}
    (haddr : ∀ k n, nodes[k]? = some n → n.addr = alloc + k) {a b : Nat} {x : Node}
    (ha : nodes[a]? = some x) (hb : nodes[b]? = some x) : a = b := by
  have h1 := haddr a x ha
  have h2 := haddr b x hb
  omega

/-- Claim C5, as amended: for a description that `LoadSpnListInit` accepts (called with
empty output vectors), the edge vector holds no edge twice, and its edges are exactly the
directed edges from node `i` to node `j` for the pairs `i ≠ j` with `A[i][j] ≠ 0`; the
number of edges is the number of nonzero entries off the diagonal.  The diagonal of the
matrix is never read. -/
theorem LoadSpnListInit_edges_off_diagonal (decode : Int → Option NodeType)
    (spnData : SpnData) (alloc : Nat) (ns : List Node) (es : List Edge)
    (h : LoadSpnListInit decode spnData alloc [] [] = some (true, ns, es)) :
    es.Nodup
    ∧ (∀ e, e ∈ es ↔ ∃ i j ni nj, i ≠ j ∧ spnData.adjacency_matrix.entry i j ≠ 0
        ∧ ns[i]? = some ni ∧ ns[j]? = some nj ∧ e = ⟨ni, nj, true⟩)
    ∧ es.length
        = ((Finset.range spnData.node_list.size2 ×ˢ Finset.range spnData.node_list.size2).filter
            (fun q => q.1 ≠ q.2 ∧ spnData.adjacency_matrix.entry q.1 q.2 ≠ 0)).card := by
  obtain ⟨hdims, hnode, hadj⟩ := LoadSpnListInit_true _ _ _ _ _ _ _ h
  obtain ⟨created, heq, hlen, hall⟩ := LoadSpnListInit.nodeLoop_true _ _ _ _ _ _ _ _ _ hnode
  rw [List.nil_append] at heq
  subst heq
  have haddr : ∀ k n, ns[k]? = some n → n.addr = alloc + k := by
    intro k n hk
    have := (hall k n hk).1
    omega
  obtain ⟨hes, hasym0⟩ := LoadSpnListInit.adjLoop_true _ _ _ _ _ _ hadj
  have hN : spnData.adjacency_matrix.size1 = spnData.node_list.size2 := hdims.2.2.2
  have hes1 : es = (edgePairs spnData.adjacency_matrix spnData.node_list.size2).filterMap
      (edgeOf ns) := by
    rw [hes, List.nil_append, hN]
    rfl
  have hasym : ∀ r c, r < spnData.node_list.size2 → c < r →
      ¬ (spnData.adjacency_matrix.entry r c ≠ 0 ∧ spnData.adjacency_matrix.entry c r ≠ 0) := by
    intro r c hr hc
    exact hasym0 r c (by omega) (by omega) hc
  have hmemP := mem_edgePairs spnData.adjacency_matrix spnData.node_list.size2 hasym
  have hsome : ∀ q ∈ edgePairs spnData.adjacency_matrix spnData.node_list.size2,
      (edgeOf ns q).isSome = true := by
    intro q hq
    obtain ⟨h1, h2, -, -⟩ := (hmemP q).mp hq
    have e1 : ns[q.1]? = some ns[q.1] := List.getElem?_eq_getElem (by omega)
    have e2 : ns[q.2]? = some ns[q.2] := List.getElem?_eq_getElem (by omega)
    simp [edgeOf, e1, e2]
  refine ⟨?_, ?_, ?_⟩
  · rw [hes1]
    refine List.Nodup.filterMap ?_ (nodup_edgePairs _ _)
    intro q q1 e hq hq1
    obtain ⟨ni, nj, a1, a2, rfl⟩ := edgeOf_eq_some.mp (Option.mem_def.mp hq)
    obtain ⟨mi, mj, b1, b2, hb⟩ := edgeOf_eq_some.mp (Option.mem_def.mp hq1)
    simp only [Edge.mk.injEq, and_true] at hb
    obtain ⟨rfl, rfl⟩ := hb
    exact Prod.ext (getElem?_injective_of_addr haddr a1 b1)
      (getElem?_injective_of_addr haddr a2 b2)
  · intro e
    rw [hes1, List.mem_filterMap]
    constructor
    · rintro ⟨q, hq, he⟩
      obtain ⟨-, -, hne, hentry⟩ := (hmemP q).mp hq
      obtain ⟨ni, nj, a1, a2, rfl⟩ := edgeOf_eq_some.mp he
      exact ⟨q.1, q.2, ni, nj, hne, hentry, a1, a2, rfl⟩
    · rintro ⟨i, j, ni, nj, hne, hentry, a1, a2, rfl⟩
      have hi : i < ns.length := (List.getElem?_eq_some_iff.mp a1).1
      have hj : j < ns.length := (List.getElem?_eq_some_iff.mp a2).1
      refine ⟨(i, j), (hmemP (i, j)).mpr ⟨by simpa [hlen] using hi, by simpa [hlen] using hj,
        hne, hentry⟩, ?_⟩
      exact edgeOf_eq_some.mpr ⟨ni, nj, a1, a2, rfl⟩
  · have hlenes : es.length
        = (edgePairs spnData.adjacency_matrix spnData.node_list.size2).length := by
      rw [hes1]
      exact List.filterMap_length_eq_length.mpr hsome
    rw [hlenes, ← List.toFinset_card_of_nodup (nodup_edgePairs _ _)]
    congr 1
    ext q
    simp only [List.mem_toFinset, hmemP q, Finset.mem_filter, Finset.mem_product,
      Finset.mem_range]
    tauto

/-- The witness of claim C5: the description `exampleExplicit`. -/
theorem LoadSpnListInit_edges_off_diagonal_witness :
    [exampleExplicitEdge].Nodup
    ∧ (∀ e, e ∈ [exampleExplicitEdge] ↔ ∃ i j ni nj, i ≠ j
        ∧ exampleExplicit.adjacency_matrix.entry i j ≠ 0
        ∧ exampleExplicitNodes[i]? = some ni ∧ exampleExplicitNodes[j]? = some nj
        ∧ e = ⟨ni, nj, true⟩)
    ∧ [exampleExplicitEdge].length
        = ((Finset.range exampleExplicit.node_list.size2
              ×ˢ Finset.range exampleExplicit.node_list.size2).filter
            (fun q => q.1 ≠ q.2 ∧ exampleExplicit.adjacency_matrix.entry q.1 q.2 ≠ 0)).card :=
  LoadSpnListInit_edges_off_diagonal declarationOrder exampleExplicit 0 exampleExplicitNodes
    [exampleExplicitEdge] (by decide)

/-- Claim C5 fails as stated: `exampleExplicit` is accepted, its adjacency matrix has the
two nonzero entries `A[0][1]` and `A[1][1]`, and the edge vector holds the single edge from
node 0 to node 1; no edge stands for the diagonal entry. -/
theorem LoadSpnListInit_diagonal_entry_ignored :
    LoadSpnListInit declarationOrder exampleExplicit 0 [] []
      = some (true, exampleExplicitNodes, [exampleExplicitEdge])
    ∧ exampleExplicit.adjacency_matrix.get 0 1 = some 1
    ∧ exampleExplicit.adjacency_matrix.get 1 1 = some 1
    ∧ ((Finset.range 2 ×ˢ Finset.range 2).filter
        (fun q => exampleExplicit.adjacency_matrix.entry q.1 q.2 ≠ 0)).card = 2
    ∧ [exampleExplicitEdge].length = 1 := by
  refine ⟨?_, ?_, ?_, ?_, ?_⟩ <;> decide

/-- The witness of claim C6: a description with the invalid type code 7 is rejected, and
the nodes of the accepted description `exampleExplicit` carry the types and the input
index of its vectors. -/
theorem LoadSpnListInit_checks_types_and_indices_witness :
    LoadSpnListInit declarationOrder
        (explicitData (pimatrix.ofRows [[0, 7]]) (pimatrix.ofRows [[0, 1], [0, 0]])
          (pimatrix.ofRows [[2, 0]])) 0 [] [] = some (false, [], [])
    ∧ LoadSpnListInit declarationOrder exampleExplicit 0 [] []
        = some (true, exampleExplicitNodes, [exampleExplicitEdge])
    ∧ (exampleExplicitNodes.length = exampleExplicit.node_list.size2
        ∧ ∀ i n, exampleExplicitNodes[i]? = some n →
            ∃ t c, exampleExplicit.node_list.get 0 i = some t ∧ toInt t = some c
              ∧ c = truncate t ∧ declarationOrder c = some n.data.type
              ∧ ((n.data.type = NodeType.INPUT ∨ n.data.type = NodeType.QUERY) →
                  ∃ v inputIdx, exampleExplicit.input_indices.get 0 i = some v
                    ∧ toInt v = some inputIdx ∧ inputIdx = truncate v
                    ∧ 0 ≤ inputIdx ∧ inputIdx < 2 ^ 31
                    ∧ n.data.input_start_index = some inputIdx)) :=
  ⟨(LoadSpnListInit_checks_types_and_indices declarationOrder
      (explicitData (pimatrix.ofRows [[0, 7]]) (pimatrix.ofRows [[0, 1], [0, 0]])
        (pimatrix.ofRows [[2, 0]])) 0).1 (by decide) (by decide) (by decide)
      (Or.inl ⟨1, 7, 7, by decide, by decide, by decide⟩),
   by decide,
   (LoadSpnListInit_checks_types_and_indices declarationOrder exampleExplicit 0).2
      exampleExplicitNodes [exampleExplicitEdge] (by decide)⟩

/-! ## Combinations -/

theorem length_combinationsOf {α : Type} (l : List α) (p : Nat) :
    (combinationsOf l p).length = l.length.choose p := by
  induction l generalizing p with
  | nil => cases p <;> simp [combinationsOf]
  | cons x xs ih =>
    cases p with
    | zero => simp [combinationsOf]
    | succ p =>
      simp [combinationsOf, ih, Nat.choose_succ_succ]

theorem mem_combinationsOf {α : Type} (l : List α) (p : Nat) (c : List α) :
    c ∈ combinationsOf l p ↔ List.Sublist c l ∧ c.length = p := by
  induction l generalizing p c with
  | nil =>
    cases p with
    | zero => simp [combinationsOf]
    | succ p =>
      simp only [combinationsOf, List.not_mem_nil, List.sublist_nil, false_iff, not_and]
      rintro rfl
      simp
  | cons x xs ih =>
    cases p with
    | zero =>
      simp only [combinationsOf, List.mem_singleton, List.length_eq_zero]
      constructor
      · rintro rfl
        exact ⟨List.nil_sublist _, rfl⟩
      · exact fun h => h.2
    | succ p =>
      simp only [combinationsOf, List.mem_append, List.mem_map, ih, List.sublist_cons_iff]
      constructor
      · rintro (⟨c1, ⟨hs, hl⟩, rfl⟩ | ⟨hs, hl⟩)
        · exact ⟨Or.inr ⟨c1, rfl, hs⟩, by simp [hl]⟩
        · exact ⟨Or.inl hs, hl⟩
      · rintro ⟨hs | ⟨r, rfl, hs⟩, hl⟩
        · exact Or.inr ⟨hs, hl⟩
        · exact Or.inl ⟨r, ⟨hs, by simpa using hl⟩, rfl⟩

theorem nodup_combinationsOf {α : Type} (l : List α) (hl : l.Nodup) (p : Nat) :
    (combinationsOf l p).Nodup := by
  induction l generalizing p with
  | nil => cases p <;> simp [combinationsOf]
  | cons x xs ih =>
    cases p with
    | zero => simp [combinationsOf]
    | succ p =>
      have hnd := List.nodup_cons.mp hl
      simp only [combinationsOf]
      rw [List.nodup_append]
      refine ⟨(ih hnd.2 p).map_on ?_, ih hnd.2 (p + 1), ?_⟩
      · intro a _ b _ h
        exact List.tail_eq_of_cons_eq h
      · intro c hc hc1
        obtain ⟨c1, -, rfl⟩ := List.mem_map.mp hc
        have hsub := ((mem_combinationsOf xs (p + 1) _).mp hc1).1
        exact hnd.1 (hsub.subset (List.mem_cons_self _ _))

theorem map_combinationsOf {α β : Type} (f : α → β) (l : List α) (p : Nat) :
    (combinationsOf l p).map (List.map f) = combinationsOf (l.map f) p := by
  induction l generalizing p with
  | nil => cases p <;> simp [combinationsOf]
  | cons x xs ih =>
    cases p with
    | zero => simp [combinationsOf]
    | succ p =>
      simp [combinationsOf, ← ih, Function.comp_def]

theorem sublist_ext_of_nodup {α : Type} {l : List α} (hl : l.Nodup) {a b : List α}
    (ha : List.Sublist a l) (hb : List.Sublist b l) (h : ∀ x, x ∈ a ↔ x ∈ b) : a = b := by
  induction l generalizing a b with
  | nil =>
    rw [List.sublist_nil] at ha hb
    rw [ha, hb]
  | cons x xs ih =>
    have hnd := List.nodup_cons.mp hl
    rcases List.sublist_cons_iff.mp ha with ha1 | ⟨a1, rfl, ha1⟩ <;>
      rcases List.sublist_cons_iff.mp hb with hb1 | ⟨b1, rfl, hb1⟩
    · exact ih hnd.2 ha1 hb1 h
    · exact absurd (ha1.subset ((h x).mpr (List.mem_cons_self _ _))) hnd.1
    · exact absurd (hb1.subset ((h x).mp (List.mem_cons_self _ _))) hnd.1
    · congr 1
      refine ih hnd.2 ha1 hb1 (fun y => ?_)
      have hy := h y
      simp only [List.mem_cons] at hy
      constructor
      · intro hya
        rcases hy.mp (Or.inr hya) with rfl | hyb
        · exact absurd (ha1.subset hya) hnd.1
        · exact hyb
      · intro hyb
        rcases hy.mpr (Or.inr hyb) with rfl | hya
        · exact absurd (hb1.subset hyb) hnd.1
        · exact hya

/-! ## Product layers: closed form of the loops -/

theorem CreateProductLayer.childEdges_eq (lowerLayer : List Node) (newNode : Node)
    (z : List (Nat × Node))
    (hz : ∀ q ∈ z, q.1 ≠ 0 ∧ lowerLayer[q.1 - 1]? = some q.2) (pre : List Nat)
    (newEdges : List Edge) :
    CreateProductLayer.childEdges lowerLayer (pre ++ z.map Prod.fst) newNode z.length
        pre.length newEdges
      = some (newEdges ++ z.map (fun q => (⟨q.2, newNode, true⟩ : Edge))) := by
  induction z generalizing pre newEdges with
  | nil => simp [CreateProductLayer.childEdges]
  | cons q z ih =>
    obtain ⟨h0, hq⟩ := hz q (List.mem_cons_self _ _)
    have hidx : (pre ++ List.map Prod.fst (q :: z))[pre.length]? = some q.1 := by
      rw [List.getElem?_append_right (Nat.le_refl _)]
      simp
    simp only [List.length_cons, CreateProductLayer.childEdges, hidx, h0, if_false, hq]
    have := ih (fun r hr => hz r (List.mem_cons_of_mem _ hr)) (pre ++ [q.1])
      (newEdges ++ [⟨q.2, newNode, true⟩])
    simp only [List.length_append, List.length_singleton, List.append_assoc,
      List.singleton_append] at this
    simp only [List.map_cons, this]

theorem zip_range_valid (lowerLayer : List Node) :
    ∀ q ∈ (List.range' 1 lowerLayer.length).zip lowerLayer,
      q.1 ≠ 0 ∧ lowerLayer[q.1 - 1]? = some q.2 := by
  intro q hq
  obtain ⟨i, hi⟩ := List.mem_iff_getElem?.mp hq
  obtain ⟨h1, h2⟩ := List.getElem?_zip_eq_some.mp hi
  have hlt : i < (List.range' 1 lowerLayer.length).length :=
    (List.getElem?_eq_some_iff.mp h1).1
  have hq1 : q.1 = 1 + i := by
    have := (List.getElem?_eq_some_iff.mp h1).2
    rw [← this]
    simp
  rw [hq1]
  exact ⟨by omega, by simpa using h2⟩

theorem floatSpacing_of_lt (m fuel : Nat) (h : m < 2 ^ 24) : floatSpacing m (fuel + 1) 1 = 1 := by
  simp only [floatSpacing, Nat.mul_one, h, if_true]

theorem roundToFloat_of_lt (m : Nat) (h : m < 2 ^ 24) : roundToFloat m = m := by
  unfold roundToFloat
  rw [floatSpacing_of_lt m 103 h]
  simp [Nat.mod_one]

theorem binomial_coefficient_eq_some (n k numComs : Nat)
    (h : binomial_coefficient n k = some numComs) :
    k ≤ n ∧ numComs = roundToFloat (n.choose k) ∧ numComs < 2 ^ 31 := by
  unfold binomial_coefficient at h
  split at h
  · cases h
  · split at h
    · simp only [Option.some.injEq] at h
      subst h
      exact ⟨by omega, rfl, by assumption⟩
    · cases h

theorem CreateProductLayer.combLoop_step (layerInit : SpnLayerInit) (lowerLayer : List Node)
    (alloc p : Nat) (z : List (Nat × Node)) (done rest : List (List (Nat × Node)))
    (hsplit : combinationsOf ((List.range' 1 lowerLayer.length).zip lowerLayer) p
      = done ++ z :: rest)
    (fuel iNodeCount : Nat) (newNodes : List Node) (newEdges : List Edge) :
    CreateProductLayer.combLoop layerInit lowerLayer alloc p (fuel + 1) (done.length + 1)
        iNodeCount newNodes newEdges
      = CreateProductLayer.combLoop layerInit lowerLayer alloc p fuel (done.length + 1 + 1)
          (iNodeCount + 1) (newNodes ++ [layerNode layerInit alloc iNodeCount])
          (newEdges ++ (z.map Prod.snd).map
            (fun lower => (⟨lower, layerNode layerInit alloc iNodeCount, true⟩ : Edge))) := by
  have hmem : z ∈ combinationsOf ((List.range' 1 lowerLayer.length).zip lowerLayer) p := by
    rw [hsplit]
    simp
  obtain ⟨hsub, hlen⟩ := (mem_combinationsOf _ _ _).mp hmem
  have hvalid : ∀ q ∈ z, q.1 ≠ 0 ∧ lowerLayer[q.1 - 1]? = some q.2 :=
    fun q hq => zip_range_valid lowerLayer q (hsub.subset hq)
  have hcomb : combination lowerLayer.length p (done.length + 1) = some (z.map Prod.fst) := by
    have hfst : combinationsOf (List.range' 1 lowerLayer.length) p
        = (done ++ z :: rest).map (List.map Prod.fst) := by
      rw [← hsplit, map_combinationsOf, List.map_fst_zip _ _ (by simp)]
    simp only [combination, Nat.add_one_ne_zero, if_false, Nat.add_sub_cancel, hfst,
      List.map_append, List.map_cons]
    rw [List.getElem?_append_right (by simp)]
    simp
  have hchild := CreateProductLayer.childEdges_eq lowerLayer
    (layerNode layerInit alloc iNodeCount) z hvalid [] newEdges
  simp only [List.nil_append, List.length_nil, hlen] at hchild
  have hnode : (⟨alloc + iNodeCount, classOf layerInit.type,
      ⟨fmtNodeName layerInit.name iNodeCount, layerInit.type, 1, none⟩⟩ : Node)
      = layerNode layerInit alloc iNodeCount := rfl
  simp only [CreateProductLayer.combLoop, CreateNewNode_eq, hnode, hcomb, hchild, List.map_map]
  rfl

theorem CreateProductLayer.combLoop_eq (layerInit : SpnLayerInit) (lowerLayer : List Node)
    (alloc p : Nat) (zs done rest : List (List (Nat × Node)))
    (hsplit : combinationsOf ((List.range' 1 lowerLayer.length).zip lowerLayer) p
      = done ++ (zs ++ rest))
    (iNodeCount : Nat) (newNodes : List Node) (newEdges : List Edge) :
    CreateProductLayer.combLoop layerInit lowerLayer alloc p zs.length (done.length + 1)
        iNodeCount newNodes newEdges
      = some (iNodeCount + zs.length,
          newNodes ++ (List.range' iNodeCount zs.length).map (layerNode layerInit alloc),
          newEdges ++ comboEdges layerInit alloc iNodeCount (zs.map (List.map Prod.snd))) := by
  induction zs generalizing done iNodeCount newNodes newEdges with
  | nil => simp [CreateProductLayer.combLoop, comboEdges]
  | cons z zs ih =>
    have hrec := ih (done ++ [z]) (by simpa using hsplit) (iNodeCount + 1)
      (newNodes ++ [layerNode layerInit alloc iNodeCount])
      (newEdges ++ (z.map Prod.snd).map
        (fun lower => (⟨lower, layerNode layerInit alloc iNodeCount, true⟩ : Edge)))
    simp only [List.length_append, List.length_singleton] at hrec
    rw [List.length_cons,
      CreateProductLayer.combLoop_step layerInit lowerLayer alloc p z done (zs ++ rest) hsplit,
      hrec]
    simp only [List.range'_succ, List.map_cons, comboEdges, List.append_assoc,
      List.singleton_append]
    rw [show iNodeCount + 1 + zs.length = iNodeCount + (zs.length + 1) by omega]

theorem CreateProductLayer.combLoop_none (layerInit : SpnLayerInit) (lowerLayer : List Node)
    (alloc p : Nat) (zs done : List (List (Nat × Node)))
    (hsplit : combinationsOf ((List.range' 1 lowerLayer.length).zip lowerLayer) p = done ++ zs)
    (fuel : Nat) (hfuel : zs.length < fuel)
    (iNodeCount : Nat) (newNodes : List Node) (newEdges : List Edge) :
    CreateProductLayer.combLoop layerInit lowerLayer alloc p fuel (done.length + 1)
        iNodeCount newNodes newEdges = none := by
  induction zs generalizing done fuel iNodeCount newNodes newEdges with
  | nil =>
    cases fuel with
    | zero => simp at hfuel
    | succ fuel =>
      have hcomb : combination lowerLayer.length p (done.length + 1) = none := by
        have hfst : combinationsOf (List.range' 1 lowerLayer.length) p
            = (done ++ []).map (List.map Prod.fst) := by
          rw [← hsplit, map_combinationsOf, List.map_fst_zip _ _ (by simp)]
        simp [combination, hfst]
      simp only [CreateProductLayer.combLoop, CreateNewNode_eq, hcomb]
  | cons z zs ih =>
    cases fuel with
    | zero => simp at hfuel
    | succ fuel =>
      rw [CreateProductLayer.combLoop_step layerInit lowerLayer alloc p z done zs hsplit]
      have := ih (done ++ [z]) (by simpa using hsplit) fuel (by simpa using hfuel)
        (iNodeCount + 1) (newNodes ++ [layerNode layerInit alloc iNodeCount])
        (newEdges ++ (z.map Prod.snd).map
          (fun lower => (⟨lower, layerNode layerInit alloc iNodeCount, true⟩ : Edge)))
      simpa using this

/-- The combination loop of one order: `numComs` passes over a lower layer with at least
`numComs` combinations create `numComs` nodes, the node of pass `s` with the children of
combination `s`; with fewer combinations the loop reads a combination that does not
exist. -/
theorem CreateProductLayer.combLoop_take (layerInit : SpnLayerInit) (lowerLayer : List Node)
    (alloc p numComs iNodeCount : Nat) (newNodes : List Node) (newEdges : List Edge) :
    CreateProductLayer.combLoop layerInit lowerLayer alloc p numComs 1 iNodeCount newNodes
        newEdges
      = if numComs ≤ lowerLayer.length.choose p then
          some (iNodeCount + numComs,
            newNodes ++ (List.range' iNodeCount numComs).map (layerNode layerInit alloc),
            newEdges ++ comboEdges layerInit alloc iNodeCount
              ((combinationsOf lowerLayer p).take numComs))
        else none := by
  have hlen : (combinationsOf ((List.range' 1 lowerLayer.length).zip lowerLayer) p).length
      = lowerLayer.length.choose p := by
    rw [length_combinationsOf]
    simp
  split
  · rename_i hle
    have hcomb := CreateProductLayer.combLoop_eq layerInit lowerLayer alloc p
      ((combinationsOf ((List.range' 1 lowerLayer.length).zip lowerLayer) p).take numComs) []
      ((combinationsOf ((List.range' 1 lowerLayer.length).zip lowerLayer) p).drop numComs)
      (by simp) iNodeCount newNodes newEdges
    rw [List.length_take, hlen, Nat.min_eq_left hle, List.map_take, map_combinationsOf,
      List.map_snd_zip _ _ (by simp)] at hcomb
    simpa using hcomb
  · rename_i hle
    have := CreateProductLayer.combLoop_none layerInit lowerLayer alloc p
      (combinationsOf ((List.range' 1 lowerLayer.length).zip lowerLayer) p) [] rfl numComs
      (by rw [hlen]; omega) iNodeCount newNodes newEdges
    simpa using this

theorem CreateProductLayer.orderLoop_eq (layerInit : SpnLayerInit) (lowerLayer : List Node)
    (alloc : Nat) (fuel p : Nat)
    (hp : ∀ q, p ≤ q → q < p + fuel →
      q ≤ lowerLayer.length ∧ roundToFloat (lowerLayer.length.choose q) < 2 ^ 31
        ∧ roundToFloat (lowerLayer.length.choose q) ≤ lowerLayer.length.choose q)
    (iNodeCount : Nat) (newNodes : List Node) (newEdges : List Edge) :
    CreateProductLayer.orderLoop layerInit lowerLayer alloc fuel p iNodeCount newNodes newEdges
      = some (newNodes
            ++ (productBlocks layerInit lowerLayer.length alloc fuel p iNodeCount).flatten,
          newEdges ++ productEdges layerInit lowerLayer alloc fuel p iNodeCount) := by
  induction fuel generalizing p iNodeCount newNodes newEdges with
  | zero => simp [CreateProductLayer.orderLoop, productBlocks, productEdges]
  | succ fuel ih =>
    obtain ⟨h1, h2, h3⟩ := hp p (Nat.le_refl _) (by omega)
    have hbin : binomial_coefficient lowerLayer.length p
        = some (roundToFloat (lowerLayer.length.choose p)) := by
      simp only [binomial_coefficient]
      rw [if_neg (by omega), if_pos h2]
    simp only [CreateProductLayer.orderLoop, hbin, CreateProductLayer.combLoop_take, if_pos h3,
      ih (p + 1) (fun q hq1 hq2 => hp q (by omega) (by omega)), productBlocks,
      productEdges, List.flatten_cons, List.append_assoc]

/-- An order loop that returns has found, at every order, a count that `int` holds and
that does not exceed the number of combinations. -/
theorem CreateProductLayer.orderLoop_some (layerInit : SpnLayerInit) (lowerLayer : List Node)
    (alloc : Nat) (fuel p : Nat) (iNodeCount : Nat) (newNodes : List Node)
    (newEdges : List Edge) (r : List Node × List Edge)
    (h : CreateProductLayer.orderLoop layerInit lowerLayer alloc fuel p iNodeCount newNodes
      newEdges = some r) :
    ∀ q, p ≤ q → q < p + fuel →
      q ≤ lowerLayer.length ∧ roundToFloat (lowerLayer.length.choose q) < 2 ^ 31
        ∧ roundToFloat (lowerLayer.length.choose q) ≤ lowerLayer.length.choose q := by
  induction fuel generalizing p iNodeCount newNodes newEdges with
  | zero => intro q h1 h2; omega
  | succ fuel ih =>
    unfold CreateProductLayer.orderLoop at h
    rcases hb : binomial_coefficient lowerLayer.length p with _ | numComs
    · simp [hb] at h
    obtain ⟨h1, h2, h3⟩ := binomial_coefficient_eq_some _ _ _ hb
    subst h2
    simp only [hb, CreateProductLayer.combLoop_take] at h
    by_cases hle : roundToFloat (lowerLayer.length.choose p) ≤ lowerLayer.length.choose p
    · rw [if_pos hle] at h
      simp only at h
      intro q hq1 hq2
      by_cases hqp : q = p
      · subst hqp
        exact ⟨h1, h3, hle⟩
      · exact ih (p + 1) _ _ _ h q (by omega) (by omega)
    · rw [if_neg hle] at h
      simp at h

/-! ## Product layers: the edges entering a node -/

theorem edgesInto_filter_self (c : List Node) (v : Node) :
    ((c.map (fun lower => (⟨lower, v, true⟩ : Edge))).filter
      (fun e => decide (e.node2 = v))).map (fun e => e.node1) = c := by
  induction c with
  | nil => rfl
  | cons x xs ih => simp [List.filter_cons, ih]

theorem edgesInto_filter_other (c : List Node) (v w : Node) (h : v ≠ w) :
    (c.map (fun lower => (⟨lower, v, true⟩ : Edge))).filter
      (fun e => decide (e.node2 = w)) = [] := by
  rw [List.filter_eq_nil_iff]
  intro e he
  obtain ⟨x, -, rfl⟩ := List.mem_map.mp he
  simpa using h

theorem comboEdges_filter_outside (layerInit : SpnLayerInit) (alloc : Nat)
    (combos : List (List Node)) (cnt i : Nat) (h : i < cnt ∨ cnt + combos.length ≤ i) :
    (comboEdges layerInit alloc cnt combos).filter
      (fun e => decide (e.node2 = layerNode layerInit alloc i)) = [] := by
  induction combos generalizing cnt with
  | nil => rfl
  | cons c combos ih =>
    simp only [List.length_cons] at h
    have hne : layerNode layerInit alloc cnt ≠ layerNode layerInit alloc i := by
      intro heq
      have := layerNode_injective layerInit alloc heq
      omega
    simp only [comboEdges, List.filter_append, edgesInto_filter_other _ _ _ hne,
      ih (cnt + 1) (by omega), List.append_nil]

theorem comboEdges_filter_at (layerInit : SpnLayerInit) (alloc : Nat)
    (combos : List (List Node)) (cnt s : Nat) (c : List Node) (h : combos[s]? = some c) :
    ((comboEdges layerInit alloc cnt combos).filter
      (fun e => decide (e.node2 = layerNode layerInit alloc (cnt + s)))).map (fun e => e.node1)
      = c := by
  induction combos generalizing cnt s with
  | nil => simp at h
  | cons c0 combos ih =>
    cases s with
    | zero =>
      simp only [List.getElem?_cons_zero, Option.some.injEq] at h
      subst h
      simp only [comboEdges, List.filter_append, List.map_append, Nat.add_zero,
        edgesInto_filter_self,
        comboEdges_filter_outside layerInit alloc combos (cnt + 1) cnt (Or.inl (by omega)),
        List.map_nil, List.append_nil]
    | succ s =>
      simp only [List.getElem?_cons_succ] at h
      have hne : layerNode layerInit alloc cnt ≠ layerNode layerInit alloc (cnt + (s + 1)) := by
        intro heq
        have := layerNode_injective layerInit alloc heq
        omega
      have := ih (cnt + 1) s h
      rw [show cnt + 1 + s = cnt + (s + 1) by omega] at this
      simp only [comboEdges, List.filter_append, List.map_append,
        edgesInto_filter_other _ _ _ hne, List.map_nil, List.nil_append, this]

theorem productEdges_filter_lt (layerInit : SpnLayerInit) (lowerLayer : List Node)
    (alloc : Nat) (fuel p cnt i : Nat) (h : i < cnt) :
    (productEdges layerInit lowerLayer alloc fuel p cnt).filter
      (fun e => decide (e.node2 = layerNode layerInit alloc i)) = [] := by
  induction fuel generalizing p cnt with
  | zero => rfl
  | succ fuel ih =>
    simp only [productEdges, List.filter_append,
      comboEdges_filter_outside layerInit alloc _ cnt i (Or.inl h),
      ih (p + 1) (cnt + roundToFloat (lowerLayer.length.choose p)) (by omega), List.append_nil]

theorem productBlocks_spec (layerInit : SpnLayerInit) (lowerLayer : List Node) (alloc : Nat)
    (fuel p cnt t : Nat) (B : List Node)
    (hle : ∀ q, p ≤ q → q < p + fuel →
      roundToFloat (lowerLayer.length.choose q) ≤ lowerLayer.length.choose q)
    (hB : (productBlocks layerInit lowerLayer.length alloc fuel p cnt)[t]? = some B) :
    B.length = roundToFloat (lowerLayer.length.choose (p + t))
    ∧ ∀ (s : Nat) (v : Node), B[s]? = some v →
        ∃ c : List Node, (combinationsOf lowerLayer (p + t))[s]? = some c
          ∧ (∃ i, cnt ≤ i ∧ v = layerNode layerInit alloc i)
          ∧ ((productEdges layerInit lowerLayer alloc fuel p cnt).filter
              (fun e => decide (e.node2 = v))).map (fun e => e.node1) = c := by
  induction fuel generalizing p cnt t with
  | zero => simp [productBlocks] at hB
  | succ fuel ih =>
    cases t with
    | zero =>
      simp only [productBlocks, List.getElem?_cons_zero, Option.some.injEq] at hB
      subst hB
      refine ⟨by simp, ?_⟩
      intro s v hv
      simp only [List.getElem?_map, Option.map_eq_some'] at hv
      obtain ⟨i, hi, rfl⟩ := hv
      have hs : s < roundToFloat (lowerLayer.length.choose p) := by
        have := (List.getElem?_eq_some_iff.mp hi).1
        simpa using this
      have hi2 : i = cnt + s := by
        have := (List.getElem?_eq_some_iff.mp hi).2
        rw [← this]
        simp
      subst hi2
      have hlt : s < (combinationsOf lowerLayer p).length := by
        rw [length_combinationsOf]
        exact Nat.lt_of_lt_of_le hs (hle p (Nat.le_refl _) (by omega))
      have htake : ((combinationsOf lowerLayer p).take
          (roundToFloat (lowerLayer.length.choose p)))[s]?
          = some (combinationsOf lowerLayer p)[s] := by
        rw [List.getElem?_take_of_lt hs]
        exact List.getElem?_eq_getElem hlt
      refine ⟨(combinationsOf lowerLayer p)[s], List.getElem?_eq_getElem hlt,
        ⟨cnt + s, by omega, rfl⟩, ?_⟩
      simp only [productEdges, List.filter_append, List.map_append,
        comboEdges_filter_at layerInit alloc _ cnt s _ htake,
        productEdges_filter_lt layerInit lowerLayer alloc fuel (p + 1)
          (cnt + roundToFloat (lowerLayer.length.choose p)) (cnt + s) (by omega),
        List.map_nil, List.append_nil]
    | succ t =>
      simp only [productBlocks, List.getElem?_cons_succ] at hB
      obtain ⟨hlen, hall⟩ := ih (p + 1) (cnt + roundToFloat (lowerLayer.length.choose p)) t
        (fun q hq1 hq2 => hle q (by omega) (by omega)) hB
      rw [show p + 1 + t = p + (t + 1) by omega] at hlen hall
      refine ⟨hlen, ?_⟩
      intro s v hv
      obtain ⟨c, hc, ⟨i, hi, rfl⟩, hfilter⟩ := hall s v hv
      refine ⟨c, hc, ⟨i, by omega, rfl⟩, ?_⟩
      have hout := comboEdges_filter_outside layerInit alloc
        ((combinationsOf lowerLayer p).take (roundToFloat (lowerLayer.length.choose p))) cnt i
        (Or.inr (by
          have := List.length_take_le (roundToFloat (lowerLayer.length.choose p))
            (combinationsOf lowerLayer p)
          omega))
      simp only [productEdges, List.filter_append, List.map_append, hout, List.map_nil,
        List.nil_append, hfilter]

theorem productBlocks_length (layerInit : SpnLayerInit) (n alloc fuel p cnt : Nat) :
    (productBlocks layerInit n alloc fuel p cnt).length = fuel := by
  induction fuel generalizing p cnt with
  | zero => rfl
  | succ fuel ih => simp [productBlocks, ih]

theorem productBlocks_lengths (layerInit : SpnLayerInit) (n alloc fuel p cnt : Nat) :
    (productBlocks layerInit n alloc fuel p cnt).map List.length
      = (List.range' p fuel).map (fun q => roundToFloat (n.choose q)) := by
  induction fuel generalizing p cnt with
  | zero => rfl
  | succ fuel ih => simp [productBlocks, ih, List.range'_succ]

theorem productBlocks_flatten (layerInit : SpnLayerInit) (n alloc fuel p cnt : Nat) :
    (productBlocks layerInit n alloc fuel p cnt).flatten
      = (List.range' cnt (∑ q in Finset.Ico p (p + fuel), roundToFloat (n.choose q))).map
          (layerNode layerInit alloc) := by
  induction fuel generalizing p cnt with
  | zero => simp [productBlocks]
  | succ fuel ih =>
    rw [Finset.sum_eq_sum_Ico_succ_bot (by omega)]
    simp only [productBlocks, List.flatten_cons, ih]
    rw [show p + 1 + fuel = p + (fuel + 1) by omega, ← List.map_append, List.range'_append_1,
      Nat.add_comm]

/-! ## Product layers: counts and child sets -/

theorem CreateProductLayer_eq (layerInit : SpnLayerInit) (lowerLayer : List Node)
    (alloc k : Nat) (htype : layerInit.type = NodeType.PRODUCT)
    (hhas : layerInit.has_product_combinations = true)
    (hk : layerInit.product_combinations = (k : Int))
    (hp : ∀ q, 1 ≤ q → q < 1 + k →
      q ≤ lowerLayer.length ∧ roundToFloat (lowerLayer.length.choose q) < 2 ^ 31
        ∧ roundToFloat (lowerLayer.length.choose q) ≤ lowerLayer.length.choose q) :
    CreateProductLayer layerInit lowerLayer alloc [] []
      = some (true, (productBlocks layerInit lowerLayer.length alloc k 1 0).flatten,
          productEdges layerInit lowerLayer alloc k 1 0) := by
  have hloop := CreateProductLayer.orderLoop_eq layerInit lowerLayer alloc k 1 hp 0 [] []
  have hneg : ¬ ((k : Int) < 0) := by omega
  simp only [CreateProductLayer, htype, hhas, hk, Int.toNat_ofNat, hloop, hneg]
  simp

/-- The counts of a lower layer whose binomial coefficients up to order `k` are all below
`2^24`, and so are `float` values: they are exact. -/
theorem exact_counts (n k : Nat) (hkn : k ≤ n)
    (hexact : ∀ p, 1 ≤ p → p ≤ k → n.choose p < 2 ^ 24) :
    ∀ q, 1 ≤ q → q < 1 + k →
      q ≤ n ∧ roundToFloat (n.choose q) < 2 ^ 31 ∧ roundToFloat (n.choose q) ≤ n.choose q := by
  intro q h1 h2
  have := hexact q h1 (by omega)
  rw [roundToFloat_of_lt _ this]
  exact ⟨by omega, by omega, Nat.le_refl _⟩

theorem productBlocks_mem (layerInit : SpnLayerInit) (lowerLayer : List Node) (alloc : Nat)
    (k p : Nat) (B : List Node)
    (hle : ∀ q, 1 ≤ q → q < 1 + k →
      roundToFloat (lowerLayer.length.choose q) ≤ lowerLayer.length.choose q)
    (hB : (productBlocks layerInit lowerLayer.length alloc k 1 0)[p]? = some B) (v : Node)
    (hv : v ∈ B) :
    ∃ (s : Nat) (c : List Node), B[s]? = some v
      ∧ (combinationsOf lowerLayer (p + 1))[s]? = some c
      ∧ List.Sublist c lowerLayer ∧ c.length = p + 1
      ∧ v.cls = classOf layerInit.type
      ∧ ((productEdges layerInit lowerLayer alloc k 1 0).filter
          (fun e => decide (e.node2 = v))).map (fun e => e.node1) = c := by
  obtain ⟨-, hall⟩ := productBlocks_spec layerInit lowerLayer alloc k 1 0 p B hle hB
  obtain ⟨s, hs⟩ := List.mem_iff_getElem?.mp hv
  obtain ⟨c, hc, ⟨i, -, rfl⟩, hfilter⟩ := hall s v hs
  rw [Nat.add_comm 1 p] at hc
  obtain ⟨hsub, hlen⟩ := (mem_combinationsOf _ _ _).mp (List.mem_iff_getElem?.mpr ⟨s, hc⟩)
  exact ⟨s, c, hs, hc, hsub, hlen, rfl, hfilter⟩

/-- Claim C2, as amended: for a Product layer description with `product_combinations = k`
specified and a lower layer of `n ≥ k` nodes whose binomial coefficients `C(n, p)` for the
orders `p` from 1 to `k` are all below `2^24`, `CreateProductLayer` (called with empty
output vectors) succeeds; the created nodes are distinct and fall, in creation order, into
one block per combination order, the block of order `p` (the block at position `p - 1`)
holding exactly `C(n, p)` Product nodes, so `C(n, 1) + ... + C(n, k)` nodes in total;
every node of the block of order `p` has exactly `p` incoming edges, all of them from
nodes of the lower layer. -/
theorem CreateProductLayer_combination_counts (layerInit : SpnLayerInit)
    (lowerLayer : List Node) (alloc k : Nat) (htype : layerInit.type = NodeType.PRODUCT)
    (hhas : layerInit.has_product_combinations = true)
    (hk : layerInit.product_combinations = (k : Int)) (hkn : k ≤ lowerLayer.length)
    (hexact : ∀ p, 1 ≤ p → p ≤ k → lowerLayer.length.choose p < 2 ^ 24) :
    ∃ (blocks : List (List Node)) (newEdges : List Edge),
      CreateProductLayer layerInit lowerLayer alloc [] [] = some (true, blocks.flatten, newEdges)
      ∧ blocks.length = k ∧ blocks.flatten.Nodup
      ∧ blocks.flatten.length = ∑ p in Finset.Icc 1 k, lowerLayer.length.choose p
      ∧ ∀ (p : Nat) (B : List Node), blocks[p]? = some B →
          B.length = lowerLayer.length.choose (p + 1)
          ∧ ∀ v ∈ B, v.cls = NodeClass.ProductNode
              ∧ (newEdges.filter (fun e => decide (e.node2 = v))).length = p + 1
              ∧ ∀ e ∈ newEdges, e.node2 = v → e.node1 ∈ lowerLayer := by
  have hp := exact_counts lowerLayer.length k hkn hexact
  have hle : ∀ q, 1 ≤ q → q < 1 + k →
      roundToFloat (lowerLayer.length.choose q) ≤ lowerLayer.length.choose q :=
    fun q h1 h2 => (hp q h1 h2).2.2
  refine ⟨productBlocks layerInit lowerLayer.length alloc k 1 0,
    productEdges layerInit lowerLayer alloc k 1 0,
    CreateProductLayer_eq layerInit lowerLayer alloc k htype hhas hk hp,
    productBlocks_length _ _ _ _ _ _, ?_, ?_, ?_⟩
  · rw [productBlocks_flatten]
    refine (List.nodup_range' _ _).map_on ?_
    intro a _ b _ h
    exact layerNode_injective layerInit alloc h
  · rw [productBlocks_flatten, List.length_map, List.length_range', ← Nat.Ico_succ_right,
      Nat.add_comm 1 k]
    refine Finset.sum_congr rfl (fun q hq => ?_)
    rw [Finset.mem_Ico] at hq
    exact roundToFloat_of_lt _ (hexact q hq.1 (by omega))
  · intro p B hB
    have hpk : p < k := by
      have := (List.getElem?_eq_some_iff.mp hB).1
      rwa [productBlocks_length] at this
    have hlen := (productBlocks_spec layerInit lowerLayer alloc k 1 0 p B hle hB).1
    rw [Nat.add_comm 1 p, roundToFloat_of_lt _ (hexact (p + 1) (by omega) (by omega))] at hlen
    refine ⟨hlen, ?_⟩
    intro v hv
    obtain ⟨s, c, -, -, hsub, hclen, hcls, hfilter⟩ :=
      productBlocks_mem layerInit lowerLayer alloc k p B hle hB v hv
    refine ⟨by rw [hcls, htype]; rfl, ?_, ?_⟩
    · have := congrArg List.length hfilter
      rw [List.length_map] at this
      rw [this, hclen]
    · intro e he hev
      have hmem : e.node1 ∈ ((productEdges layerInit lowerLayer alloc k 1 0).filter
          (fun e => decide (e.node2 = v))).map (fun e => e.node1) :=
        List.mem_map.mpr ⟨e, List.mem_filter.mpr ⟨he, by simpa using hev⟩, rfl⟩
      rw [hfilter] at hmem
      exact hsub.subset hmem

/-- Claim C3, as amended: for a Product layer description with `product_combinations = k`
specified and a lower layer of `n ≥ k` distinct nodes whose binomial coefficients
`C(n, p)` for the orders `p` from 1 to `k` are all below `2^24`, in the block of each
combination order `p` (the block at position `p - 1`) the child set of every node is a
`p`-element subset of the lower layer, two nodes of the block with the same child set are
the same node, and every `p`-element subset of the lower layer is the child set of a node
of the block. -/
theorem CreateProductLayer_child_sets (layerInit : SpnLayerInit)
    (lowerLayer : List Node) (alloc k : Nat) (htype : layerInit.type = NodeType.PRODUCT)
    (hhas : layerInit.has_product_combinations = true)
    (hk : layerInit.product_combinations = (k : Int)) (hkn : k ≤ lowerLayer.length)
    (hexact : ∀ p, 1 ≤ p → p ≤ k → lowerLayer.length.choose p < 2 ^ 24)
    (hnd : lowerLayer.Nodup) :
    ∃ (blocks : List (List Node)) (newEdges : List Edge),
      CreateProductLayer layerInit lowerLayer alloc [] [] = some (true, blocks.flatten, newEdges)
      ∧ blocks.length = k
      ∧ ∀ (p : Nat) (B : List Node), blocks[p]? = some B →
          B.length = lowerLayer.length.choose (p + 1)
          ∧ (∀ v ∈ B, childSet newEdges v ⊆ lowerLayer.toFinset
              ∧ (childSet newEdges v).card = p + 1)
          ∧ (∀ v ∈ B, ∀ w ∈ B, childSet newEdges v = childSet newEdges w → v = w)
          ∧ (∀ S : Finset Node, S ⊆ lowerLayer.toFinset → S.card = p + 1 →
              ∃ v ∈ B, childSet newEdges v = S) := by
  have hp := exact_counts lowerLayer.length k hkn hexact
  have hle : ∀ q, 1 ≤ q → q < 1 + k →
      roundToFloat (lowerLayer.length.choose q) ≤ lowerLayer.length.choose q :=
    fun q h1 h2 => (hp q h1 h2).2.2
  refine ⟨productBlocks layerInit lowerLayer.length alloc k 1 0,
    productEdges layerInit lowerLayer alloc k 1 0,
    CreateProductLayer_eq layerInit lowerLayer alloc k htype hhas hk hp,
    productBlocks_length _ _ _ _ _ _, ?_⟩
  intro p B hB
  have hpk : p < k := by
    have := (List.getElem?_eq_some_iff.mp hB).1
    rwa [productBlocks_length] at this
  have hlen := (productBlocks_spec layerInit lowerLayer alloc k 1 0 p B hle hB).1
  rw [Nat.add_comm 1 p, roundToFloat_of_lt _ (hexact (p + 1) (by omega) (by omega))] at hlen
  have hcombos := nodup_combinationsOf lowerLayer hnd (p + 1)
  refine ⟨hlen, ?_, ?_, ?_⟩
  · intro v hv
    obtain ⟨s, c, -, -, hsub, hclen, -, hfilter⟩ :=
      productBlocks_mem layerInit lowerLayer alloc k p B hle hB v hv
    simp only [childSet, hfilter]
    refine ⟨?_, ?_⟩
    · intro x hx
      exact List.mem_toFinset.mpr (hsub.subset (List.mem_toFinset.mp hx))
    · rw [List.toFinset_card_of_nodup (hnd.sublist hsub), hclen]
  · intro v hv w hw hsame
    obtain ⟨s, c, hs, hc, hsub, -, -, hfilter⟩ :=
      productBlocks_mem layerInit lowerLayer alloc k p B hle hB v hv
    obtain ⟨s1, c1, hs1, hc1, hsub1, -, -, hfilter1⟩ :=
      productBlocks_mem layerInit lowerLayer alloc k p B hle hB w hw
    simp only [childSet, hfilter, hfilter1] at hsame
    have hcc : c = c1 := by
      refine sublist_ext_of_nodup hnd hsub hsub1 (fun x => ?_)
      rw [← List.mem_toFinset, hsame, List.mem_toFinset]
    subst hcc
    have hss : s = s1 := by
      by_contra hne
      have h1 : s < (combinationsOf lowerLayer (p + 1)).length :=
        (List.getElem?_eq_some_iff.mp hc).1
      have h2 : s1 < (combinationsOf lowerLayer (p + 1)).length :=
        (List.getElem?_eq_some_iff.mp hc1).1
      rcases Nat.lt_or_gt_of_ne hne with hlt | hgt
      · exact List.nodup_iff_getElem?_ne_getElem?.mp hcombos s s1 hlt h2 (hc.trans hc1.symm)
      · exact List.nodup_iff_getElem?_ne_getElem?.mp hcombos s1 s hgt h1 (hc1.trans hc.symm)
    subst hss
    rw [hs] at hs1
    exact Option.some.inj hs1
  · intro S hS hcard
    have hsub : List.Sublist (lowerLayer.filter (fun x => decide (x ∈ S))) lowerLayer :=
      List.filter_sublist _
    have hfin : (lowerLayer.filter (fun x => decide (x ∈ S))).toFinset = S := by
      ext x
      simp only [List.mem_toFinset, List.mem_filter, decide_eq_true_eq]
      exact ⟨fun h => h.2, fun h => ⟨List.mem_toFinset.mp (hS h), h⟩⟩
    have hclen : (lowerLayer.filter (fun x => decide (x ∈ S))).length = p + 1 := by
      rw [← List.toFinset_card_of_nodup (hnd.sublist hsub), hfin, hcard]
    obtain ⟨s, hs⟩ := List.mem_iff_getElem?.mp
      ((mem_combinationsOf lowerLayer (p + 1) _).mpr ⟨hsub, hclen⟩)
    have hsB : s < B.length := by
      rw [hlen, ← length_combinationsOf]
      exact (List.getElem?_eq_some_iff.mp hs).1
    refine ⟨B[s], List.getElem_mem hsB, ?_⟩
    obtain ⟨c, hc, -, hfilter⟩ :=
      (productBlocks_spec layerInit lowerLayer alloc k 1 0 p B hle hB).2
        s B[s] (List.getElem?_eq_getElem hsB)
    rw [Nat.add_comm 1 p, hs] at hc
    cases hc
    simp only [childSet, hfilter, hfin]

/-- The witness of claim C2: the Product layer of the spec, with combination orders 1
and 2 over the four example inputs, which creates 4 + 6 = 10 nodes. -/
theorem CreateProductLayer_combination_counts_witness :
    (∃ (blocks : List (List Node)) (newEdges : List Edge),
      CreateProductLayer (productLayerOfOrder true 2) exampleInputs 4 [] []
        = some (true, blocks.flatten, newEdges)
      ∧ blocks.length = 2 ∧ blocks.flatten.Nodup
      ∧ blocks.flatten.length = ∑ p in Finset.Icc 1 2, exampleInputs.length.choose p
      ∧ ∀ (p : Nat) (B : List Node), blocks[p]? = some B →
          B.length = exampleInputs.length.choose (p + 1)
          ∧ ∀ v ∈ B, v.cls = NodeClass.ProductNode
              ∧ (newEdges.filter (fun e => decide (e.node2 = v))).length = p + 1
              ∧ ∀ e ∈ newEdges, e.node2 = v → e.node1 ∈ exampleInputs)
    ∧ ∑ p in Finset.Icc 1 2, exampleInputs.length.choose p = 10 :=
  ⟨CreateProductLayer_combination_counts (productLayerOfOrder true 2) exampleInputs 4 2
    rfl rfl rfl (by decide) (by decide), by decide⟩

/-- The witness of claim C3: the same Product layer over the four distinct example
inputs. -/
theorem CreateProductLayer_child_sets_witness :
    ∃ (blocks : List (List Node)) (newEdges : List Edge),
      CreateProductLayer (productLayerOfOrder true 2) exampleInputs 4 [] []
        = some (true, blocks.flatten, newEdges)
      ∧ blocks.length = 2
      ∧ ∀ (p : Nat) (B : List Node), blocks[p]? = some B →
          B.length = exampleInputs.length.choose (p + 1)
          ∧ (∀ v ∈ B, childSet newEdges v ⊆ exampleInputs.toFinset
              ∧ (childSet newEdges v).card = p + 1)
          ∧ (∀ v ∈ B, ∀ w ∈ B, childSet newEdges v = childSet newEdges w → v = w)
          ∧ (∀ S : Finset Node, S ⊆ exampleInputs.toFinset → S.card = p + 1 →
              ∃ v ∈ B, childSet newEdges v = S) :=
  CreateProductLayer_child_sets (productLayerOfOrder true 2) exampleInputs 4 2
    rfl rfl rfl (by decide) (by decide) (by decide)

theorem exampleWideLayer_length : exampleWideLayer.length = 467 := by
  simp [exampleWideLayer]

theorem exampleWideLayer_nodup : exampleWideLayer.Nodup := by
  refine (List.nodup_range' _ _).map_on ?_
  intro a _ b _ h
  exact congrArg Node.addr h

theorem choose_467 :
    Nat.choose 467 1 = 467 ∧ Nat.choose 467 2 = 108811 ∧ Nat.choose 467 3 = 16865705 := by
  refine ⟨by simp, ?_, ?_⟩
  · rw [Nat.choose_eq_descFactorial_div_factorial]
    decide
  · rw [Nat.choose_eq_descFactorial_div_factorial]
    decide

theorem roundToFloat_467 :
    roundToFloat 467 = 467 ∧ roundToFloat 108811 = 108811
      ∧ roundToFloat 16865705 = 16865704 := by
  refine ⟨?_, ?_, ?_⟩ <;> decide

theorem exampleWideLayer_counts :
    ∀ q, 1 ≤ q → q < 1 + 3 →
      q ≤ exampleWideLayer.length
        ∧ roundToFloat (exampleWideLayer.length.choose q) < 2 ^ 31
        ∧ roundToFloat (exampleWideLayer.length.choose q)
          ≤ exampleWideLayer.length.choose q := by
  intro q h1 h2
  rw [exampleWideLayer_length]
  obtain ⟨c1, c2, c3⟩ := choose_467
  obtain ⟨r1, r2, r3⟩ := roundToFloat_467
  interval_cases q
  · rw [c1, r1]; omega
  · rw [c2, r2]; omega
  · rw [c3, r3]; omega

/-- Claim C2 fails as stated: over the lower layer `exampleWideLayer` of 467 nodes a
Product layer description with `product_combinations = 3` is built, the created nodes
fall into the blocks of the orders 1, 2 and 3, every node of the block of order `p` having
exactly `p` incoming edges, and the block of order 3 has 16865704 nodes, while
`C(467, 3) = 16865705`: this number is odd and above `2^24`, so it is no `float` value,
and `numComs` is the `float` next to it. -/
theorem CreateProductLayer_rounded_count :
    ∃ (blocks : List (List Node)) (newEdges : List Edge),
      CreateProductLayer (productLayerOfOrder true 3) exampleWideLayer 467 [] []
        = some (true, blocks.flatten, newEdges)
      ∧ blocks.map List.length = [467, 108811, 16865704]
      ∧ (∀ (p : Nat) (B : List Node), blocks[p]? = some B → ∀ v ∈ B,
          (newEdges.filter (fun e => decide (e.node2 = v))).length = p + 1)
      ∧ exampleWideLayer.length = 467 ∧ Nat.choose 467 3 = 16865705 := by
  have hle : ∀ q, 1 ≤ q → q < 1 + 3 →
      roundToFloat (exampleWideLayer.length.choose q) ≤ exampleWideLayer.length.choose q :=
    fun q h1 h2 => (exampleWideLayer_counts q h1 h2).2.2
  refine ⟨productBlocks (productLayerOfOrder true 3) exampleWideLayer.length 467 3 1 0,
    productEdges (productLayerOfOrder true 3) exampleWideLayer 467 3 1 0,
    CreateProductLayer_eq _ _ _ 3 rfl rfl rfl exampleWideLayer_counts, ?_, ?_,
    exampleWideLayer_length, choose_467.2.2⟩
  · rw [productBlocks_lengths, exampleWideLayer_length]
    obtain ⟨c1, c2, c3⟩ := choose_467
    obtain ⟨r1, r2, r3⟩ := roundToFloat_467
    simp only [List.range'_succ, List.range'_zero, List.map_cons, List.map_nil, c1, c2, c3,
      r1, r2, r3]
  · intro p B hB v hv
    obtain ⟨s, c, -, -, -, hclen, -, hfilter⟩ :=
      productBlocks_mem _ exampleWideLayer 467 3 p B hle hB v hv
    have := congrArg List.length hfilter
    rw [List.length_map] at this
    rw [this, hclen]

/-- Claim C3 fails as stated: over the lower layer `exampleWideLayer` of 467 distinct
nodes a Product layer description with `product_combinations = 3` is built, and some
3-element subset of the lower layer is the child set of none of the created nodes: there
are `C(467, 3) = 16865705` such subsets and only 16865704 nodes of order 3. -/
theorem CreateProductLayer_subset_without_node :
    ∃ (newNodes : List Node) (newEdges : List Edge),
      CreateProductLayer (productLayerOfOrder true 3) exampleWideLayer 467 [] []
        = some (true, newNodes, newEdges)
      ∧ exampleWideLayer.Nodup
      ∧ ∃ S : Finset Node, S ⊆ exampleWideLayer.toFinset ∧ S.card = 3
          ∧ ∀ v ∈ newNodes, childSet newEdges v ≠ S := by
  have hle : ∀ q, 1 ≤ q → q < 1 + 3 →
      roundToFloat (exampleWideLayer.length.choose q) ≤ exampleWideLayer.length.choose q :=
    fun q h1 h2 => (exampleWideLayer_counts q h1 h2).2.2
  refine ⟨(productBlocks (productLayerOfOrder true 3) exampleWideLayer.length 467 3 1 0).flatten,
    productEdges (productLayerOfOrder true 3) exampleWideLayer 467 3 1 0,
    CreateProductLayer_eq _ _ _ 3 rfl rfl rfl exampleWideLayer_counts,
    exampleWideLayer_nodup, ?_⟩
  obtain ⟨B, hB⟩ : ∃ B, (productBlocks (productLayerOfOrder true 3) exampleWideLayer.length
      467 3 1 0)[2]? = some B := by
    refine ⟨_, List.getElem?_eq_getElem ?_⟩
    rw [productBlocks_length]
    omega
  have hBlen : B.length = 16865704 := by
    have := (productBlocks_spec _ exampleWideLayer 467 3 1 0 2 B hle hB).1
    rw [this, exampleWideLayer_length]
    show roundToFloat (Nat.choose 467 3) = 16865704
    rw [choose_467.2.2, roundToFloat_467.2.2]
  have hcard : ((B.map (childSet (productEdges (productLayerOfOrder true 3)
      exampleWideLayer 467 3 1 0))).toFinset).card
      < (Finset.powersetCard 3 exampleWideLayer.toFinset).card := by
    rw [Finset.card_powersetCard, List.toFinset_card_of_nodup exampleWideLayer_nodup,
      exampleWideLayer_length, choose_467.2.2]
    refine Nat.lt_of_le_of_lt (List.toFinset_card_le _) ?_
    rw [List.length_map, hBlen]
    omega
  obtain ⟨S, hS, hnot⟩ : ∃ S ∈ Finset.powersetCard 3 exampleWideLayer.toFinset,
      S ∉ (B.map (childSet (productEdges (productLayerOfOrder true 3)
        exampleWideLayer 467 3 1 0))).toFinset := by
    by_contra hall
    push_neg at hall
    exact absurd (Finset.card_le_card (fun S hS => hall S hS)) (by omega)
  rw [Finset.mem_powersetCard] at hS
  refine ⟨S, hS.1, hS.2, ?_⟩
  intro v hv heq
  obtain ⟨B1, hB1, hvB1⟩ := List.mem_flatten.mp hv
  obtain ⟨t, ht⟩ := List.mem_iff_getElem?.mp hB1
  obtain ⟨s, c, -, -, hsub, hclen, -, hfilter⟩ :=
    productBlocks_mem _ exampleWideLayer 467 3 t B1 hle ht v hvB1
  have hcardv : (childSet (productEdges (productLayerOfOrder true 3)
      exampleWideLayer 467 3 1 0) v).card = t + 1 := by
    simp only [childSet, hfilter]
    rw [List.toFinset_card_of_nodup (exampleWideLayer_nodup.sublist hsub), hclen]
  rw [heq, hS.2] at hcardv
  have ht2 : t = 2 := by omega
  subst ht2
  rw [hB] at ht
  cases ht
  apply hnot
  rw [List.mem_toFinset]
  exact List.mem_map.mpr ⟨v, hvB1, heq⟩

/-! ## Selection of the construction protocol -/

/-- Claim C11: `LoadSpnInit` selects the construction protocol by the fields that are
present.  With a non-empty layer list its result is that of `LoadSpnLayerInit`, whether or
not the adjacency fields are present; with an empty layer list and the adjacency matrix,
the input indices and the node list all present its result is that of `LoadSpnListInit`;
in every other case it returns true and leaves the node and edge vectors as they are. -/
theorem LoadSpnInit_selects_protocol (decode : Int → Option NodeType) (spnData : SpnData)
    (alloc : Nat) (nodes : List Node) (edges : List Edge) :
    (spnData.layers ≠ [] →
      LoadSpnInit decode spnData alloc nodes edges
        = LoadSpnLayerInit decode spnData alloc nodes edges)
    ∧ (spnData.layers = [] →
        (spnData.has_adjacency_matrix = true ∧ spnData.has_input_indices = true
          ∧ spnData.has_node_list = true) →
        LoadSpnInit decode spnData alloc nodes edges
          = LoadSpnListInit decode spnData alloc nodes edges)
    ∧ (spnData.layers = [] →
        ¬ (spnData.has_adjacency_matrix = true ∧ spnData.has_input_indices = true
          ∧ spnData.has_node_list = true) →
        LoadSpnInit decode spnData alloc nodes edges = some (true, nodes, edges)) := by
  refine ⟨?_, ?_, ?_⟩
  · intro hl
    have hpos : spnData.layers.length > 0 := List.length_pos.mpr hl
    simp [LoadSpnInit, hpos]
  · intro hl ⟨h1, h2, h3⟩
    simp [LoadSpnInit, hl, h1, h2, h3]
  · intro hl hnot
    have : (spnData.has_adjacency_matrix && spnData.has_input_indices
        && spnData.has_node_list) = false := by
      rcases h1 : spnData.has_adjacency_matrix <;> rcases h2 : spnData.has_input_indices <;>
        rcases h3 : spnData.has_node_list <;> simp_all
    simp [LoadSpnInit, hl, this]

/-- An instance of claim C11: a description that carries both forms is built from its
layers, an adjacency description without layers by `LoadSpnListInit`, and a description
without either form is accepted with nothing built. -/
theorem LoadSpnInit_selects_protocol_witness :
    LoadSpnInit declarationOrder
        ⟨true, exampleExplicit.adjacency_matrix, true, exampleExplicit.input_indices, true,
          exampleExplicit.node_list, [exampleInputLayer]⟩ 0 [] []
      = LoadSpnLayerInit declarationOrder
        ⟨true, exampleExplicit.adjacency_matrix, true, exampleExplicit.input_indices, true,
          exampleExplicit.node_list, [exampleInputLayer]⟩ 0 [] []
    ∧ LoadSpnInit declarationOrder exampleExplicit 0 [] []
      = LoadSpnListInit declarationOrder exampleExplicit 0 [] []
    ∧ LoadSpnInit declarationOrder (layeredData []) 0 exampleInputs []
      = some (true, exampleInputs, []) :=
  ⟨(LoadSpnInit_selects_protocol declarationOrder
      ⟨true, exampleExplicit.adjacency_matrix, true, exampleExplicit.input_indices, true,
        exampleExplicit.node_list, [exampleInputLayer]⟩ 0 [] []).1 (by simp),
   (LoadSpnInit_selects_protocol declarationOrder exampleExplicit 0 [] []).2.1 rfl
      ⟨rfl, rfl, rfl⟩,
   (LoadSpnInit_selects_protocol declarationOrder (layeredData []) 0 exampleInputs []).2.2 rfl
      (by decide)⟩

/-! ## The first layer of the layered construction -/

/-- Claim C20: when the first layer description is not of type Input, `LoadSpnLayerInit`
returns false and the node and edge vectors are as they were on entry: no node and no
edge is created. -/
theorem LoadSpnLayerInit_first_layer_not_input (decode : Int → Option NodeType)
    (spnData : SpnData) (alloc : Nat) (nodes : List Node) (edges : List Edge)
    (layer0 : SpnLayerInit) (rest : List SpnLayerInit)
    (hlayers : spnData.layers = layer0 :: rest) (h0 : layer0.type ≠ NodeType.INPUT) :
    LoadSpnLayerInit decode spnData alloc nodes edges = some (false, nodes, edges) := by
  simp [LoadSpnLayerInit, hlayers, h0]

/-- The witness of claim C20: a description whose first layer is a Sum layer. -/
theorem LoadSpnLayerInit_first_layer_not_input_witness :
    LoadSpnLayerInit declarationOrder (layeredData [exampleSumLayer, exampleInputLayer]) 0 [] []
      = some (false, [], []) :=
  LoadSpnLayerInit_first_layer_not_input declarationOrder
    (layeredData [exampleSumLayer, exampleInputLayer]) 0 [] [] exampleSumLayer
    [exampleInputLayer] rfl (by decide)

/-! ## The doubled batch -/

theorem TrainOneBatch.setQueries_spec (GetInputStartIndex GetDimension : Node → Nat)
    (nSamples : Nat) (queryNodes : List Node) (twoBatch : pimatrix) :
    (TrainOneBatch.setQueries GetInputStartIndex GetDimension nSamples queryNodes
        twoBatch).size1 = twoBatch.size1
    ∧ (TrainOneBatch.setQueries GetInputStartIndex GetDimension nSamples queryNodes
        twoBatch).size2 = twoBatch.size2
    ∧ ∀ i j, (TrainOneBatch.setQueries GetInputStartIndex GetDimension nSamples queryNodes
        twoBatch).entry i j
        = if (nSamples ≤ i ∧ i < nSamples + nSamples)
            ∧ ∃ q ∈ queryNodes, GetInputStartIndex q ≤ j
                ∧ j < GetInputStartIndex q + GetDimension q
          then 1 else twoBatch.entry i j := by
  induction queryNodes generalizing twoBatch with
  | nil => simp [TrainOneBatch.setQueries]
  | cons q rest ih =>
    obtain ⟨h1, h2, h3⟩ := ih
      (twoBatch.setValue 1 nSamples nSamples (GetInputStartIndex q) (GetDimension q))
    refine ⟨by simpa [TrainOneBatch.setQueries, pimatrix.setValue] using h1,
      by simpa [TrainOneBatch.setQueries, pimatrix.setValue] using h2, ?_⟩
    intro i j
    simp only [TrainOneBatch.setQueries]
    rw [h3]
    simp only [pimatrix.setValue, List.mem_cons, exists_eq_or_imp]
    by_cases hrow : nSamples ≤ i ∧ i < nSamples + nSamples
    · by_cases hrest : ∃ q ∈ rest, GetInputStartIndex q ≤ j
          ∧ j < GetInputStartIndex q + GetDimension q
      · simp [hrow, hrest]
      · by_cases hq : GetInputStartIndex q ≤ j ∧ j < GetInputStartIndex q + GetDimension q
        · simp [hrow, hrest, hq]
        · simp [hrow, hrest, hq]
    · simp [hrow]

theorem TrainOneBatch.twoBatch_eq (GetInputStartIndex GetDimension : Node → Nat)
    (m_queryNodes : List Node) (batch : pimatrix) :
    TrainOneBatch.twoBatch GetInputStartIndex GetDimension m_queryNodes batch
      = TrainOneBatch.setQueries GetInputStartIndex GetDimension batch.size1 m_queryNodes
          (((pimatrix.filled (batch.size1 * 2) batch.size2 0).copyRows batch 0 batch.size1
            0).copyRows batch 0 batch.size1 batch.size1) := rfl

/-- Claim C13: for an input batch of `n` rows the doubled batch of `TrainOneBatch` has `2n`
rows and the columns of the batch; row `r < n` is row `r` of the batch, and row `n + r` is
row `r` of the batch except that every column in the range
`[inputStartIndex, inputStartIndex + dimension)` of some query node holds 1. -/
theorem TrainOneBatch_doubled_batch (GetInputStartIndex GetDimension : Node → Nat)
    (m_queryNodes : List Node) (batch : pimatrix) :
    (TrainOneBatch.twoBatch GetInputStartIndex GetDimension m_queryNodes batch).size1
        = 2 * batch.size1
    ∧ (TrainOneBatch.twoBatch GetInputStartIndex GetDimension m_queryNodes batch).size2
        = batch.size2
    ∧ ∀ r c, r < batch.size1 → c < batch.size2 →
        (TrainOneBatch.twoBatch GetInputStartIndex GetDimension m_queryNodes batch).get r c
            = batch.get r c
        ∧ (TrainOneBatch.twoBatch GetInputStartIndex GetDimension m_queryNodes batch).get
              (batch.size1 + r) c
            = if ∃ q ∈ m_queryNodes, GetInputStartIndex q ≤ c
                  ∧ c < GetInputStartIndex q + GetDimension q
              then some 1 else batch.get r c := by
  obtain ⟨h1, h2, h3⟩ := TrainOneBatch.setQueries_spec GetInputStartIndex GetDimension
    batch.size1 m_queryNodes
    (((pimatrix.filled (batch.size1 * 2) batch.size2 0).copyRows batch 0 batch.size1 0).copyRows
      batch 0 batch.size1 batch.size1)
  have hs1 : (TrainOneBatch.twoBatch GetInputStartIndex GetDimension m_queryNodes batch).size1
      = 2 * batch.size1 := by
    rw [TrainOneBatch.twoBatch_eq, h1]
    simp only [pimatrix.copyRows, pimatrix.filled]
    omega
  have hs2 : (TrainOneBatch.twoBatch GetInputStartIndex GetDimension m_queryNodes batch).size2
      = batch.size2 := by
    rw [TrainOneBatch.twoBatch_eq, h2]
    simp only [pimatrix.copyRows, pimatrix.filled]
  refine ⟨hs1, hs2, ?_⟩
  intro r c hr hc
  have hget : ∀ i, i < 2 * batch.size1 →
      (TrainOneBatch.twoBatch GetInputStartIndex GetDimension m_queryNodes batch).get i c
        = some ((TrainOneBatch.twoBatch GetInputStartIndex GetDimension m_queryNodes
            batch).entry i c) := by
    intro i hi
    exact pimatrix.get_of_lt (by rw [hs1]; exact hi) (by rw [hs2]; exact hc)
  rw [hget r (by omega), hget (batch.size1 + r) (by omega), pimatrix.get_of_lt hr hc]
  rw [TrainOneBatch.twoBatch_eq, h3, h3]
  simp only [pimatrix.copyRows, pimatrix.filled]
  constructor
  · have hnot : ¬ (batch.size1 ≤ r ∧ r < batch.size1 + batch.size1) := by omega
    simp [hnot, hr]
  · have hrow : batch.size1 ≤ batch.size1 + r ∧ batch.size1 + r < batch.size1 + batch.size1 := by
      omega
    by_cases hq : ∃ q ∈ m_queryNodes, GetInputStartIndex q ≤ c
        ∧ c < GetInputStartIndex q + GetDimension q
    · simp [hrow, hq]
    · simp [hrow, hq]

/-! ## The error signal -/

/-- Claim C14: when the forward pass on the doubled batch returns a `2n × 1` matrix `p`
with nonzero entries, `TrainOneBatch` gets as far as the error signal; the error signal
has the shape of `p`, its entry `r` is `1 / p[r]` for `r < n` and `-(1 / p[r])` for
`n ≤ r < 2n` (so that its product with `p[r]` is 1 and -1), and the joint probability kept
by the function is `p` itself. -/
theorem TrainOneBatch_error_signal (GetInputStartIndex GetDimension : Node → Nat)
    (Forward : pimatrix → pimatrix) (m_queryNodes : List Node) (batch p : pimatrix)
    (hp : Forward (TrainOneBatch.twoBatch GetInputStartIndex GetDimension m_queryNodes batch)
      = p)
    (hrows : p.size1 = 2 * batch.size1) (hcols : p.size2 = 1)
    (hnz : ∀ r, r < 2 * batch.size1 → p.entry r 0 ≠ 0) :
    ∃ mError,
      TrainOneBatch GetInputStartIndex GetDimension Forward m_queryNodes batch
        = some (TrainOneBatch.twoBatch GetInputStartIndex GetDimension m_queryNodes batch,
            p, mError)
      ∧ mError.size1 = p.size1 ∧ mError.size2 = p.size2
      ∧ (∀ r, r < batch.size1 → mError.get r 0 = some (1 / p.entry r 0))
      ∧ (∀ r, batch.size1 ≤ r → r < 2 * batch.size1 →
          mError.get r 0 = some (-(1 / p.entry r 0)))
      ∧ (∀ r, r < 2 * batch.size1 →
          mError.entry r 0 * p.entry r 0 = if r < batch.size1 then 1 else -1) := by
  refine ⟨TrainOneBatch.mError batch.size1 p, ?_, rfl, rfl, ?_, ?_, ?_⟩
  rotate_right
  · intro r hr
    have h0 := hnz r hr
    by_cases hlt : r < batch.size1
    · have hnot : ¬ (batch.size1 ≤ r ∧ r < batch.size1 + batch.size1) := by omega
      simp [TrainOneBatch.mError, pimatrix.element_negate, pimatrix.element_inverse, hnot,
        hlt, h0]
    · have hrow : batch.size1 ≤ r ∧ r < batch.size1 + batch.size1 := by omega
      simp [TrainOneBatch.mError, pimatrix.element_negate, pimatrix.element_inverse, hrow,
        hlt, h0]
  · simp [TrainOneBatch, hp, hrows, hcols]
  · intro r hr
    have hnot : ¬ (batch.size1 ≤ r ∧ r < batch.size1 + batch.size1) := by omega
    rw [pimatrix.get_of_lt (by show r < p.size1; omega) (by show 0 < p.size2; omega)]
    simp [TrainOneBatch.mError, pimatrix.element_negate, pimatrix.element_inverse, hnot]
  · intro r hr1 hr2
    have hrow : batch.size1 ≤ r ∧ r < batch.size1 + batch.size1 := by omega
    rw [pimatrix.get_of_lt (by show r < p.size1; omega) (by show 0 < p.size2; omega)]
    simp [TrainOneBatch.mError, pimatrix.element_negate, pimatrix.element_inverse, hrow]

/-! ## Node names -/

theorem digitChar_ne_underscore (k : Nat) (hk : k < 10) : Nat.digitChar k ≠ '_' := by
  interval_cases k <;> decide

theorem digitChar_value (k : Nat) (hk : k < 10) : (Nat.digitChar k).toNat - 48 = k := by
  interval_cases k <;> rfl

theorem toDigitsCore_ne_underscore (fuel n : Nat) (ds : List Char)
    (h : ∀ c ∈ ds, c ≠ '_') : ∀ c ∈ Nat.toDigitsCore 10 fuel n ds, c ≠ '_' := by
  induction fuel generalizing n ds with
  | zero => simpa [Nat.toDigitsCore] using h
  | succ fuel ih =>
    have hd : Nat.digitChar (n % 10) ≠ '_' :=
      digitChar_ne_underscore _ (Nat.mod_lt _ (by decide))
    have hcons : ∀ c ∈ Nat.digitChar (n % 10) :: ds, c ≠ '_' := by
      intro c hc
      rcases List.mem_cons.mp hc with rfl | hc
      · exact hd
      · exact h c hc
    simp only [Nat.toDigitsCore]
    split
    · exact hcons
    · exact ih _ _ hcons

theorem digitsValue_cons (acc : Nat) (c : Char) (cs : List Char) :
    digitsValue acc (c :: cs) = digitsValue (10 * acc + (c.toNat - 48)) cs := rfl

theorem toDigitsCore_value (fuel n : Nat) (ds : List Char) (h : n < fuel) :
    digitsValue 0 (Nat.toDigitsCore 10 fuel n ds) = digitsValue n ds := by
  induction fuel generalizing n ds with
  | zero => omega
  | succ fuel ih =>
    simp only [Nat.toDigitsCore]
    have hval := digitChar_value (n % 10) (Nat.mod_lt _ (by decide))
    generalize Nat.digitChar (n % 10) = d at hval ⊢
    split
    · rename_i hz
      rw [digitsValue_cons, hval]
      congr 1
      omega
    · rename_i hz
      rw [ih (n / 10) _ (by omega), digitsValue_cons, hval]
      congr 1
      omega

theorem Nat_repr_injective {a b : Nat} (h : Nat.repr a = Nat.repr b) : a = b := by
  have hd : Nat.toDigits 10 a = Nat.toDigits 10 b := by
    have := congrArg String.data h
    simpa [Nat.repr] using this
  have ha : digitsValue 0 (Nat.toDigits 10 a) = a :=
    toDigitsCore_value (a + 1) a [] (by omega)
  have hb : digitsValue 0 (Nat.toDigits 10 b) = b :=
    toDigitsCore_value (b + 1) b [] (by omega)
  rw [← ha, ← hb, hd]

theorem Nat_repr_ne_underscore (k : Nat) : ∀ c ∈ (Nat.repr k).data, c ≠ '_' := by
  intro c hc
  have hc1 : c ∈ Nat.toDigits 10 k := by simpa [Nat.repr] using hc
  exact toDigitsCore_ne_underscore _ _ [] (by simp) c hc1

theorem append_sep_injective {α : Type} (x : α) :
    ∀ (a a1 b b1 : List α), x ∉ b → x ∉ b1 → a ++ x :: b = a1 ++ x :: b1 →
      a = a1 ∧ b = b1 := by
  intro a
  induction a with
  | nil =>
    intro a1 b b1 hb hb1 h
    cases a1 with
    | nil => simpa using h
    | cons y t =>
      simp only [List.nil_append, List.cons_append, List.cons.injEq] at h
      exact absurd (by rw [h.2]; simp) hb
  | cons y a ih =>
    intro a1 b b1 hb hb1 h
    cases a1 with
    | nil =>
      simp only [List.nil_append, List.cons_append, List.cons.injEq] at h
      exact absurd (by rw [← h.2]; simp) hb1
    | cons z t =>
      simp only [List.cons_append, List.cons.injEq] at h
      obtain ⟨rfl, h2⟩ := h
      obtain ⟨rfl, rfl⟩ := ih t b b1 hb hb1 h2
      exact ⟨rfl, rfl⟩

theorem fmtNodeName_injective {layerName layerName1 : String} {i j : Nat}
    (h : fmtNodeName layerName i = fmtNodeName layerName1 j) :
    layerName = layerName1 ∧ i = j := by
  have hdata := congrArg String.data h
  simp only [fmtNodeName, String.data_append] at hdata
  have hi : '_' ∉ (toString i).data := fun hc => Nat_repr_ne_underscore i _ hc rfl
  have hj : '_' ∉ (toString j).data := fun hc => Nat_repr_ne_underscore j _ hc rfl
  have hsplit := append_sep_injective '_' layerName.data layerName1.data (toString i).data
    (toString j).data hi hj (by simpa using hdata)
  exact ⟨String.ext hsplit.1, Nat_repr_injective (String.ext hsplit.2)⟩

theorem CreateInputLayer.loop_true (decode : Int → Option NodeType) (layerInit : SpnLayerInit)
    (nodeList inputIndices : pimatrix) (alloc : Nat) (fuel i : Nat)
    (newNodes newNodes1 : List Node)
    (h : CreateInputLayer.loop decode layerInit nodeList inputIndices alloc fuel i newNodes
      = some (true, newNodes1)) :
    ∃ created, newNodes1 = newNodes ++ created ∧ created.length = fuel
      ∧ ∀ (k : Nat) (n : Node), created[k]? = some n →
          n.addr = alloc + (i + k) ∧ n.data.name = fmtNodeName layerInit.name (i + k) := by
  induction fuel generalizing i newNodes with
  | zero =>
    simp only [CreateInputLayer.loop, Option.some.injEq, Prod.mk.injEq, true_and] at h
    exact ⟨[], by simp [h], rfl, by simp⟩
  | succ fuel ih =>
    unfold CreateInputLayer.loop at h
    simp only at h
    split at h
    · cases h
    · simp at h
    · rename_i nodeType _
      rcases hv : (inputIndices.get 0 i).bind toInt with _ | inputIdx
      · simp [hv] at h
      simp only [hv, CreateNewNode_eq] at h
      by_cases hneg : inputIdx < 0
      · simp [hneg] at h
      · rw [if_neg hneg] at h
        obtain ⟨created, heq, hlen, hall⟩ := ih _ _ h
        refine ⟨(⟨alloc + i, classOf nodeType,
          ⟨fmtNodeName layerInit.name i, nodeType, 1, some inputIdx⟩⟩ : Node) :: created,
          by simp [heq], by simp [hlen], ?_⟩
        intro k n hk
        cases k with
        | zero =>
          simp only [List.getElem?_cons_zero, Option.some.injEq] at hk
          subst hk
          exact ⟨rfl, rfl⟩
        | succ k =>
          simp only [List.getElem?_cons_succ] at hk
          have := hall k n hk
          rwa [show i + 1 + k = i + (k + 1) by omega] at this

theorem CreateInputLayer_true (decode : Int → Option NodeType) (layerInit : SpnLayerInit)
    (alloc : Nat) (newNodes : List Node) (newEdges : List Edge)
    (h : CreateInputLayer decode layerInit alloc [] [] = some (true, newNodes, newEdges)) :
    newEdges = [] ∧ newNodes.length = layerInit.size.toNat
      ∧ ∀ (k : Nat) (n : Node), newNodes[k]? = some n →
          n.addr = alloc + k ∧ n.data.name = fmtNodeName layerInit.name k := by
  unfold CreateInputLayer at h
  split at h
  · simp at h
  · simp only at h
    split at h
    · simp at h
    · split at h
      · simp at h
      · rcases hl : CreateInputLayer.loop decode layerInit layerInit.node_list
          layerInit.input_indices alloc layerInit.size.toNat 0 [] with _ | ⟨b, ns⟩
        · simp [hl] at h
        · simp only [hl, Option.some.injEq, Prod.mk.injEq] at h
          obtain ⟨rfl, rfl, rfl⟩ := h
          obtain ⟨created, heq, hlen, hall⟩ := CreateInputLayer.loop_true _ _ _ _ _ _ _ _ _ hl
          rw [List.nil_append] at heq
          subst heq
          refine ⟨rfl, hlen, fun k n hk => ?_⟩
          have := hall k n hk
          simpa using this

theorem CreateProductLayer_true (layerInit : SpnLayerInit) (lowerLayer : List Node)
    (alloc : Nat) (newNodes : List Node) (newEdges : List Edge)
    (h : CreateProductLayer layerInit lowerLayer alloc [] [] = some (true, newNodes, newEdges)) :
    (∀ q, 1 ≤ q → q < 1 + layerInit.product_combinations.toNat →
      q ≤ lowerLayer.length ∧ roundToFloat (lowerLayer.length.choose q) < 2 ^ 31
        ∧ roundToFloat (lowerLayer.length.choose q) ≤ lowerLayer.length.choose q)
    ∧ newNodes = (productBlocks layerInit lowerLayer.length alloc
        layerInit.product_combinations.toNat 1 0).flatten
    ∧ newEdges = productEdges layerInit lowerLayer alloc
        layerInit.product_combinations.toNat 1 0 := by
  unfold CreateProductLayer at h
  split at h
  · cases h
  · split at h
    · simp at h
    · split at h
      · cases h
      · rcases hl : CreateProductLayer.orderLoop layerInit lowerLayer alloc
            layerInit.product_combinations.toNat 1 0 [] [] with _ | r
        · simp [hl] at h
        · have hp := CreateProductLayer.orderLoop_some layerInit lowerLayer alloc _ 1 0 [] [] r hl
          rw [CreateProductLayer.orderLoop_eq layerInit lowerLayer alloc _ 1 hp] at h
          simp only [List.nil_append, Option.some.injEq, Prod.mk.injEq, true_and] at h
          exact ⟨hp, h.1.symm, h.2.symm⟩

theorem CreateLayer_names (decode : Int → Option NodeType) (layerInit : SpnLayerInit)
    (lowerLayer : List Node) (alloc : Nat) (newNodes : List Node) (newEdges : List Edge)
    (h : CreateLayer decode layerInit lowerLayer alloc [] [] = some (true, newNodes, newEdges)) :
    ∀ (k : Nat) (n : Node), newNodes[k]? = some n →
      n.addr = alloc + k ∧ n.data.name = fmtNodeName layerInit.name k := by
  have hlayer : ∀ (m k : Nat) (n : Node),
      ((List.range' 0 m).map (layerNode layerInit alloc))[k]? = some n →
      n.addr = alloc + k ∧ n.data.name = fmtNodeName layerInit.name k := by
    intro m k n hk
    simp only [List.getElem?_map, Option.map_eq_some'] at hk
    obtain ⟨i, hi, rfl⟩ := hk
    have hik : i = k := by
      have := (List.getElem?_eq_some_iff.mp hi).2
      rw [← this]
      simp
    subst hik
    exact ⟨rfl, rfl⟩
  unfold CreateLayer at h
  split at h
  · exact (CreateInputLayer_true decode layerInit alloc newNodes newEdges h).2.2
  · unfold CreateSumMaxLayer at h
    split at h
    · cases h
    · split at h
      · simp at h
      · rw [CreateSumMaxLayer.loop_eq] at h
        simp only [List.nil_append, Option.some.injEq, Prod.mk.injEq, true_and] at h
        rw [← h.1]
        exact hlayer _
  · obtain ⟨-, hn, -⟩ := CreateProductLayer_true layerInit lowerLayer alloc newNodes newEdges h
    rw [hn, productBlocks_flatten]
    exact hlayer _
  · simp at h

theorem LoadSpnLayerInit.loop_groups (decode : Int → Option NodeType)
    (layers : List SpnLayerInit) (st st1 : LayerState)
    (h : LoadSpnLayerInit.loop decode layers st = some (true, st1)) :
    ∃ groups : List (List Node), st1.nodes = st.nodes ++ groups.flatten
      ∧ List.Forall₂ (fun (layerInit : SpnLayerInit) (g : List Node) =>
          ∀ (k : Nat) (n : Node), g[k]? = some n →
            n.data.name = fmtNodeName layerInit.name k) layers groups := by
  induction layers generalizing st with
  | nil =>
    simp only [LoadSpnLayerInit.loop, Option.some.injEq, Prod.mk.injEq, true_and] at h
    subst h
    exact ⟨[], by simp, List.Forall₂.nil⟩
  | cons layerInit rest ih =>
    simp only [LoadSpnLayerInit.loop] at h
    rcases hc : CreateLayer decode layerInit st.lastLayer st.alloc [] [] with _ | ⟨b, ns, es⟩
    · simp [hc] at h
    · cases b
      · simp [hc] at h
      · simp only [hc] at h
        obtain ⟨groups, heq, hall⟩ := ih _ h
        refine ⟨ns :: groups, by simpa [List.append_assoc] using heq, List.Forall₂.cons ?_ hall⟩
        intro k n hk
        exact (CreateLayer_names decode layerInit st.lastLayer st.alloc ns es hc k n hk).2

theorem group_names_nodup (layerName : String) (g : List Node)
    (hg : ∀ (k : Nat) (n : Node), g[k]? = some n → n.data.name = fmtNodeName layerName k) :
    (g.map (fun n => n.data.name)).Nodup := by
  rw [List.nodup_iff_getElem?_ne_getElem?]
  intro i j hij hj heq
  simp only [List.length_map] at hj
  simp only [List.getElem?_map] at heq
  have hi : i < g.length := by omega
  rw [List.getElem?_eq_getElem hi, List.getElem?_eq_getElem hj] at heq
  simp only [Option.map_some', Option.some.injEq] at heq
  rw [hg i _ (List.getElem?_eq_getElem hi), hg j _ (List.getElem?_eq_getElem hj)] at heq
  have := (fmtNodeName_injective heq).2
  omega

theorem groups_names_nodup (layers : List SpnLayerInit) (groups : List (List Node))
    (hall : List.Forall₂ (fun (layerInit : SpnLayerInit) (g : List Node) =>
      ∀ (k : Nat) (n : Node), g[k]? = some n →
        n.data.name = fmtNodeName layerInit.name k) layers groups) :
    (∀ n ∈ groups.flatten, ∃ layerInit ∈ layers, ∃ k : Nat,
        n.data.name = fmtNodeName layerInit.name k)
    ∧ (∀ g ∈ groups, (g.map (fun n => n.data.name)).Nodup)
    ∧ ((layers.map (fun layerInit => layerInit.name)).Nodup →
        (groups.flatten.map (fun n => n.data.name)).Nodup) := by
  induction hall with
  | nil => simp
  | @cons layerInit g layers groups hg _ ih =>
    obtain ⟨ih1, ih2, ih3⟩ := ih
    have hgn := group_names_nodup layerInit.name g hg
    refine ⟨?_, ?_, ?_⟩
    · intro n hn
      simp only [List.flatten_cons, List.mem_append] at hn
      rcases hn with hn | hn
      · obtain ⟨k, hk⟩ := List.mem_iff_getElem?.mp hn
        exact ⟨layerInit, by simp, k, hg k n hk⟩
      · obtain ⟨l, hl, k, hk⟩ := ih1 n hn
        exact ⟨l, by simp [hl], k, hk⟩
    · intro g1 hg1
      rcases List.mem_cons.mp hg1 with rfl | hg1
      · exact hgn
      · exact ih2 g1 hg1
    · intro hnd
      simp only [List.map_cons, List.nodup_cons] at hnd
      simp only [List.flatten_cons, List.map_append]
      rw [List.nodup_append]
      refine ⟨hgn, ih3 hnd.2, ?_⟩
      intro name h1 h2
      obtain ⟨n, hn, rfl⟩ := List.mem_map.mp h1
      obtain ⟨n1, hn1, hname⟩ := List.mem_map.mp h2
      obtain ⟨k, hk⟩ := List.mem_iff_getElem?.mp hn
      obtain ⟨l, hl, k1, hk1⟩ := ih1 n1 hn1
      rw [hg k n hk] at hname
      rw [hk1] at hname
      have hsame := (fmtNodeName_injective hname).1
      exact hnd.1 (List.mem_map.mpr ⟨l, hl, hsame⟩)

/-- Claim C12: in a graph that `LoadSpnLayerInit` builds (called with empty output
vectors) the node vector is the concatenation of one group of nodes per layer description,
in layer order; the `k`-th node of the group of a layer (`k` from 0, across all
combination orders in a Product layer) is named `<layerName>_<k>`; the names within a
group are pairwise distinct, and when the layer names are pairwise distinct the node names
of the whole graph are pairwise distinct. -/
theorem LoadSpnLayerInit_node_names (decode : Int → Option NodeType) (spnData : SpnData)
    (alloc : Nat) (ns : List Node) (es : List Edge)
    (h : LoadSpnLayerInit decode spnData alloc [] [] = some (true, ns, es)) :
    ∃ groups : List (List Node), ns = groups.flatten
      ∧ groups.length = spnData.layers.length
      ∧ (∀ (l : Nat) (layerInit : SpnLayerInit) (g : List Node),
          spnData.layers[l]? = some layerInit → groups[l]? = some g →
          ∀ (k : Nat) (n : Node), g[k]? = some n →
            n.data.name = fmtNodeName layerInit.name k)
      ∧ (∀ g ∈ groups, (g.map (fun n => n.data.name)).Nodup)
      ∧ ((spnData.layers.map (fun layerInit => layerInit.name)).Nodup →
          (ns.map (fun n => n.data.name)).Nodup) := by
  unfold LoadSpnLayerInit at h
  split at h
  · cases h
  · rename_i layer0 rest hl
    split at h
    · simp at h
    · rcases hloop : LoadSpnLayerInit.loop decode spnData.layers ⟨[], alloc, [], []⟩
        with _ | ⟨b, st⟩
      · simp [hloop] at h
      · simp only [hloop, Option.some.injEq, Prod.mk.injEq] at h
        obtain ⟨rfl, rfl, rfl⟩ := h
        obtain ⟨groups, heq, hall⟩ := LoadSpnLayerInit.loop_groups decode _ _ _ hloop
        simp only [List.nil_append] at heq
        obtain ⟨-, h2, h3⟩ := groups_names_nodup _ _ hall
        refine ⟨groups, heq, hall.length_eq.symm, ?_, h2, ?_⟩
        · intro l layerInit g hL hG
          have := (List.forall₂_iff_get.mp hall).2 l (List.getElem?_eq_some_iff.mp hL).1
            (List.getElem?_eq_some_iff.mp hG).1
          simp only [List.get_eq_getElem] at this
          rw [(List.getElem?_eq_some_iff.mp hL).2, (List.getElem?_eq_some_iff.mp hG).2] at this
          exact this
        · intro hnd
          rw [heq]
          exact h3 hnd

/-- The witness of claim C12: the Input layer of four nodes followed by the Sum layer of
one node. -/
theorem LoadSpnLayerInit_node_names_witness :
    ∃ groups : List (List Node),
      exampleInputs ++ [layerNode exampleSumLayer 4 0] = groups.flatten
      ∧ groups.length = (layeredData [exampleInputLayer, exampleSumLayer]).layers.length
      ∧ (∀ (l : Nat) (layerInit : SpnLayerInit) (g : List Node),
          (layeredData [exampleInputLayer, exampleSumLayer]).layers[l]? = some layerInit →
          groups[l]? = some g →
          ∀ (k : Nat) (n : Node), g[k]? = some n →
            n.data.name = fmtNodeName layerInit.name k)
      ∧ (∀ g ∈ groups, (g.map (fun n => n.data.name)).Nodup)
      ∧ (((layeredData [exampleInputLayer, exampleSumLayer]).layers.map
            (fun layerInit => layerInit.name)).Nodup →
          ((exampleInputs ++ [layerNode exampleSumLayer 4 0]).map
            (fun n => n.data.name)).Nodup) :=
  LoadSpnLayerInit_node_names declarationOrder
    (layeredData [exampleInputLayer, exampleSumLayer]) 0
    (exampleInputs ++ [layerNode exampleSumLayer 4 0])
    (exampleInputs.map (fun lower => ⟨lower, layerNode exampleSumLayer 4 0, true⟩))
    (by decide)

/-- The witness of claim C14: a batch of one row, whose forward pass returns the
probabilities 2 and 4 (the model puts no bound on the numbers). -/
theorem TrainOneBatch_error_signal_witness :
    ∃ mError,
      TrainOneBatch (fun _ => 1) (fun _ => 1) (fun _ => pimatrix.ofRows [[2], [4]])
          exampleExplicitNodes (pimatrix.ofRows [[3, 5]])
        = some (TrainOneBatch.twoBatch (fun _ => 1) (fun _ => 1) exampleExplicitNodes
              (pimatrix.ofRows [[3, 5]]),
            pimatrix.ofRows [[2], [4]], mError)
      ∧ mError.size1 = (pimatrix.ofRows [[2], [4]]).size1
      ∧ mError.size2 = (pimatrix.ofRows [[2], [4]]).size2
      ∧ (∀ r, r < (pimatrix.ofRows [[3, 5]]).size1 →
          mError.get r 0 = some (1 / (pimatrix.ofRows [[2], [4]]).entry r 0))
      ∧ (∀ r, (pimatrix.ofRows [[3, 5]]).size1 ≤ r → r < 2 * (pimatrix.ofRows [[3, 5]]).size1 →
          mError.get r 0 = some (-(1 / (pimatrix.ofRows [[2], [4]]).entry r 0)))
      ∧ (∀ r, r < 2 * (pimatrix.ofRows [[3, 5]]).size1 →
          mError.entry r 0 * (pimatrix.ofRows [[2], [4]]).entry r 0
            = if r < (pimatrix.ofRows [[3, 5]]).size1 then 1 else -1) :=
  TrainOneBatch_error_signal (fun _ => 1) (fun _ => 1) (fun _ => pimatrix.ofRows [[2], [4]])
    exampleExplicitNodes (pimatrix.ofRows [[3, 5]]) (pimatrix.ofRows [[2], [4]]) rfl rfl rfl
    (by
      intro r hr
      have hr2 : r < 2 := hr
      interval_cases r <;> decide)

/-! ## The training loop -/

theorem lastMetricIndex_lt (t : MetricType) (ms : Metrics) (i : Nat)
    (h : lastMetricIndex t ms = some i) : i < ms.length := by
  induction ms generalizing i with
  | nil => simp [lastMetricIndex] at h
  | cons m rest ih =>
    simp only [lastMetricIndex] at h
    rcases h1 : lastMetricIndex t rest with _ | j
    · rw [h1] at h
      by_cases h2 : m.type = t
      · rw [if_pos h2] at h
        simp only [Option.some.injEq] at h
        subst h
        simp
      · rw [if_neg h2] at h
        simp at h
    · rw [h1] at h
      simp only [Option.some.injEq] at h
      subst h
      have := ih j h1
      simp only [List.length_cons]
      omega

theorem getLastMetricAvg_defined (HugeValue : ℚ) (ms : Metrics) (t : MetricType)
    (h : ∀ m ∈ ms, m.wellFormed) : ∃ v, getLastMetricAvg HugeValue ms t = some v := by
  unfold getLastMetricAvg
  rcases h1 : lastMetricIndex t ms with _ | i
  · exact ⟨HugeValue, rfl⟩
  · have hlt := lastMetricIndex_lt t ms i h1
    have h2 : ms[i]? = some ms[i] := List.getElem?_eq_getElem hlt
    simp only [h2]
    have h3 : ms[i].wellFormed := h _ (List.getElem_mem hlt)
    exact Option.ne_none_iff_exists'.mp h3

theorem appendStats.one_defined (iTrainStep : Int) (ms : Metrics) (m : Metric)
    (h : m.wellFormed) : ∃ r, appendStats.one iTrainStep ms m = some r := by
  obtain ⟨avg, havg⟩ := Option.ne_none_iff_exists'.mp h
  unfold appendStats.one
  simp only [havg]
  rcases lastMetricIndex m.type ms with _ | i
  · exact ⟨_, rfl⟩
  · exact ⟨_, rfl⟩

theorem appendStats.foldlM_defined (iTrainStep : Int) (l : List Metric)
    (h : ∀ m ∈ l, m.wellFormed) (ms : Metrics) :
    ∃ r, l.foldlM (appendStats.one iTrainStep) ms = some r := by
  induction l generalizing ms with
  | nil => exact ⟨ms, rfl⟩
  | cons m rest ih =>
    obtain ⟨r, hr⟩ := appendStats.one_defined iTrainStep ms m (h m (List.mem_cons_self _ _))
    obtain ⟨r2, hr2⟩ := ih (fun x hx => h x (List.mem_cons_of_mem _ hx)) r
    refine ⟨r2, ?_⟩
    simp only [List.foldlM, hr, bind, Option.bind]
    exact hr2

theorem appendStats_defined (ms newMetrics : Metrics) (iTrainStep : Int)
    (h : ∀ m ∈ newMetrics, m.wellFormed) :
    ∃ r, appendStats ms newMetrics iTrainStep = some r := by
  unfold appendStats
  exact appendStats.foldlM_defined iTrainStep _ (fun m hm => h m (List.mem_reverse.mp hm)) ms

theorem Train.evaluationMetrics_defined (env : TrainEnv) (tm : Metrics) (st : TrainState)
    (henv : env.wellBehaved) (htm : ∀ m ∈ tm, m.wellFormed) :
    ∃ r, Train.evaluationMetrics env tm st = some r := by
  obtain ⟨em, hem, hemwf⟩ := henv.2 false st.iTrainStep
  obtain ⟨xm, hxm, hxmwf⟩ := henv.2 true st.iTrainStep
  obtain ⟨a, ha⟩ := appendStats_defined st.valid_metrics em st.iTrainStep hemwf
  obtain ⟨b, hb⟩ := appendStats_defined st.train_metrics tm st.iTrainStep htm
  obtain ⟨c, hc⟩ := appendStats_defined st.test_metrics xm st.iTrainStep hxmwf
  obtain ⟨v1, hv1⟩ := getLastMetricAvg_defined env.HugeValue tm MetricType.NLL htm
  obtain ⟨v2, hv2⟩ := getLastMetricAvg_defined env.HugeValue em MetricType.NLL hemwf
  obtain ⟨v3, hv3⟩ := getLastMetricAvg_defined env.HugeValue xm MetricType.NLL hxmwf
  unfold Train.evaluationMetrics
  simp only [hem]
  by_cases ht : env.testSet = true
  · simp only [ht, if_true, hxm, ha, hb, hc, hv1, hv2, hv3]
    exact ⟨_, rfl⟩
  · simp only [Bool.not_eq_true] at ht
    simp only [ht, Bool.false_eq_true, if_false, ha, hb, hv1, hv2]
    exact ⟨_, rfl⟩

theorem Train.evaluationMetrics_validNLL (env : TrainEnv) (tm : Metrics) (st : TrainState)
    (v : ℚ) (a b c : Metrics) (h : Train.evaluationMetrics env tm st = some (v, a, b, c)) :
    validNLL env st.iTrainStep = some v := by
  unfold Train.evaluationMetrics at h
  unfold validNLL
  rcases h1 : env.Evaluate false st.iTrainStep with _ | em
  · rw [h1] at h
    simp at h
  · rw [h1] at h
    simp only at h ⊢
    split at h
    · simp at h
    · split at h
      · rename_i h6
        simp only [Option.some.injEq, Prod.mk.injEq] at h
        rw [h6, h.1]
      · simp at h

theorem Train.evaluation_spec (env : TrainEnv) (tm : Metrics) (st st1 : TrainState)
    (h : Train.evaluation env tm st = some st1) :
    ∃ v, validNLL env st.iTrainStep = some v
      ∧ st1.iTrainStep = st.iTrainStep
      ∧ st1.bestValidScore
          = (if (env.criterionNLL && decide (v < st.bestValidScore)) = true then v
             else st.bestValidScore)
      ∧ st1.trace = st.trace ++ ([TrainEvent.Evaluate false st.iTrainStep]
          ++ (if env.testSet then [TrainEvent.Evaluate true st.iTrainStep] else [])
          ++ [TrainEvent.printMetrics st.iTrainStep]
          ++ (if (env.criterionNLL && decide (v < st.bestValidScore)) = true then
                [TrainEvent.WriteProto st.iTrainStep CheckpointTag.BEST] else [])) := by
  unfold Train.evaluation at h
  rcases h1 : Train.evaluationMetrics env tm st with _ | ⟨v, a, b, c⟩
  · rw [h1] at h
    simp at h
  · rw [h1] at h
    simp only at h
    refine ⟨v, Train.evaluationMetrics_validNLL env tm st v a b c h1, ?_⟩
    by_cases hb : (env.criterionNLL && decide (v < st.bestValidScore)) = true
    · rw [if_pos hb] at h
      simp only [Option.some.injEq] at h
      subst h
      simp [hb]
    · rw [if_neg hb] at h
      simp only [Option.some.injEq] at h
      subst h
      simp [hb]

theorem Train.evaluation_defined (env : TrainEnv) (tm : Metrics) (st : TrainState)
    (henv : env.wellBehaved) (htm : ∀ m ∈ tm, m.wellFormed) :
    ∃ st1, Train.evaluation env tm st = some st1 := by
  obtain ⟨⟨v, a, b, c⟩, hr⟩ := Train.evaluationMetrics_defined env tm st henv htm
  unfold Train.evaluation
  simp only [hr]
  by_cases hb : (env.criterionNLL && decide (v < st.bestValidScore)) = true
  · rw [if_pos hb]
    exact ⟨_, rfl⟩
  · rw [if_neg hb]
    exact ⟨_, rfl⟩

theorem Train.body_spec (trainOp : Operation) (evalOp : Option Operation) (env : TrainEnv)
    (st st1 : TrainState) (h : Train.body trainOp evalOp env st = some st1) :
    ∃ doEval doCheckpoint best,
      evalCondition trainOp.eval_after st.iTrainStep = some doEval
      ∧ checkpointCondition trainOp.checkpoint_after st.iTrainStep = some doCheckpoint
      ∧ st1.iTrainStep = st.iTrainStep
      ∧ st1.trace = st.trace
          ++ Train.stepEvents trainOp env st.iTrainStep (doEval && evalOp.isSome) best
              doCheckpoint
      ∧ ((doEval && evalOp.isSome) = true →
          ∃ v, validNLL env st.iTrainStep = some v
            ∧ best = (env.criterionNLL && decide (v < st.bestValidScore))
            ∧ st1.bestValidScore = (if best = true then v else st.bestValidScore))
      ∧ ((doEval && evalOp.isSome) = false →
          best = false ∧ st1.bestValidScore = st.bestValidScore) := by
  unfold Train.body at h
  rcases h1 : env.TrainOneBatch st.iTrainStep with _ | tm
  · rw [h1] at h
    simp at h
  rcases h2 : evalCondition trainOp.eval_after st.iTrainStep with _ | doEval
  · rw [h1, h2] at h
    simp at h
  rcases h3 : checkpointCondition trainOp.checkpoint_after st.iTrainStep with _ | doCp
  · rw [h1, h2, h3] at h
    simp at h
  rw [h1, h2, h3] at h
  simp only at h
  by_cases he : (doEval && evalOp.isSome) = true
  · rw [if_pos he] at h
    split at h
    · simp at h
    · rename_i st2 hst2
      obtain ⟨v, hv, hi, hbest, htr⟩ := Train.evaluation_spec env tm _ st2 hst2
      simp only at hi hbest htr
      refine ⟨doEval, doCp, (env.criterionNLL && decide (v < st.bestValidScore)), rfl, rfl,
        ?_, ?_, ?_, ?_⟩
      · cases doCp
        · simp only [Bool.false_eq_true, if_false, Option.some.injEq] at h
          rw [← h, hi]
        · simp only [if_true, Option.some.injEq] at h
          rw [← h, hi]
      · cases doCp
        · simp only [Bool.false_eq_true, if_false, Option.some.injEq] at h
          rw [← h, htr]
          simp [Train.stepEvents, he]
        · simp only [if_true, Option.some.injEq] at h
          rw [← h]
          simp only [htr]
          simp [Train.stepEvents, he]
      · intro _
        refine ⟨v, hv, rfl, ?_⟩
        cases doCp
        · simp only [Bool.false_eq_true, if_false, Option.some.injEq] at h
          rw [← h, hbest]
        · simp only [if_true, Option.some.injEq] at h
          rw [← h]
          simp only [hbest]
      · intro hc
        rw [he] at hc
        simp at hc
  · simp only [Bool.not_eq_true] at he
    rw [he] at h
    simp only [Bool.false_eq_true, if_false] at h
    refine ⟨doEval, doCp, false, rfl, rfl, ?_, ?_, ?_, ?_⟩
    · cases doCp
      · simp only [Bool.false_eq_true, if_false, Option.some.injEq] at h
        rw [← h]
      · simp only [if_true, Option.some.injEq] at h
        rw [← h]
    · cases doCp
      · simp only [Bool.false_eq_true, if_false, Option.some.injEq] at h
        rw [← h]
        simp [Train.stepEvents, he]
      · simp only [if_true, Option.some.injEq] at h
        rw [← h]
        simp [Train.stepEvents, he]
    · intro hc
      rw [he] at hc
      simp at hc
    · intro _
      refine ⟨rfl, ?_⟩
      cases doCp
      · simp only [Bool.false_eq_true, if_false, Option.some.injEq] at h
        rw [← h]
      · simp only [if_true, Option.some.injEq] at h
        rw [← h]

theorem Train.body_defined (trainOp : Operation) (evalOp : Option Operation) (env : TrainEnv)
    (st : TrainState) (henv : env.wellBehaved) (he : trainOp.eval_after ≠ 0)
    (hc : trainOp.checkpoint_after ≠ 0) :
    ∃ st1, Train.body trainOp evalOp env st = some st1 := by
  obtain ⟨tm, htm, htmwf⟩ := henv.1 st.iTrainStep
  unfold Train.body
  simp only [htm, evalCondition, checkpointCondition, if_neg he, if_neg hc]
  by_cases hd : (Int.tmod st.iTrainStep trainOp.eval_after == 0 && evalOp.isSome) = true
  · rw [if_pos hd]
    obtain ⟨st2, hst2⟩ := Train.evaluation_defined env tm
      ⟨st.iTrainStep, st.bestValidScore, st.test_metrics, st.valid_metrics,
        st.train_metrics,
        st.trace ++ [TrainEvent.EndLoadNextBatch, TrainEvent.BeginLoadNextBatch,
            TrainEvent.TrainOneBatch st.iTrainStep]
          ++ (if trainOp.normalize_each_train_step then [TrainEvent.normalizeWeights]
              else [])⟩ henv htmwf
    rw [hst2]
    simp only
    split
    · exact ⟨_, rfl⟩
    · exact ⟨_, rfl⟩
  · rw [if_neg hd]
    simp only
    split
    · exact ⟨_, rfl⟩
    · exact ⟨_, rfl⟩

theorem Train.stepEvents_filterMap_best {α : Type} (f : TrainEvent → Option α)
    (hf : ∀ i, f (TrainEvent.WriteProto i CheckpointTag.BEST) = none)
    (trainOp : Operation) (env : TrainEnv) (i : Int) (doEval best doCheckpoint : Bool) :
    (Train.stepEvents trainOp env i doEval best doCheckpoint).filterMap f
      = (Train.stepEvents trainOp env i doEval false doCheckpoint).filterMap f := by
  cases best
  · rfl
  · cases doEval
    · rfl
    · simp only [Train.stepEvents, if_true, Bool.false_eq_true, if_false, List.append_nil,
        List.filterMap_append, List.filterMap_cons, List.filterMap_nil, hf]

theorem Train.iterations_filterMap {α : Type} (f : TrainEvent → Option α)
    (hf : ∀ i, f (TrainEvent.WriteProto i CheckpointTag.BEST) = none)
    (trainOp : Operation) (evalOp : Option Operation) (env : TrainEnv)
    (cond : StopCondition) (henv : env.wellBehaved) (he : trainOp.eval_after ≠ 0)
    (hc : trainOp.checkpoint_after ≠ 0) (n k : Nat) (st : TrainState)
    (hk : st.iTrainStep = (k : Int)) :
    ∃ st1, Train.iterations trainOp evalOp env cond n st = some st1
      ∧ st1.trace.filterMap f = st.trace.filterMap f
          ++ (List.range' k (min n (cond.steps.toNat - k))).flatMap (fun j =>
              (Train.stepEvents trainOp env (j : Int)
                (Int.tmod (j : Int) trainOp.eval_after == 0 && evalOp.isSome) false
                (Int.tmod (j : Int) trainOp.checkpoint_after == 0)).filterMap f) := by
  induction n generalizing k st with
  | zero => exact ⟨st, rfl, by simp⟩
  | succ n ih =>
    unfold Train.iterations
    by_cases hs : stopCondition cond st.iTrainStep = true
    · rw [if_pos hs]
      obtain ⟨st1, hst1⟩ := Train.body_defined trainOp evalOp env st henv he hc
      obtain ⟨doEval, doCp, best, h1, h2, h3, h4, -, -⟩ :=
        Train.body_spec trainOp evalOp env st st1 hst1
      rw [hst1]
      simp only
      obtain ⟨st2, hst2, htr⟩ := ih (k + 1)
        ⟨st1.iTrainStep + 1, st1.bestValidScore, st1.test_metrics, st1.valid_metrics,
          st1.train_metrics, st1.trace⟩ (by simp only [h3, hk]; push_cast; rfl)
      refine ⟨st2, hst2, ?_⟩
      rw [htr]
      simp only [h4, List.filterMap_append, List.append_assoc, List.append_cancel_left_eq]
      simp only [evalCondition, if_neg he, Option.some.injEq] at h1
      simp only [checkpointCondition, if_neg hc, Option.some.injEq] at h2
      simp only [stopCondition, decide_eq_true_eq, hk] at hs
      have hm : min (n + 1) (cond.steps.toNat - k)
          = min n (cond.steps.toNat - (k + 1)) + 1 := by omega
      rw [hm, List.range'_succ, List.flatMap_cons,
        Train.stepEvents_filterMap_best f hf, ← h1, ← h2, hk]
    · rw [if_neg hs]
      refine ⟨st, rfl, ?_⟩
      simp only [stopCondition, decide_eq_true_eq, hk, not_lt] at hs
      have hm : min (n + 1) (cond.steps.toNat - k) = 0 := by omega
      rw [hm]
      simp

theorem flatMap_ite_singleton {α β : Type} (p : α → Bool) (g : α → β) (l : List α) :
    l.flatMap (fun j => if p j = true then [g j] else []) = (l.filter p).map g := by
  induction l with
  | nil => rfl
  | cons a l ih =>
    simp only [List.flatMap_cons, ih, List.filter_cons]
    by_cases h : p a = true
    · simp [h]
    · simp [h]

theorem Train.defined_filterMap {α : Type} (f : TrainEvent → Option α)
    (hf : ∀ i, f (TrainEvent.WriteProto i CheckpointTag.BEST) = none)
    (hf1 : f TrainEvent.create_directories = none)
    (hf2 : f TrainEvent.normalizeWeights = none)
    (hf3 : f TrainEvent.Prune = none)
    (hf4 : f TrainEvent.deleteDataHandler = none)
    (trainOp : Operation) (evalOp : Option Operation) (env : TrainEnv)
    (hval : env.validated = true) (hdh : env.dataHandler = true)
    (hnb : env.numBatchesAtLoad ≠ 0)
    (hdir : env.directoryExists = true ∨ env.create_directories = true)
    (henv : env.wellBehaved) (he : trainOp.eval_after ≠ 0)
    (hc : trainOp.checkpoint_after ≠ 0) :
    ∃ trace, Train trainOp evalOp env = some trace
      ∧ trace.filterMap f
          = (List.range (Train.stopCond trainOp env).steps.toNat).flatMap (fun j =>
              (Train.stepEvents trainOp env (j : Int)
                (Int.tmod (j : Int) trainOp.eval_after == 0 && evalOp.isSome) false
                (Int.tmod (j : Int) trainOp.checkpoint_after == 0)).filterMap f) := by
  obtain ⟨st1, hst1, htr⟩ := Train.iterations_filterMap f hf trainOp evalOp env
    (Train.stopCond trainOp env) henv he hc (Train.stopCond trainOp env).steps.toNat 0
    (Train.start env) rfl
  have hd : (!env.directoryExists && !env.create_directories) = false := by
    rcases hdir with h | h <;> simp [h]
  refine ⟨st1.trace ++ [TrainEvent.Prune, TrainEvent.normalizeWeights,
    TrainEvent.deleteDataHandler], ?_, ?_⟩
  · unfold Train
    simp only [hval, hdh, hd, hst1, Bool.not_true, Bool.false_eq_true, if_false, if_neg hnb]
  · rw [List.filterMap_append, htr]
    have h0 : (Train.start env).trace.filterMap f = [] := by
      unfold Train.start
      cases env.directoryExists <;> simp [hf1, hf2]
    rw [h0]
    simp [hf2, hf3, hf4, List.range_eq_range']

theorem exampleTrainEnv_wellBehaved : exampleTrainEnv.wellBehaved := by
  refine ⟨fun i => ⟨_, rfl, ?_⟩, fun b i => ⟨_, rfl, ?_⟩⟩
  · intro m hm
    simp only [List.mem_singleton] at hm
    subst hm
    simp [Metric.wellFormed, Metric.lastAvg]
  · intro m hm
    simp only [List.mem_singleton] at hm
    subst hm
    simp [Metric.wellFormed, Metric.lastAvg]

theorem Train.cadence_natCast (j : Nat) (x : Int) (hx : 0 < x) :
    (Int.tmod (j : Int) x == 0) = decide ((j : Int) % x = 0) := by
  rw [Int.tmod_eq_emod (Int.natCast_nonneg j) (le_of_lt hx)]
  rfl

theorem filter_map_natCast (p : Int → Bool) (l : List Nat) :
    (l.filter (fun j : Nat => p (j : Int))).map (fun j : Nat => (j : Int))
      = (l.map (fun j : Nat => (j : Int))).filter p := by
  induction l with
  | nil => rfl
  | cons a l ih =>
    simp only [List.filter_cons, List.map_cons]
    by_cases h : p (a : Int) = true
    · simp [h, ih]
    · simp [h, ih]

/-- The steps below `n` at which a block guarded by `iStep % x == 0`, for a positive
cadence `x`, is entered. -/
theorem Train.cadence_steps (x : Int) (hx : 0 < x) (n : Nat) :
    (List.range n).flatMap (fun j =>
        if (Int.tmod (j : Int) x == 0) = true then [((j : Nat) : Int)] else [])
      = ((List.range n).map (fun j : Nat => (j : Int))).filter (fun i => decide (i % x = 0)) := by
  have h : (List.range n).filter (fun j : Nat => Int.tmod (j : Int) x == 0)
      = (List.range n).filter (fun j : Nat => decide ((j : Int) % x = 0)) :=
    List.filter_congr (fun j _ => Train.cadence_natCast j x hx)
  rw [flatMap_ite_singleton (fun j : Nat => Int.tmod (j : Int) x == 0)
    (fun j : Nat => (j : Int)), h, filter_map_natCast (fun i => decide (i % x = 0))]

/-- The steps of a run at which `TrainOneBatch` is called: every step below the resolved
step count, once, in increasing order. -/
theorem Train.trainedSteps_eq (trainOp : Operation) (evalOp : Option Operation)
    (env : TrainEnv) (hval : env.validated = true) (hdh : env.dataHandler = true)
    (hnb : env.numBatchesAtLoad ≠ 0)
    (hdir : env.directoryExists = true ∨ env.create_directories = true)
    (henv : env.wellBehaved) (he : trainOp.eval_after ≠ 0)
    (hc : trainOp.checkpoint_after ≠ 0) :
    ∃ trace, Train trainOp evalOp env = some trace
      ∧ trainedSteps trace
          = (List.range (Train.stopCond trainOp env).steps.toNat).map
              (fun j : Nat => (j : Int)) := by
  obtain ⟨trace, h, htr⟩ := Train.defined_filterMap
    TrainEvent.trainedStep (fun _ => rfl) rfl rfl rfl rfl
    trainOp evalOp env hval hdh hnb hdir henv he hc
  refine ⟨trace, h, ?_⟩
  unfold trainedSteps
  rw [htr]
  have hstep : ∀ j : Nat, (Train.stepEvents trainOp env (j : Int)
      (Int.tmod (j : Int) trainOp.eval_after == 0 && evalOp.isSome) false
      (Int.tmod (j : Int) trainOp.checkpoint_after == 0)).filterMap
        TrainEvent.trainedStep = [(j : Int)] := by
    intro j
    unfold Train.stepEvents
    cases trainOp.normalize_each_train_step <;> cases env.testSet
      <;> cases (Int.tmod (j : Int) trainOp.eval_after == 0 && evalOp.isSome)
      <;> cases (Int.tmod (j : Int) trainOp.checkpoint_after == 0) <;> rfl
  simp only [hstep]
  induction (List.range (Train.stopCond trainOp env).steps.toNat) with
  | nil => rfl
  | cons a l ih => simp [List.flatMap_cons, ih]

/-- The steps of a run at which `Evaluate` is called on the validation set, when an
evaluation operation is supplied and the cadence is positive. -/
theorem Train.evaluatedSteps_eq (trainOp : Operation) (evalOp : Option Operation)
    (env : TrainEnv) (hval : env.validated = true) (hdh : env.dataHandler = true)
    (hnb : env.numBatchesAtLoad ≠ 0)
    (hdir : env.directoryExists = true ∨ env.create_directories = true)
    (henv : env.wellBehaved) (hop : evalOp.isSome = true)
    (he : 0 < trainOp.eval_after) (hc : trainOp.checkpoint_after ≠ 0) :
    ∃ trace, Train trainOp evalOp env = some trace
      ∧ evaluatedSteps trace
          = ((List.range (Train.stopCond trainOp env).steps.toNat).map
              (fun j : Nat => (j : Int))).filter
                (fun i => decide (i % trainOp.eval_after = 0)) := by
  obtain ⟨trace, h, htr⟩ := Train.defined_filterMap
    TrainEvent.evaluatedStep (fun _ => rfl) rfl rfl rfl rfl
    trainOp evalOp env hval hdh hnb hdir henv (ne_of_gt he) hc
  refine ⟨trace, h, ?_⟩
  unfold evaluatedSteps
  rw [htr, ← Train.cadence_steps trainOp.eval_after he]
  congr 1
  funext j
  unfold Train.stepEvents
  rw [hop, Bool.and_true]
  cases trainOp.normalize_each_train_step <;> cases env.testSet
    <;> cases (Int.tmod (j : Int) trainOp.eval_after == 0)
    <;> cases (Int.tmod (j : Int) trainOp.checkpoint_after == 0) <;> rfl

/-- The numbers of the step-numbered checkpoints of a run and the steps at which its LAST
checkpoint is written, when the checkpoint cadence is positive. -/
theorem Train.checkpoints_eq (trainOp : Operation) (evalOp : Option Operation)
    (env : TrainEnv) (hval : env.validated = true) (hdh : env.dataHandler = true)
    (hnb : env.numBatchesAtLoad ≠ 0)
    (hdir : env.directoryExists = true ∨ env.create_directories = true)
    (henv : env.wellBehaved) (he : trainOp.eval_after ≠ 0)
    (hc : 0 < trainOp.checkpoint_after) :
    ∃ trace, Train trainOp evalOp env = some trace
      ∧ numberedCheckpoints trace
          = ((List.range (Train.stopCond trainOp env).steps.toNat).map
              (fun j : Nat => (j : Int))).filter
                (fun i => decide (i % trainOp.checkpoint_after = 0))
      ∧ lastCheckpoints trace
          = ((List.range (Train.stopCond trainOp env).steps.toNat).map
              (fun j : Nat => (j : Int))).filter
                (fun i => decide (i % trainOp.checkpoint_after = 0)) := by
  obtain ⟨trace, h, htr⟩ := Train.defined_filterMap
    TrainEvent.numberedCheckpoint (fun _ => rfl) rfl rfl rfl rfl
    trainOp evalOp env hval hdh hnb hdir henv he (ne_of_gt hc)
  obtain ⟨trace2, h2, htr2⟩ := Train.defined_filterMap
    TrainEvent.lastCheckpoint (fun _ => rfl) rfl rfl rfl rfl
    trainOp evalOp env hval hdh hnb hdir henv he (ne_of_gt hc)
  rw [h, Option.some.injEq] at h2
  subst h2
  refine ⟨trace, h, ?_, ?_⟩
  · unfold numberedCheckpoints
    rw [htr, ← Train.cadence_steps trainOp.checkpoint_after hc]
    congr 1
    funext j
    unfold Train.stepEvents
    cases trainOp.normalize_each_train_step <;> cases env.testSet
      <;> cases (Int.tmod (j : Int) trainOp.eval_after == 0 && evalOp.isSome)
      <;> cases (Int.tmod (j : Int) trainOp.checkpoint_after == 0) <;> rfl
  · unfold lastCheckpoints
    rw [htr2, ← Train.cadence_steps trainOp.checkpoint_after hc]
    congr 1
    funext j
    unfold Train.stepEvents
    cases trainOp.normalize_each_train_step <;> cases env.testSet
      <;> cases (Int.tmod (j : Int) trainOp.eval_after == 0 && evalOp.isSome)
      <;> cases (Int.tmod (j : Int) trainOp.checkpoint_after == 0) <;> rfl

/-- The training loop is left by its stop test: from a state at step `k` every number of
passes from `steps - k` on gives one and the same final state, its step counter is the
step count (or `k`, if that is larger), and the stop test fails there. -/
theorem Train.iterations_exit (trainOp : Operation) (evalOp : Option Operation)
    (env : TrainEnv) (cond : StopCondition) (henv : env.wellBehaved)
    (he : trainOp.eval_after ≠ 0) (hc : trainOp.checkpoint_after ≠ 0) (d k : Nat)
    (st : TrainState) (hk : st.iTrainStep = (k : Int)) (hd : cond.steps.toNat - k = d) :
    ∃ st1, (∀ n, d ≤ n → Train.iterations trainOp evalOp env cond n st = some st1)
      ∧ st1.iTrainStep = ((max k cond.steps.toNat : Nat) : Int)
      ∧ stopCondition cond st1.iTrainStep = false := by
  induction d generalizing k st with
  | zero =>
    have hs : stopCondition cond st.iTrainStep = false := by
      simp only [stopCondition, hk, decide_eq_false_iff_not, not_lt]
      omega
    refine ⟨st, ?_, ?_, hs⟩
    · intro n _
      cases n with
      | zero => rfl
      | succ n =>
        unfold Train.iterations
        simp [hs]
    · rw [hk, Nat.max_eq_left (by omega)]
  | succ d ih =>
    have hs : stopCondition cond st.iTrainStep = true := by
      simp only [stopCondition, hk, decide_eq_true_eq]
      omega
    obtain ⟨st1, hst1⟩ := Train.body_defined trainOp evalOp env st henv he hc
    obtain ⟨-, -, -, -, -, h3, -, -, -⟩ := Train.body_spec trainOp evalOp env st st1 hst1
    obtain ⟨st2, hall, hstep, hstop⟩ := ih (k + 1)
      ⟨st1.iTrainStep + 1, st1.bestValidScore, st1.test_metrics, st1.valid_metrics,
        st1.train_metrics, st1.trace⟩ (by simp only [h3, hk]; push_cast; rfl) (by omega)
    refine ⟨st2, ?_, ?_, hstop⟩
    · intro n hn
      cases n with
      | zero => omega
      | succ n =>
        unfold Train.iterations
        rw [if_pos hs, hst1]
        exact hall n (by omega)
    · rw [hstep]
      congr 1
      omega

/-- How `Train` leaves its loop when the environment answers every call: the trace of the
run is the trace of the state in which the loop ends, followed by the three closing
calls; that state is the same for every number of passes from the resolved step count on,
its step counter is the resolved step count, and the stop test fails there. -/
theorem Train.loop_exit (trainOp : Operation) (evalOp : Option Operation)
    (env : TrainEnv) (hval : env.validated = true) (hdh : env.dataHandler = true)
    (hnb : env.numBatchesAtLoad ≠ 0)
    (hdir : env.directoryExists = true ∨ env.create_directories = true)
    (henv : env.wellBehaved) (he : trainOp.eval_after ≠ 0)
    (hc : trainOp.checkpoint_after ≠ 0) (trace : List TrainEvent)
    (h : Train trainOp evalOp env = some trace) :
    ∃ st : TrainState,
      trace = st.trace ++ [TrainEvent.Prune, TrainEvent.normalizeWeights,
        TrainEvent.deleteDataHandler]
      ∧ st.iTrainStep = ((Train.stopCond trainOp env).steps.toNat : Int)
      ∧ stopCondition (Train.stopCond trainOp env) st.iTrainStep = false
      ∧ ∀ fuel, (Train.stopCond trainOp env).steps.toNat ≤ fuel →
          Train.iterations trainOp evalOp env (Train.stopCond trainOp env) fuel
            (Train.start env) = some st := by
  obtain ⟨st, hall, hstep, hstop⟩ := Train.iterations_exit trainOp evalOp env
    (Train.stopCond trainOp env) henv he hc (Train.stopCond trainOp env).steps.toNat 0
    (Train.start env) rfl rfl
  have hd : (!env.directoryExists && !env.create_directories) = false := by
    rcases hdir with h | h <;> simp [h]
  unfold Train at h
  simp only [hval, hdh, hd, hall _ (Nat.le_refl _), Bool.not_true, Bool.false_eq_true,
    if_false, if_neg hnb, Option.some.injEq] at h
  refine ⟨st, h.symm, ?_, hstop, hall⟩
  rw [hstep, Nat.max_eq_right (Nat.zero_le _)]

/-- Claim C15: in `Train` with an evaluation operation supplied, a fixed step count `N`
and an evaluation cadence `e > 0`, the run returns and the steps at which `Evaluate` is
called on the validation set are, in call order, the steps `0, 1, ..., N-1` filtered by
`i mod e = 0`: they are increasing, they are exactly the `i` with `0 ≤ i < N` and
`i mod e = 0`, and for `N = 5`, `e = 2` they are `0, 2, 4`.  The bound `N` is where the
stop test `stopCondition` ends the loop: the loop ends in the same state however many
passes beyond `N` it is allowed, with the step counter at `N` (at 0 for a negative `N`)
and the stop test false.  The environment is assumed to pass the opening assertion, to
give a data handler with a non-empty training set and a usable checkpoint directory, and
to answer every call; the checkpoint cadence is nonzero. -/
theorem Train_evaluation_steps (trainOp : Operation) (evalOp : Option Operation)
    (env : TrainEnv) (hval : env.validated = true) (hdh : env.dataHandler = true)
    (hnb : env.numBatchesAtLoad ≠ 0)
    (hdir : env.directoryExists = true ∨ env.create_directories = true)
    (henv : env.wellBehaved) (hop : evalOp.isSome = true)
    (hfixed : trainOp.stop_condition.all_processed = false)
    (he : 0 < trainOp.eval_after) (hc : trainOp.checkpoint_after ≠ 0) :
    ∃ trace, Train trainOp evalOp env = some trace
      ∧ evaluatedSteps trace
          = ((List.range trainOp.stop_condition.steps.toNat).map
              (fun j : Nat => (j : Int))).filter
                (fun i => decide (i % trainOp.eval_after = 0))
      ∧ (evaluatedSteps trace).Pairwise (fun a b => a < b)
      ∧ (∀ i : Int, i ∈ evaluatedSteps trace
          ↔ 0 ≤ i ∧ i < trainOp.stop_condition.steps ∧ i % trainOp.eval_after = 0)
      ∧ (trainOp.stop_condition.steps = 5 → trainOp.eval_after = 2 →
          evaluatedSteps trace = [0, 2, 4])
      ∧ ∃ st : TrainState,
          trace = st.trace ++ [TrainEvent.Prune, TrainEvent.normalizeWeights,
            TrainEvent.deleteDataHandler]
          ∧ st.iTrainStep = (trainOp.stop_condition.steps.toNat : Int)
          ∧ stopCondition trainOp.stop_condition st.iTrainStep = false
          ∧ ∀ fuel, trainOp.stop_condition.steps.toNat ≤ fuel →
              Train.iterations trainOp evalOp env trainOp.stop_condition fuel
                (Train.start env) = some st := by
  obtain ⟨trace, h, htr⟩ := Train.evaluatedSteps_eq trainOp evalOp env hval hdh hnb hdir
    henv hop he hc
  have hexit := Train.loop_exit trainOp evalOp env hval hdh hnb hdir henv (ne_of_gt he) hc
    trace h
  have hcond : Train.stopCond trainOp env = trainOp.stop_condition := by
    unfold Train.stopCond
    rw [hfixed]
    rfl
  rw [hcond] at htr hexit
  refine ⟨trace, h, htr, ?_, ?_, ?_, hexit⟩
  · rw [htr]
    apply List.Pairwise.filter
    rw [List.pairwise_map]
    exact (List.pairwise_lt_range _).imp (fun hab => by exact_mod_cast hab)
  · intro i
    rw [htr]
    simp only [List.mem_filter, List.mem_map, List.mem_range, decide_eq_true_eq]
    constructor
    · rintro ⟨⟨j, hj, rfl⟩, hmod⟩
      refine ⟨Int.natCast_nonneg j, ?_, hmod⟩
      omega
    · rintro ⟨h0, hlt, hmod⟩
      refine ⟨⟨i.toNat, ?_, ?_⟩, hmod⟩
      · omega
      · omega
  · intro h5 h2
    rw [htr, h5, h2]
    decide

/-- The witness of claim C15: the run of `exampleTrainOp` (5 fixed steps, evaluation
cadence 2) evaluates at the steps 0, 2 and 4 and leaves the loop at step 5. -/
theorem Train_evaluation_steps_witness :
    ∃ trace, Train exampleTrainOp (some exampleEvalOp) exampleTrainEnv = some trace
      ∧ evaluatedSteps trace = [0, 2, 4]
      ∧ ∃ st : TrainState,
          trace = st.trace ++ [TrainEvent.Prune, TrainEvent.normalizeWeights,
            TrainEvent.deleteDataHandler]
          ∧ st.iTrainStep = 5
          ∧ ∀ fuel, 5 ≤ fuel →
              Train.iterations exampleTrainOp (some exampleEvalOp) exampleTrainEnv
                exampleTrainOp.stop_condition fuel (Train.start exampleTrainEnv) = some st := by
  obtain ⟨trace, h, _, _, _, h5, st, h6, h7, _, h9⟩ := Train_evaluation_steps exampleTrainOp
    (some exampleEvalOp) exampleTrainEnv rfl rfl (by decide) (Or.inr rfl)
    exampleTrainEnv_wellBehaved rfl rfl (by decide) (by decide)
  exact ⟨trace, h, h5 rfl rfl, st, h6, h7, h9⟩

/-- Claim C16, as amended: training for a fixed 5 steps with `checkpoint_after = 5` on a
non-empty training set returns and writes exactly one step-numbered checkpoint, numbered
0, and exactly one LAST checkpoint, both at step 0: the steps of the run are 0, ..., 4,
and 0 is the only one with `iStep % 5 == 0`.  The stop test `stopCondition` ends the loop
at step 5, before the body runs there: the loop ends in the same state however many
passes beyond 5 it is allowed, with the step counter at 5 and the stop test false.  The
environment is assumed to pass the opening assertion, to give a data handler and a usable
checkpoint directory, and to answer every call; the evaluation cadence is nonzero. -/
theorem Train_checkpoints_fixed_five_steps (trainOp : Operation)
    (evalOp : Option Operation) (env : TrainEnv) (hval : env.validated = true)
    (hdh : env.dataHandler = true) (hnb : env.numBatchesAtLoad ≠ 0)
    (hdir : env.directoryExists = true ∨ env.create_directories = true)
    (henv : env.wellBehaved)
    (hfixed : trainOp.stop_condition.all_processed = false)
    (hsteps : trainOp.stop_condition.steps = 5)
    (he : trainOp.eval_after ≠ 0) (hc : trainOp.checkpoint_after = 5) :
    ∃ trace, Train trainOp evalOp env = some trace
      ∧ numberedCheckpoints trace = [0] ∧ lastCheckpoints trace = [0]
      ∧ trainedSteps trace = [0, 1, 2, 3, 4]
      ∧ ∃ st : TrainState,
          trace = st.trace ++ [TrainEvent.Prune, TrainEvent.normalizeWeights,
            TrainEvent.deleteDataHandler]
          ∧ st.iTrainStep = 5
          ∧ stopCondition trainOp.stop_condition st.iTrainStep = false
          ∧ ∀ fuel, 5 ≤ fuel →
              Train.iterations trainOp evalOp env trainOp.stop_condition fuel
                (Train.start env) = some st := by
  have hc0 : trainOp.checkpoint_after ≠ 0 := by
    rw [hc]
    decide
  obtain ⟨trace, h, h1, h2⟩ := Train.checkpoints_eq trainOp evalOp env hval hdh hnb hdir
    henv he (by rw [hc]; decide)
  obtain ⟨trace3, h3, htr3⟩ := Train.trainedSteps_eq trainOp evalOp env hval hdh hnb hdir
    henv he hc0
  rw [h, Option.some.injEq] at h3
  subst h3
  have hexit := Train.loop_exit trainOp evalOp env hval hdh hnb hdir henv he hc0 trace h
  have hcond : Train.stopCond trainOp env = trainOp.stop_condition := by
    unfold Train.stopCond
    rw [hfixed]
    rfl
  rw [hcond, hsteps] at h1 h2 htr3 hexit
  rw [hc] at h1 h2
  refine ⟨trace, h, ?_, ?_, ?_, hexit⟩
  · rw [h1]
    decide
  · rw [h2]
    decide
  · rw [htr3]
    decide

/-- The witness of claim C16: the run of `exampleTrainOp` on `exampleTrainEnv`. -/
theorem Train_checkpoints_fixed_five_steps_witness :
    ∃ trace, Train exampleTrainOp (some exampleEvalOp) exampleTrainEnv = some trace
      ∧ numberedCheckpoints trace = [0] ∧ lastCheckpoints trace = [0]
      ∧ trainedSteps trace = [0, 1, 2, 3, 4]
      ∧ ∃ st : TrainState,
          trace = st.trace ++ [TrainEvent.Prune, TrainEvent.normalizeWeights,
            TrainEvent.deleteDataHandler]
          ∧ st.iTrainStep = 5
          ∧ stopCondition exampleTrainOp.stop_condition st.iTrainStep = false
          ∧ ∀ fuel, 5 ≤ fuel →
              Train.iterations exampleTrainOp (some exampleEvalOp) exampleTrainEnv
                exampleTrainOp.stop_condition fuel (Train.start exampleTrainEnv) = some st :=
  Train_checkpoints_fixed_five_steps exampleTrainOp (some exampleEvalOp) exampleTrainEnv
    rfl rfl (by decide) (Or.inr rfl) exampleTrainEnv_wellBehaved rfl rfl (by decide) rfl

/-- Claim C16 fails as stated: the run of `exampleTrainOp` (5 fixed steps,
`checkpoint_after = 5`, `eval_after = 2`) on the three batches of `exampleTrainEnv` writes
one step-numbered checkpoint, and its number is 0, not 5. -/
theorem Train_checkpoint_numbered_zero :
    (Train exampleTrainOp (some exampleEvalOp) exampleTrainEnv).map numberedCheckpoints
        = some [0]
      ∧ (Train exampleTrainOp (some exampleEvalOp) exampleTrainEnv).map numberedCheckpoints
        ≠ some [5] := by
  with_unfolding_all decide

/-- Claim C18: the training loop terminates and calls `TrainOneBatch` exactly once for
each step `0, 1, ..., N-1`, in this order, and for no other step, where `N` is the
configured step count when `all_processed` is unset and the batch count of the training
set when it is set, whatever step count the configuration carries; for `N ≤ 0` there is
no call.  The loop terminates by its stop test `stopCondition`: it ends in the same state
however many passes beyond `N` it is allowed, with the step counter at `N` (at 0 for a
negative `N`) and the stop test false, and the stop test is true at every step below
`N`.  The environment is assumed to pass the opening assertion, to give a data handler
with a non-empty training set and a usable checkpoint directory, and to answer every
call; the two cadences are nonzero. -/
theorem Train_one_TrainOneBatch_per_step (trainOp : Operation)
    (evalOp : Option Operation) (env : TrainEnv) (hval : env.validated = true)
    (hdh : env.dataHandler = true) (hnb : env.numBatchesAtLoad ≠ 0)
    (hdir : env.directoryExists = true ∨ env.create_directories = true)
    (henv : env.wellBehaved) (he : trainOp.eval_after ≠ 0)
    (hc : trainOp.checkpoint_after ≠ 0) (N : Int)
    (hN : N = if trainOp.stop_condition.all_processed = true then (env.numBatches : Int)
      else trainOp.stop_condition.steps) :
    ∃ trace, Train trainOp evalOp env = some trace
      ∧ trainedSteps trace = (List.range N.toNat).map (fun j : Nat => (j : Int))
      ∧ (∀ i : Int, (trainedSteps trace).count i = if 0 ≤ i ∧ i < N then 1 else 0)
      ∧ (N ≤ 0 → trainedSteps trace = [])
      ∧ (∀ i : Int, stopCondition (Train.stopCond trainOp env) i = true ↔ i < N)
      ∧ ∃ st : TrainState,
          trace = st.trace ++ [TrainEvent.Prune, TrainEvent.normalizeWeights,
            TrainEvent.deleteDataHandler]
          ∧ st.iTrainStep = (N.toNat : Int)
          ∧ stopCondition (Train.stopCond trainOp env) st.iTrainStep = false
          ∧ ∀ fuel, N.toNat ≤ fuel →
              Train.iterations trainOp evalOp env (Train.stopCond trainOp env) fuel
                (Train.start env) = some st := by
  obtain ⟨trace, h, htr⟩ := Train.trainedSteps_eq trainOp evalOp env hval hdh hnb hdir
    henv he hc
  have hexit := Train.loop_exit trainOp evalOp env hval hdh hnb hdir henv he hc trace h
  have hN2 : (Train.stopCond trainOp env).steps = N := by
    unfold Train.stopCond
    rw [hN]
    by_cases hall : trainOp.stop_condition.all_processed = true
    · simp [hall]
    · simp [hall]
  rw [hN2] at htr hexit
  refine ⟨trace, h, htr, ?_, ?_, ?_, hexit⟩
  · intro i
    rw [htr]
    have hnd : ((List.range N.toNat).map (fun j : Nat => (j : Int))).Nodup :=
      (List.nodup_range _).map (fun a b hab => by exact_mod_cast hab)
    by_cases hi : 0 ≤ i ∧ i < N
    · rw [if_pos hi]
      apply List.count_eq_one_of_mem hnd
      simp only [List.mem_map, List.mem_range]
      exact ⟨i.toNat, by omega, by omega⟩
    · rw [if_neg hi]
      apply List.count_eq_zero_of_not_mem
      simp only [List.mem_map, List.mem_range, not_exists, not_and]
      intro j hj hji
      apply hi
      omega
  · intro hle
    rw [htr]
    have : N.toNat = 0 := by omega
    rw [this]
    rfl
  · intro i
    simp only [stopCondition, decide_eq_true_eq, hN2]

/-- The witness of claim C18: the run of `exampleTrainOp` (5 fixed steps) calls
`TrainOneBatch` at the steps 0 to 4 and leaves the loop at step 5. -/
theorem Train_one_TrainOneBatch_per_step_witness :
    ∃ trace, Train exampleTrainOp (some exampleEvalOp) exampleTrainEnv = some trace
      ∧ trainedSteps trace = [0, 1, 2, 3, 4]
      ∧ ∃ st : TrainState,
          trace = st.trace ++ [TrainEvent.Prune, TrainEvent.normalizeWeights,
            TrainEvent.deleteDataHandler]
          ∧ st.iTrainStep = 5
          ∧ ∀ fuel, 5 ≤ fuel →
              Train.iterations exampleTrainOp (some exampleEvalOp) exampleTrainEnv
                (Train.stopCond exampleTrainOp exampleTrainEnv) fuel
                (Train.start exampleTrainEnv) = some st := by
  obtain ⟨trace, h, htr, _, _, _, st, h6, h7, _, h9⟩ :=
    Train_one_TrainOneBatch_per_step exampleTrainOp
      (some exampleEvalOp) exampleTrainEnv rfl rfl (by decide) (Or.inr rfl)
      exampleTrainEnv_wellBehaved (by decide) (by decide) 5 rfl
  exact ⟨trace, h, htr, st, h6, h7, h9⟩

/-- C19: when the training set reports zero batches, `Train` returns having made no other
call than the release of the data handler: no `TrainOneBatch` and no `Evaluate` (the
callers of `Forward` and `Backward` and of the weight updates), no `normalizeWeights`, no
`Prune`, no `create_directories` and no `WriteProto`.  The opening assertion is assumed to
hold and the data handler to be loaded. -/
theorem Train_empty_training_set (trainOp : Operation) (evalOp : Option Operation)
    (env : TrainEnv) (hval : env.validated = true) (hdh : env.dataHandler = true)
    (hnb : env.numBatchesAtLoad = 0) :
    Train trainOp evalOp env = some [TrainEvent.deleteDataHandler]
      ∧ ∀ trace, Train trainOp evalOp env = some trace →
          (∀ i, TrainEvent.TrainOneBatch i ∉ trace)
          ∧ (∀ b i, TrainEvent.Evaluate b i ∉ trace)
          ∧ TrainEvent.normalizeWeights ∉ trace
          ∧ TrainEvent.Prune ∉ trace
          ∧ TrainEvent.create_directories ∉ trace
          ∧ (∀ i tag, TrainEvent.WriteProto i tag ∉ trace) := by
  have h : Train trainOp evalOp env = some [TrainEvent.deleteDataHandler] := by
    unfold Train
    simp [hval, hdh, hnb]
  refine ⟨h, ?_⟩
  intro trace htrace
  rw [h, Option.some.injEq] at htrace
  subst htrace
  simp

theorem Train_empty_training_set_witness :
    Train exampleTrainOp (some exampleEvalOp) exampleEmptyTrainEnv
      = some [TrainEvent.deleteDataHandler] :=
  (Train_empty_training_set exampleTrainOp (some exampleEvalOp) exampleEmptyTrainEnv
    rfl rfl rfl).1

theorem Train.mem_stepEvents_Evaluate (trainOp : Operation) (env : TrainEnv) (i j : Int)
    (doEval best doCheckpoint : Bool) :
    TrainEvent.Evaluate false j ∈ Train.stepEvents trainOp env i doEval best doCheckpoint
      ↔ j = i ∧ doEval = true := by
  cases h1 : trainOp.normalize_each_train_step <;> cases h2 : env.testSet
    <;> cases doEval <;> cases best <;> cases doCheckpoint
    <;> simp [Train.stepEvents, h1, h2]

theorem Train.mem_stepEvents_BEST (trainOp : Operation) (env : TrainEnv) (i j : Int)
    (doEval best doCheckpoint : Bool) :
    TrainEvent.WriteProto j CheckpointTag.BEST
        ∈ Train.stepEvents trainOp env i doEval best doCheckpoint
      ↔ j = i ∧ doEval = true ∧ best = true := by
  cases h1 : trainOp.normalize_each_train_step <;> cases h2 : env.testSet
    <;> cases doEval <;> cases best <;> cases doCheckpoint
    <;> simp [Train.stepEvents, h1, h2]

theorem Train.body_best_le (trainOp : Operation) (evalOp : Option Operation)
    (env : TrainEnv) (st st1 : TrainState)
    (h : Train.body trainOp evalOp env st = some st1) :
    st1.bestValidScore ≤ st.bestValidScore := by
  obtain ⟨doEval, doCp, best, -, -, -, -, h5, h6⟩ :=
    Train.body_spec trainOp evalOp env st st1 h
  by_cases hd : (doEval && evalOp.isSome) = true
  · obtain ⟨v, -, hb, hs⟩ := h5 hd
    rw [hs]
    by_cases hbest : best = true
    · rw [if_pos hbest]
      rw [hbest] at hb
      have := hb.symm
      simp only [Bool.and_eq_true, decide_eq_true_eq] at this
      exact le_of_lt this.2
    · rw [if_neg hbest]
  · simp only [Bool.not_eq_true] at hd
    rw [(h6 hd).2]

theorem Train.body_invariant (trainOp : Operation) (evalOp : Option Operation)
    (env : TrainEnv) (st st1 : TrainState)
    (hinv : Train.invariant trainOp evalOp env st)
    (h : Train.body trainOp evalOp env st = some st1) :
    Train.invariant trainOp evalOp env
      ⟨st1.iTrainStep + 1, st1.bestValidScore, st1.test_metrics, st1.valid_metrics,
        st1.train_metrics, st1.trace⟩ := by
  have hle := Train.body_best_le trainOp evalOp env st st1 h
  obtain ⟨doEval, doCp, best, h1, -, h3, h4, h5, h6⟩ :=
    Train.body_spec trainOp evalOp env st st1 h
  obtain ⟨i1, i2, i3⟩ := hinv
  refine ⟨le_trans hle i1, ?_, ?_⟩
  · intro j hj
    simp only at hj ⊢
    rw [h4, List.mem_append, Train.mem_stepEvents_Evaluate] at hj
    rcases hj with hj | ⟨rfl, hd⟩
    · obtain ⟨a1, a2, a3, w, hw, a4⟩ := i2 j hj
      refine ⟨by omega, a2, a3, w, hw, fun hcrit => le_trans hle (a4 hcrit)⟩
    · obtain ⟨v, hv, hb, hs⟩ := h5 hd
      have hd2 := hd
      simp only [Bool.and_eq_true] at hd2
      refine ⟨by omega, hd2.2, ?_, v, hv, ?_⟩
      · rw [h1, hd2.1]
      · intro hcrit
        rw [hs]
        by_cases hbest : best = true
        · rw [if_pos hbest]
        · rw [if_neg hbest]
          rw [hb, hcrit] at hbest
          simp only [Bool.true_and, decide_eq_true_eq, not_lt] at hbest
          exact hbest
  · intro x hx
    simp only at hx ⊢
    rw [h4, List.mem_append, Train.mem_stepEvents_BEST] at hx
    rcases hx with hx | ⟨rfl, hd, hbest⟩
    · obtain ⟨a1, a2, a3, v, hv, a4, a5⟩ := i3 x hx
      refine ⟨by omega, ?_, a3, v, hv, a4, ?_⟩
      · rw [h4]
        exact List.mem_append_left _ a2
      · intro j hj hmem
        rw [h4, List.mem_append, Train.mem_stepEvents_Evaluate] at hmem
        rcases hmem with hmem | ⟨rfl, -⟩
        · exact a5 j hj hmem
        · omega
    · obtain ⟨v, hv, hb, -⟩ := h5 hd
      rw [hbest] at hb
      have hb2 := hb.symm
      simp only [Bool.and_eq_true, decide_eq_true_eq] at hb2
      refine ⟨by omega, ?_, hb2.1, v, hv, lt_of_lt_of_le hb2.2 i1, ?_⟩
      · rw [h4]
        exact List.mem_append_right _
          ((Train.mem_stepEvents_Evaluate trainOp env _ _ _ _ _).mpr ⟨rfl, hd⟩)
      · intro j hj hmem
        rw [h4, List.mem_append, Train.mem_stepEvents_Evaluate] at hmem
        rcases hmem with hmem | ⟨rfl, -⟩
        · obtain ⟨-, -, -, w, hw, a4⟩ := i2 j hmem
          exact ⟨w, hw, lt_of_lt_of_le hb2.2 (a4 hb2.1)⟩
        · omega

theorem Train.iterations_invariant (trainOp : Operation) (evalOp : Option Operation)
    (env : TrainEnv) (cond : StopCondition) (n : Nat) (st st1 : TrainState)
    (hinv : Train.invariant trainOp evalOp env st)
    (h : Train.iterations trainOp evalOp env cond n st = some st1) :
    Train.invariant trainOp evalOp env st1 := by
  induction n generalizing st with
  | zero =>
    simp only [Train.iterations, Option.some.injEq] at h
    rw [← h]
    exact hinv
  | succ n ih =>
    unfold Train.iterations at h
    by_cases hs : stopCondition cond st.iTrainStep = true
    · rw [if_pos hs] at h
      rcases hb : Train.body trainOp evalOp env st with _ | st2
      · rw [hb] at h
        simp at h
      · rw [hb] at h
        exact ih _ (Train.body_invariant trainOp evalOp env st st2 hinv hb) h
    · rw [if_neg hs, Option.some.injEq] at h
      rw [← h]
      exact hinv

theorem Train.start_invariant (trainOp : Operation) (evalOp : Option Operation)
    (env : TrainEnv) : Train.invariant trainOp evalOp env (Train.start env) := by
  unfold Train.invariant Train.start
  cases env.directoryExists <;> simp

theorem Train.iterations_succ (trainOp : Operation) (evalOp : Option Operation)
    (env : TrainEnv) (cond : StopCondition) (n : Nat) (st : TrainState) :
    Train.iterations trainOp evalOp env cond (n + 1) st
      = (Train.iterations trainOp evalOp env cond n st).bind
          (Train.iterations trainOp evalOp env cond 1) := by
  induction n generalizing st with
  | zero => rfl
  | succ n ih =>
    rw [Train.iterations]
    by_cases hs : stopCondition cond st.iTrainStep = true
    · rw [if_pos hs]
      rcases hb : Train.body trainOp evalOp env st with _ | st2
      · simp [Train.iterations, hs, hb]
      · simp only
        rw [ih]
        conv_rhs => rw [Train.iterations, if_pos hs, hb]
    · rw [if_neg hs]
      conv_rhs => rw [Train.iterations, if_neg hs]
      simp [Train.iterations, hs]

theorem Train.iterations_one_best_le (trainOp : Operation) (evalOp : Option Operation)
    (env : TrainEnv) (cond : StopCondition) (a b : TrainState)
    (h : Train.iterations trainOp evalOp env cond 1 a = some b) :
    b.bestValidScore ≤ a.bestValidScore := by
  simp only [Train.iterations] at h
  by_cases hs : stopCondition cond a.iTrainStep = true
  · rw [if_pos hs] at h
    rcases hb : Train.body trainOp evalOp env a with _ | st2
    · rw [hb] at h
      simp at h
    · rw [hb] at h
      simp only [Option.some.injEq] at h
      rw [← h]
      exact Train.body_best_le trainOp evalOp env a st2 hb
  · rw [if_neg hs, Option.some.injEq] at h
    rw [← h]

/-- C17: in a run of `Train`, a BEST checkpoint is written at a step only if `Evaluate` was
called on the validation set at that step (so an evaluation operation was supplied and the
evaluation condition held), the model-selection criterion is NLL, and the validation NLL
average of the step is strictly below the sentinel `HugeValue` and strictly below the
validation NLL average of every earlier step at which `Evaluate` was called; and the best
validation score after one more pass of the loop is never above the score before it, and
never above the sentinel. -/
theorem Train_best_checkpoint (trainOp : Operation) (evalOp : Option Operation)
    (env : TrainEnv) (trace : List TrainEvent)
    (h : Train trainOp evalOp env = some trace) :
    (∀ i, TrainEvent.WriteProto i CheckpointTag.BEST ∈ trace →
        TrainEvent.Evaluate false i ∈ trace
        ∧ evalOp.isSome = true
        ∧ evalCondition trainOp.eval_after i = some true
        ∧ env.criterionNLL = true
        ∧ ∃ v, validNLL env i = some v ∧ v < env.HugeValue
          ∧ ∀ j, j < i → TrainEvent.Evaluate false j ∈ trace →
              ∃ w, validNLL env j = some w ∧ v < w)
      ∧ (∀ n a b,
          Train.iterations trainOp evalOp env (Train.stopCond trainOp env) n
              (Train.start env) = some a →
          Train.iterations trainOp evalOp env (Train.stopCond trainOp env) (n + 1)
              (Train.start env) = some b →
          b.bestValidScore ≤ a.bestValidScore ∧ a.bestValidScore ≤ env.HugeValue) := by
  constructor
  · unfold Train at h
    by_cases h1 : (!env.validated) = true
    · rw [if_pos h1] at h
      simp at h
    rw [if_neg h1] at h
    by_cases h2 : (!env.dataHandler) = true
    · rw [if_pos h2, Option.some.injEq] at h
      subst h
      simp
    rw [if_neg h2] at h
    by_cases h3 : env.numBatchesAtLoad = 0
    · rw [if_pos h3, Option.some.injEq] at h
      subst h
      simp
    rw [if_neg h3] at h
    by_cases h4 : (!env.directoryExists && !env.create_directories) = true
    · rw [if_pos h4, Option.some.injEq] at h
      subst h
      simp
    rw [if_neg h4] at h
    rcases hit : Train.iterations trainOp evalOp env (Train.stopCond trainOp env)
      (Train.stopCond trainOp env).steps.toNat (Train.start env) with _ | st
    · rw [hit] at h
      simp at h
    rw [hit] at h
    simp only [Option.some.injEq] at h
    subst h
    obtain ⟨-, i2, i3⟩ := Train.iterations_invariant trainOp evalOp env _ _ _ st
      (Train.start_invariant trainOp evalOp env) hit
    intro i hi
    have hi2 : TrainEvent.WriteProto i CheckpointTag.BEST ∈ st.trace := by
      simpa using hi
    obtain ⟨-, a2, a3, v, hv, a4, a5⟩ := i3 i hi2
    obtain ⟨-, b2, b3, -⟩ := i2 i a2
    refine ⟨List.mem_append_left _ a2, b2, b3, a3, v, hv, a4, ?_⟩
    intro j hj hmem
    have hmem2 : TrainEvent.Evaluate false j ∈ st.trace := by
      simpa using hmem
    exact a5 j hj hmem2
  · intro n a b ha hb
    rw [Train.iterations_succ, ha] at hb
    exact ⟨Train.iterations_one_best_le trainOp evalOp env _ a b hb,
      (Train.iterations_invariant trainOp evalOp env _ _ _ a
        (Train.start_invariant trainOp evalOp env) ha).1⟩

theorem Train_best_checkpoint_witness :
    Train exampleTrainOp (some exampleEvalOp) exampleTrainEnv = some exampleTrace
      ∧ TrainEvent.WriteProto 2 CheckpointTag.BEST ∈ exampleTrace
      ∧ ∀ i, TrainEvent.WriteProto i CheckpointTag.BEST ∈ exampleTrace →
          TrainEvent.Evaluate false i ∈ exampleTrace
          ∧ (some exampleEvalOp).isSome = true
          ∧ evalCondition exampleTrainOp.eval_after i = some true
          ∧ exampleTrainEnv.criterionNLL = true
          ∧ ∃ v, validNLL exampleTrainEnv i = some v ∧ v < exampleTrainEnv.HugeValue
            ∧ ∀ j, j < i → TrainEvent.Evaluate false j ∈ exampleTrace →
                ∃ w, validNLL exampleTrainEnv j = some w ∧ v < w :=
  ⟨by with_unfolding_all decide, by decide,
    (Train_best_checkpoint exampleTrainOp (some exampleEvalOp) exampleTrainEnv exampleTrace
      (by with_unfolding_all decide)).1⟩

/-! ## The forward and the backward pass -/

theorem Backward.loop_reverse (m_nodeList : List Node) (k : Nat) (hk : k ≤ m_nodeList.length)
    (calls : List PassEvent) :
    Backward.loop m_nodeList k calls
      = some (calls ++ (m_nodeList.take k).reverse.map PassEvent.Backward) := by
  induction k generalizing calls with
  | zero => simp [Backward.loop]
  | succ k ih =>
    have hlt : k < m_nodeList.length := by omega
    have hget : m_nodeList[k]? = some m_nodeList[k] := List.getElem?_eq_getElem hlt
    unfold Backward.loop
    rw [hget]
    simp only
    rw [ih (by omega), List.take_succ, hget]
    simp only [Option.toList, List.reverse_append, List.reverse_cons, List.reverse_nil,
      List.nil_append, List.map_append, List.map_cons, List.map_nil, List.append_assoc,
      List.singleton_append]

theorem filterMap_forwardNode_map (l : List Node) :
    (l.map PassEvent.Forward).filterMap PassEvent.forwardNode = l := by
  induction l with
  | nil => rfl
  | cons a l ih => simp [PassEvent.forwardNode, ih]

theorem filterMap_backwardNode_map (l : List Node) :
    (l.map PassEvent.Backward).filterMap PassEvent.backwardNode = l := by
  induction l with
  | nil => rfl
  | cons a l ih => simp [PassEvent.backwardNode, ih]

theorem filterMap_forwardNode_setValue (l : List Node) :
    (l.map PassEvent.SetValue).filterMap PassEvent.forwardNode = [] := by
  induction l with
  | nil => rfl
  | cons a l ih => simp [PassEvent.forwardNode, ih]

theorem filterMap_forwardNode_setValueOne (l : List Node) (rows : Nat) :
    (l.map (fun n => PassEvent.SetValueOne n rows)).filterMap PassEvent.forwardNode = [] := by
  induction l with
  | nil => rfl
  | cons a l ih => simp [PassEvent.forwardNode, ih]

/-- Claim C24: for an `Spn` object with a root, `Spn::Forward` and `Spn::Backward` both
return; the nodes on which `Forward` is called are the entries of the ordered node list
`m_nodeList` in list order, the nodes on which `Backward` is called are the same sequence
reversed, and `Backward` makes no other call; so each pass visits a node as often as the
node occurs in the list, exactly once when the list holds no node twice. -/
theorem Backward_reverses_Forward (spn : SpnObject) (batch : Option pimatrix) (root : Node)
    (hroot : spn.m_root = some root) :
    ∃ fwd bwd, Forward spn batch = some fwd ∧ Backward spn = some bwd
      ∧ forwardNodes fwd = spn.m_nodeList
      ∧ backwardNodes bwd = (forwardNodes fwd).reverse
      ∧ bwd = (forwardNodes fwd).reverse.map PassEvent.Backward
      ∧ (∀ n, (forwardNodes fwd).count n = spn.m_nodeList.count n
          ∧ (backwardNodes bwd).count n = spn.m_nodeList.count n)
      ∧ (spn.m_nodeList.Nodup → ∀ n ∈ spn.m_nodeList,
          (forwardNodes fwd).count n = 1 ∧ (backwardNodes bwd).count n = 1) := by
  have hb : Backward spn = some (spn.m_nodeList.reverse.map PassEvent.Backward) := by
    unfold Backward
    rw [Backward.loop_reverse _ _ (le_refl _), List.take_length]
    rfl
  have hf : ∀ fwd, Forward spn batch = some fwd → forwardNodes fwd = spn.m_nodeList := by
    intro fwd h
    unfold Forward at h
    rw [hroot] at h
    simp only [Option.some.injEq] at h
    subst h
    unfold forwardNodes
    cases batch with
    | none =>
      simp only [List.filterMap_append, filterMap_forwardNode_map, List.filterMap_cons,
        List.filterMap_nil, PassEvent.forwardNode, List.nil_append, List.append_nil]
    | some b =>
      simp only [List.filterMap_append, filterMap_forwardNode_map,
        filterMap_forwardNode_setValue, filterMap_forwardNode_setValueOne,
        List.filterMap_cons, List.filterMap_nil, PassEvent.forwardNode, List.nil_append,
        List.append_nil]
  have hdef : ∃ fwd, Forward spn batch = some fwd := by
    unfold Forward
    rw [hroot]
    exact ⟨_, rfl⟩
  obtain ⟨fwd, hfwd⟩ := hdef
  have hfn := hf fwd hfwd
  have hbn : backwardNodes (spn.m_nodeList.reverse.map PassEvent.Backward)
      = spn.m_nodeList.reverse := filterMap_backwardNode_map _
  refine ⟨fwd, _, hfwd, hb, hfn, ?_, ?_, ?_, ?_⟩
  · rw [hbn, hfn]
  · rw [hfn]
  · intro n
    rw [hbn, hfn, List.count_reverse]
    exact ⟨rfl, rfl⟩
  · intro hnd n hn
    rw [hbn, hfn, List.count_reverse]
    exact ⟨List.count_eq_one_of_mem hnd hn, List.count_eq_one_of_mem hnd hn⟩

/-- The witness of claim C24: the two nodes of `exampleExplicit`, visited as Input node,
Sum node by `Forward` and as Sum node, Input node by `Backward`. -/
theorem Backward_reverses_Forward_witness :
    ∃ fwd bwd, Forward exampleValidated none = some fwd ∧ Backward exampleValidated = some bwd
      ∧ forwardNodes fwd = exampleExplicitNodes
      ∧ backwardNodes bwd = exampleExplicitNodes.reverse := by
  obtain ⟨fwd, bwd, h1, h2, h3, h4, -⟩ := Backward_reverses_Forward exampleValidated none
    ⟨1, .SumNode, ⟨"1", .SUM, 1, some 2⟩⟩ rfl
  exact ⟨fwd, bwd, h1, h2, h3, by rw [h4, h3]; rfl⟩

/-! ## Explicit construction: the reads of the input-index vector -/

/-- Claim C27, evaluated at a description it covers: `exampleNoInputIndices` has a node-type
vector of size 1 x 1 and an adjacency matrix of size 1 x 1, so it passes the dimension
check; its only node is an Input node, and the node pass reads `inputIndices(0, 0)` in an
input-index vector without entries: the read is outside the matrix and the call has no
defined return value. -/
theorem LoadSpnListInit_input_index_read_outside :
    (exampleNoInputIndices.node_list.size1 = 1 ∧ 1 ≤ exampleNoInputIndices.node_list.size2
      ∧ exampleNoInputIndices.adjacency_matrix.size1
          = exampleNoInputIndices.adjacency_matrix.size2
      ∧ exampleNoInputIndices.adjacency_matrix.size1 = exampleNoInputIndices.node_list.size2)
    ∧ exampleNoInputIndices.node_list.get 0 0 = some 0
    ∧ (toInt 0).bind declarationOrder = some NodeType.INPUT
    ∧ exampleNoInputIndices.input_indices.size2 = 0
    ∧ exampleNoInputIndices.input_indices.get 0 0 = none
    ∧ LoadSpnListInit declarationOrder exampleNoInputIndices 0 [] [] = none := by
  refine ⟨?_, ?_, ?_, ?_, ?_, ?_⟩ <;> decide

/-! ## Wiring from a stored structure -/

theorem LoadSpnStructure.edgeLoop_eq (nodes : List Node) (eds : List EdgeData)
    (edges : List Edge) :
    LoadSpnStructure.edgeLoop nodes eds edges
      = edges ++ eds.filterMap (LoadSpnStructure.wire nodes) := by
  induction eds generalizing edges with
  | nil => simp [LoadSpnStructure.edgeLoop]
  | cons d rest ih =>
    unfold LoadSpnStructure.edgeLoop
    rcases h1 : nodes.find? (findNodeByName d.node1) with _ | n1
    · simp only [ih]
      simp [LoadSpnStructure.wire, h1]
    · rcases h2 : nodes.find? (findNodeByName d.node2) with _ | n2
      · simp only [ih]
        simp [LoadSpnStructure.wire, h1, h2]
      · simp only [ih]
        simp [LoadSpnStructure.wire, h1, h2]

theorem LoadSpnStructure.wire_none (nodes : List Node) (edgeData : EdgeData)
    (h : (∀ n ∈ nodes, n.data.name ≠ edgeData.node1)
      ∨ (∀ n ∈ nodes, n.data.name ≠ edgeData.node2)) :
    LoadSpnStructure.wire nodes edgeData = none := by
  unfold LoadSpnStructure.wire
  rcases h with h | h
  · have h1 : nodes.find? (findNodeByName edgeData.node1) = none := by
      rw [List.find?_eq_none]
      intro n hn
      simp only [findNodeByName, beq_iff_eq]
      exact fun hc => h n hn hc.symm
    rw [h1]
  · have h2 : nodes.find? (findNodeByName edgeData.node2) = none := by
      rw [List.find?_eq_none]
      intro n hn
      simp only [findNodeByName, beq_iff_eq]
      exact fun hc => h n hn hc.symm
    rw [h2]
    rcases nodes.find? (findNodeByName edgeData.node1) with _ | n1 <;> rfl

theorem LoadSpnStructure_eq (MergeNodeData : Node → NodeData → Node) (modelData : ModelData)
    (alloc : Nat) (nodes : List Node) (edges : List Edge) :
    LoadSpnStructure MergeNodeData modelData alloc nodes edges
      = (true,
          (LoadSpnStructure.nodeLoop MergeNodeData
            (decide (nodes.length = 0) && decide (edges.length = 0)) alloc
            modelData.nodes.reverse 0 nodes edges).1,
          (LoadSpnStructure.nodeLoop MergeNodeData
            (decide (nodes.length = 0) && decide (edges.length = 0)) alloc
            modelData.nodes.reverse 0 nodes edges).2
            ++ modelData.edges.reverse.filterMap (LoadSpnStructure.wire
              (LoadSpnStructure.nodeLoop MergeNodeData
                (decide (nodes.length = 0) && decide (edges.length = 0)) alloc
                modelData.nodes.reverse 0 nodes edges).1)) := by
  unfold LoadSpnStructure
  simp only [LoadSpnStructure.edgeLoop_eq]

theorem LoadSpnStructure_nothing_stored (MergeNodeData : Node → NodeData → Node)
    (modelData : ModelData) (alloc : Nat) (nodes : List Node) (edges : List Edge)
    (hn : modelData.nodes = []) (he : modelData.edges = []) :
    LoadSpnStructure MergeNodeData modelData alloc nodes edges = (true, nodes, edges) := by
  rw [LoadSpnStructure_eq, hn, he]
  simp [LoadSpnStructure.nodeLoop]

theorem FromProto_eq_of_wiring (decode : Int → Option NodeType)
    (MergeNodeData : Node → NodeData → Node) (modelData modelData1 : ModelData) (alloc : Nat)
    (h1 : modelData1.model_type_SPN = modelData.model_type_SPN)
    (h2 : modelData1.has_spn_data = modelData.has_spn_data)
    (h3 : modelData1.spn_data = modelData.spn_data)
    (h4 : ∀ nodes edges, LoadSpnStructure MergeNodeData modelData1 alloc nodes edges
      = LoadSpnStructure MergeNodeData modelData alloc nodes edges) :
    FromProto decode MergeNodeData modelData1 alloc
      = FromProto decode MergeNodeData modelData alloc := by
  have hw : ∀ (md : ModelData) nodes edges,
      (if md.nodes.length > 0 ∨ md.edges.length > 0 then
        LoadSpnStructure MergeNodeData md alloc nodes edges else (true, nodes, edges))
        = LoadSpnStructure MergeNodeData md alloc nodes edges := by
    intro md nodes edges
    by_cases hc : md.nodes.length > 0 ∨ md.edges.length > 0
    · rw [if_pos hc]
    · rw [if_neg hc]
      have hn : md.nodes = [] := List.length_eq_zero.mp (by omega)
      have he : md.edges = [] := List.length_eq_zero.mp (by omega)
      exact (LoadSpnStructure_nothing_stored MergeNodeData md alloc nodes edges hn he).symm
  unfold FromProto
  simp only [hw]
  simp only [h1, h2, h3, h4]

theorem filterMap_filter_of_none {α β : Type} (f : α → Option β) (p : α → Bool)
    (l : List α) (h : ∀ d ∈ l, p d = false → f d = none) :
    (l.filter p).filterMap f = l.filterMap f := by
  rw [List.filterMap_filter]
  apply List.filterMap_congr
  intro d hd
  by_cases hp : p d = true
  · rw [if_pos hp]
  · rw [if_neg hp]
    exact (h d hd (by simpa using hp)).symm

theorem LoadSpnStructure_withoutEdge (MergeNodeData : Node → NodeData → Node)
    (modelData : ModelData) (alloc : Nat) (nodes : List Node) (edges : List Edge)
    (edgeData : EdgeData)
    (hun : (∀ n ∈ (LoadSpnStructure MergeNodeData modelData alloc nodes edges).2.1,
          n.data.name ≠ edgeData.node1)
      ∨ (∀ n ∈ (LoadSpnStructure MergeNodeData modelData alloc nodes edges).2.1,
          n.data.name ≠ edgeData.node2)) :
    LoadSpnStructure MergeNodeData (modelData.withoutEdge edgeData) alloc nodes edges
      = LoadSpnStructure MergeNodeData modelData alloc nodes edges := by
  rw [LoadSpnStructure_eq] at hun
  simp only at hun
  have hw := LoadSpnStructure.wire_none _ edgeData hun
  rw [LoadSpnStructure_eq, LoadSpnStructure_eq]
  simp only [ModelData.withoutEdge, List.filterMap_reverse]
  rw [filterMap_filter_of_none]
  intro d _ hd
  have : d = edgeData := by simpa using hd
  rw [this]
  exact hw

/-- Claim C22, as amended: an edge description with an end node that does not exist among
the built nodes is ignored.  `LoadSpnStructure` returns true, and its result, return value
and both vectors, is the result for the model description without that edge description;
`FromProto` does not look at the return value, and its result for a description whose
construction stage gives the vectors `nodes` and `edges` is its result for the
description without that edge description: a graph whenever the node vector and the edge
vector are non-empty after wiring. -/
theorem LoadSpnStructure_ignores_unresolved_edge (decode : Int → Option NodeType)
    (MergeNodeData : Node → NodeData → Node) (modelData : ModelData) (alloc : Nat)
    (nodes : List Node) (edges : List Edge) (edgeData : EdgeData)
    (hun : (∀ n ∈ (LoadSpnStructure MergeNodeData modelData alloc nodes edges).2.1,
          n.data.name ≠ edgeData.node1)
      ∨ (∀ n ∈ (LoadSpnStructure MergeNodeData modelData alloc nodes edges).2.1,
          n.data.name ≠ edgeData.node2)) :
    (LoadSpnStructure MergeNodeData modelData alloc nodes edges).1 = true
    ∧ LoadSpnStructure MergeNodeData modelData alloc nodes edges
        = LoadSpnStructure MergeNodeData (modelData.withoutEdge edgeData) alloc nodes edges
    ∧ ((if modelData.has_spn_data then LoadSpnInit decode modelData.spn_data alloc [] []
          else some (true, [], [])) = some (true, nodes, edges) →
        FromProto decode MergeNodeData modelData alloc
          = FromProto decode MergeNodeData (modelData.withoutEdge edgeData) alloc
        ∧ (modelData.model_type_SPN = true →
            (LoadSpnStructure MergeNodeData modelData alloc nodes edges).2.1 ≠ [] →
            (LoadSpnStructure MergeNodeData modelData alloc nodes edges).2.2 ≠ [] →
            ∃ spn, FromProto decode MergeNodeData modelData alloc = some (some spn)
              ∧ spn.m_nodes = (LoadSpnStructure MergeNodeData modelData alloc nodes edges).2.1
              ∧ spn.m_edges
                  = (LoadSpnStructure MergeNodeData modelData alloc nodes edges).2.2)) := by
  have heq := LoadSpnStructure_withoutEdge MergeNodeData modelData alloc nodes edges edgeData hun
  have hw : ∀ (md : ModelData),
      (if md.nodes.length > 0 ∨ md.edges.length > 0 then
        LoadSpnStructure MergeNodeData md alloc nodes edges else (true, nodes, edges))
        = LoadSpnStructure MergeNodeData md alloc nodes edges := by
    intro md
    by_cases hc : md.nodes.length > 0 ∨ md.edges.length > 0
    · rw [if_pos hc]
    · rw [if_neg hc]
      have hn : md.nodes = [] := List.length_eq_zero.mp (by omega)
      have he : md.edges = [] := List.length_eq_zero.mp (by omega)
      exact (LoadSpnStructure_nothing_stored MergeNodeData md alloc nodes edges hn he).symm
  refine ⟨by rw [LoadSpnStructure_eq], heq.symm, ?_⟩
  intro hinit
  have hinit1 : (if (modelData.withoutEdge edgeData).has_spn_data then
      LoadSpnInit decode (modelData.withoutEdge edgeData).spn_data alloc [] []
        else some (true, [], [])) = some (true, nodes, edges) := hinit
  constructor
  · unfold FromProto
    rw [hinit, hinit1]
    simp only [hw]
    simp only [heq]
    rfl
  · intro hspn hn he
    unfold FromProto
    rw [hinit]
    simp only [hw, hspn, Bool.not_true, Bool.false_eq_true, if_false]
    have hn1 : ¬ (LoadSpnStructure MergeNodeData modelData alloc nodes edges).2.1.length = 0 :=
      fun hc => hn (List.length_eq_zero.mp hc)
    have he1 : ¬ (LoadSpnStructure MergeNodeData modelData alloc nodes edges).2.2.length = 0 :=
      fun hc => he (List.length_eq_zero.mp hc)
    rw [if_neg (by tauto)]
    exact ⟨_, rfl, rfl, rfl⟩

/-- The witness of claim C22: the stored model of `exampleExplicit` with an edge
description from node "0" to node "1" and one from node "0" to a node "missing". -/
theorem LoadSpnStructure_ignores_unresolved_edge_witness :
    (LoadSpnStructure replaceNodeData
        (storedModel exampleExplicit [⟨"0", "1", true⟩, ⟨"0", "missing", true⟩]) 0
        exampleExplicitNodes [exampleExplicitEdge]).1 = true
    ∧ LoadSpnStructure replaceNodeData
        (storedModel exampleExplicit [⟨"0", "1", true⟩, ⟨"0", "missing", true⟩]) 0
        exampleExplicitNodes [exampleExplicitEdge]
      = LoadSpnStructure replaceNodeData
        ((storedModel exampleExplicit [⟨"0", "1", true⟩, ⟨"0", "missing", true⟩]).withoutEdge
          ⟨"0", "missing", true⟩) 0 exampleExplicitNodes [exampleExplicitEdge]
    ∧ FromProto declarationOrder replaceNodeData
        (storedModel exampleExplicit [⟨"0", "1", true⟩, ⟨"0", "missing", true⟩]) 0
      = FromProto declarationOrder replaceNodeData
        ((storedModel exampleExplicit [⟨"0", "1", true⟩, ⟨"0", "missing", true⟩]).withoutEdge
          ⟨"0", "missing", true⟩) 0 := by
  obtain ⟨h1, h2, h3⟩ := LoadSpnStructure_ignores_unresolved_edge declarationOrder
    replaceNodeData (storedModel exampleExplicit [⟨"0", "1", true⟩, ⟨"0", "missing", true⟩]) 0
    exampleExplicitNodes [exampleExplicitEdge] ⟨"0", "missing", true⟩ (Or.inr (by decide))
  exact ⟨h1, h2, (h3 (by decide)).1⟩

/-- Claim C22 fails as stated: for the stored model of `exampleExplicit` with an edge
description that names a node "missing", which is not among the built nodes "0" and "1",
`LoadSpnStructure` returns true and `FromProto` returns a graph, with the edge of the
adjacency matrix and the edge of the other edge description. -/
theorem FromProto_unresolved_edge_builds_graph :
    (∀ n ∈ exampleExplicitNodes, n.data.name ≠ "missing")
    ∧ LoadSpnStructure replaceNodeData
        (storedModel exampleExplicit [⟨"0", "1", true⟩, ⟨"0", "missing", true⟩]) 0
        exampleExplicitNodes [exampleExplicitEdge]
      = (true, exampleExplicitNodes, [exampleExplicitEdge, exampleExplicitEdge])
    ∧ FromProto declarationOrder replaceNodeData
        (storedModel exampleExplicit [⟨"0", "1", true⟩, ⟨"0", "missing", true⟩]) 0
      = some (some ⟨[exampleExplicitEdge, exampleExplicitEdge], exampleExplicitNodes,
          [⟨0, .InputNode, ⟨"0", .INPUT, 1, some 2⟩⟩], [], [], [], none⟩) := by
  refine ⟨?_, ?_, ?_⟩ <;> decide

/-! ## Explicit construction: cycles -/

theorem LoadSpnListInit_edges_spec (decode : Int → Option NodeType) (spnData : SpnData)
    (alloc : Nat) (ns : List Node) (es : List Edge)
    (h : LoadSpnListInit decode spnData alloc [] [] = some (true, ns, es)) :
    (∀ k n, ns[k]? = some n → n.addr = alloc + k)
    ∧ ns.length = spnData.node_list.size2
    ∧ (∀ r c, r < spnData.node_list.size2 → c < r →
        ¬ (spnData.adjacency_matrix.entry r c ≠ 0 ∧ spnData.adjacency_matrix.entry c r ≠ 0))
    ∧ (∀ e ∈ es, ∃ i j ni nj, i < spnData.node_list.size2 ∧ j < spnData.node_list.size2
        ∧ i ≠ j ∧ spnData.adjacency_matrix.entry i j ≠ 0
        ∧ ns[i]? = some ni ∧ ns[j]? = some nj ∧ e = ⟨ni, nj, true⟩) := by
  obtain ⟨hdims, hnode, hadj⟩ := LoadSpnListInit_true _ _ _ _ _ _ _ h
  obtain ⟨created, heq, hlen, hall⟩ := LoadSpnListInit.nodeLoop_true _ _ _ _ _ _ _ _ _ hnode
  rw [List.nil_append] at heq
  subst heq
  obtain ⟨hes, hasym0⟩ := LoadSpnListInit.adjLoop_true _ _ _ _ _ _ hadj
  have hN : spnData.adjacency_matrix.size1 = spnData.node_list.size2 := hdims.2.2.2
  have hasym : ∀ r c, r < spnData.node_list.size2 → c < r →
      ¬ (spnData.adjacency_matrix.entry r c ≠ 0 ∧ spnData.adjacency_matrix.entry c r ≠ 0) := by
    intro r c hr hc
    exact hasym0 r c (by omega) (by omega) hc
  refine ⟨?_, hlen, hasym, ?_⟩
  · intro k n hk
    have := (hall k n hk).1
    omega
  · intro e he
    have hes1 : es = (edgePairs spnData.adjacency_matrix spnData.node_list.size2).filterMap
        (edgeOf ns) := by
      rw [hes, List.nil_append, hN]
      rfl
    rw [hes1, List.mem_filterMap] at he
    obtain ⟨q, hq, heq⟩ := he
    obtain ⟨h1, h2, hne, hentry⟩ :=
      (mem_edgePairs spnData.adjacency_matrix spnData.node_list.size2 hasym q).mp hq
    obtain ⟨ni, nj, a1, a2, rfl⟩ := edgeOf_eq_some.mp heq
    exact ⟨q.1, q.2, ni, nj, h1, h2, hne, hentry, a1, a2, rfl⟩

/-- Claim C21, as amended: what `LoadSpnListInit` checks is that no pair of nodes is
connected in both directions.  In a graph that it builds (called with empty output
vectors) no edge goes from a node to itself and no two edges form a cycle of length two,
and the adjacency matrix has no pair `i ≠ j` with `A[i][j] ≠ 0` and `A[j][i] ≠ 0`.
Longer cycles are not looked for. -/
theorem LoadSpnListInit_no_cycle_of_length_two (decode : Int → Option NodeType)
    (spnData : SpnData) (alloc : Nat) (ns : List Node) (es : List Edge)
    (h : LoadSpnListInit decode spnData alloc [] [] = some (true, ns, es)) :
    (∀ a, ¬ connected es a a)
    ∧ (∀ a b, ¬ (connected es a b ∧ connected es b a))
    ∧ (∀ i j, i < spnData.node_list.size2 → j < spnData.node_list.size2 → i ≠ j →
        ¬ (spnData.adjacency_matrix.entry i j ≠ 0 ∧ spnData.adjacency_matrix.entry j i ≠ 0)) := by
  obtain ⟨haddr, -, hasym, hmem⟩ := LoadSpnListInit_edges_spec decode spnData alloc ns es h
  have hpair : ∀ i j, i < spnData.node_list.size2 → j < spnData.node_list.size2 → i ≠ j →
      ¬ (spnData.adjacency_matrix.entry i j ≠ 0 ∧ spnData.adjacency_matrix.entry j i ≠ 0) := by
    intro i j hi hj hne hc
    rcases Nat.lt_or_gt_of_ne hne with hlt | hgt
    · exact hasym j i hj hlt ⟨hc.2, hc.1⟩
    · exact hasym i j hi hgt hc
  have hself : ∀ a, ¬ connected es a a := by
    rintro a ⟨e, he, h1, h2⟩
    obtain ⟨i, j, ni, nj, -, -, hne, -, a1, a2, rfl⟩ := hmem e he
    simp only at h1 h2
    subst h1
    subst h2
    exact hne (getElem?_injective_of_addr haddr a1 a2)
  refine ⟨hself, ?_, hpair⟩
  rintro a b ⟨⟨e, he, h1, h2⟩, ⟨e1, he1, h3, h4⟩⟩
  obtain ⟨i, j, ni, nj, hi, hj, hne, hentry, a1, a2, rfl⟩ := hmem e he
  obtain ⟨i1, j1, mi, mj, -, -, -, hentry1, b1, b2, rfl⟩ := hmem e1 he1
  simp only at h1 h2 h3 h4
  subst h1
  subst h2
  subst h3
  subst h4
  have e1 : i1 = j := getElem?_injective_of_addr haddr b1 a2
  have e2 : j1 = i := getElem?_injective_of_addr haddr b2 a1
  subst e1
  subst e2
  exact hpair j1 i1 hi hj hne ⟨hentry, hentry1⟩

/-- The witness of claim C21: the graph of `exampleCyclic` has no edge from a node to itself
and no cycle of length two. -/
theorem LoadSpnListInit_no_cycle_of_length_two_witness :
    (∀ a, ¬ connected exampleCyclicEdges a a)
    ∧ (∀ a b, ¬ (connected exampleCyclicEdges a b ∧ connected exampleCyclicEdges b a)) := by
  obtain ⟨h1, h2, -⟩ := LoadSpnListInit_no_cycle_of_length_two declarationOrder exampleCyclic 0
    exampleCyclicNodes exampleCyclicEdges (by decide)
  exact ⟨h1, h2⟩

/-- Claim C21 fails as stated: `LoadSpnListInit` returns true for `exampleCyclic`, and the
edges it builds lead from node 1 to node 2, from node 2 to node 3 and from node 3 back to
node 1: a cycle of length three. -/
theorem LoadSpnListInit_accepts_cycle :
    LoadSpnListInit declarationOrder exampleCyclic 0 [] []
      = some (true, exampleCyclicNodes, exampleCyclicEdges)
    ∧ connected exampleCyclicEdges (exampleCyclicNode 1) (exampleCyclicNode 2)
    ∧ connected exampleCyclicEdges (exampleCyclicNode 2) (exampleCyclicNode 3)
    ∧ connected exampleCyclicEdges (exampleCyclicNode 3) (exampleCyclicNode 1)
    ∧ Relation.TransGen (connected exampleCyclicEdges) (exampleCyclicNode 1)
        (exampleCyclicNode 1) := by
  have h12 : connected exampleCyclicEdges (exampleCyclicNode 1) (exampleCyclicNode 2) :=
    ⟨⟨exampleCyclicNode 1, exampleCyclicNode 2, true⟩, by decide, rfl, rfl⟩
  have h23 : connected exampleCyclicEdges (exampleCyclicNode 2) (exampleCyclicNode 3) :=
    ⟨⟨exampleCyclicNode 2, exampleCyclicNode 3, true⟩, by decide, rfl, rfl⟩
  have h31 : connected exampleCyclicEdges (exampleCyclicNode 3) (exampleCyclicNode 1) :=
    ⟨⟨exampleCyclicNode 3, exampleCyclicNode 1, true⟩, by decide, rfl, rfl⟩
  exact ⟨by decide, h12, h23, h31,
    Relation.TransGen.tail (Relation.TransGen.tail (Relation.TransGen.single h12) h23) h31⟩

/-! ## Input layers: the types of the nodes -/

theorem CreateInputLayer.loop_types (decode : Int → Option NodeType) (layerInit : SpnLayerInit)
    (nodeList inputIndices : pimatrix) (alloc : Nat) (fuel i : Nat)
    (newNodes newNodes1 : List Node)
    (h : CreateInputLayer.loop decode layerInit nodeList inputIndices alloc fuel i newNodes
      = some (true, newNodes1)) :
    ∃ created, newNodes1 = newNodes ++ created ∧ created.length = fuel
      ∧ ∀ (k : Nat) (n : Node), created[k]? = some n →
          (layerInit.has_node_list = true →
            ∃ t c, nodeList.get 0 (i + k) = some t ∧ toInt t = some c
              ∧ decode c = some n.data.type)
          ∧ (layerInit.has_node_list = false → n.data.type = layerInit.type)
          ∧ (∃ v inputIdx, inputIndices.get 0 (i + k) = some v ∧ toInt v = some inputIdx
              ∧ 0 ≤ inputIdx ∧ n.data.input_start_index = some inputIdx)
          ∧ n.cls = classOf n.data.type := by
  induction fuel generalizing i newNodes with
  | zero =>
    simp only [CreateInputLayer.loop, Option.some.injEq, Prod.mk.injEq, true_and] at h
    exact ⟨[], by simp [h], rfl, by simp⟩
  | succ fuel ih =>
    unfold CreateInputLayer.loop at h
    simp only at h
    split at h
    · cases h
    · simp at h
    · rename_i nodeType htype
      rcases hv : inputIndices.get 0 i with _ | v
      · simp [hv] at h
      rcases hvc : toInt v with _ | inputIdx
      · simp [hv, hvc] at h
      simp only [hv, hvc, Option.some_bind, CreateNewNode_eq] at h
      by_cases hneg : inputIdx < 0
      · simp [hneg] at h
      · rw [if_neg hneg] at h
        obtain ⟨created, heq, hlen, hall⟩ := ih _ _ h
        refine ⟨(⟨alloc + i, classOf nodeType,
          ⟨fmtNodeName layerInit.name i, nodeType, 1, some inputIdx⟩⟩ : Node) :: created,
          by simp [heq], by simp [hlen], ?_⟩
        intro k n hk
        cases k with
        | zero =>
          simp only [List.getElem?_cons_zero, Option.some.injEq] at hk
          subst hk
          refine ⟨?_, ?_, ⟨v, inputIdx, hv, hvc, by omega, rfl⟩, rfl⟩
          · intro hhas
            rw [hhas] at htype
            simp only [if_true, Option.map_eq_some', Option.bind_eq_some] at htype
            obtain ⟨c, ⟨t, ht, hc⟩, hd⟩ := htype
            exact ⟨t, c, ht, hc, hd⟩
          · intro hhas
            rw [hhas] at htype
            simp only [Bool.false_eq_true, if_false, Option.some.injEq] at htype
            exact htype.symm
        | succ k =>
          simp only [List.getElem?_cons_succ] at hk
          have := hall k n hk
          rwa [show i + 1 + k = i + (k + 1) by omega] at this

/-- Claim C25, as amended: `CreateInputLayer` tests the entries of the type vector for
membership in the node-type enumeration only.  It returns false, leaving the output
vectors as they are, whenever the input-index vector is not `1 × size` or a type vector
is given that is not `1 × size`; and when it returns true (called with empty output
vectors) it has created `size` nodes and no edge, node `k` has the type coded by the
truncation of entry `k` of the type vector, whichever member of the enumeration that is,
or the layer type when no type vector is given, its class is the class of that type, and
it is bound to the truncation of entry `k` of the input-index vector, which is not
negative and below `2^31`.  The entries are converted with `(int)`, which is defined only
for entries whose truncation is in the range `-2^31 .. 2^31 - 1` of `int`. -/
theorem CreateInputLayer_types_and_sizes (decode : Int → Option NodeType)
    (layerInit : SpnLayerInit) (alloc : Nat) :
    (∀ newNodes newEdges,
      (layerInit.input_indices.size1 ≠ 1
        ∨ layerInit.input_indices.size2 ≠ sizeT layerInit.size
        ∨ (layerInit.has_node_list = true
            ∧ (layerInit.node_list.size1 ≠ 1
              ∨ layerInit.node_list.size2 ≠ sizeT layerInit.size))) →
      CreateInputLayer decode layerInit alloc newNodes newEdges
        = some (false, newNodes, newEdges))
    ∧ (∀ newNodes newEdges,
        CreateInputLayer decode layerInit alloc [] [] = some (true, newNodes, newEdges) →
        newEdges = [] ∧ newNodes.length = layerInit.size.toNat
        ∧ ∀ (k : Nat) (n : Node), newNodes[k]? = some n →
            (layerInit.has_node_list = true →
              ∃ t c, layerInit.node_list.get 0 k = some t ∧ toInt t = some c
                ∧ c = truncate t ∧ decode c = some n.data.type)
            ∧ (layerInit.has_node_list = false → n.data.type = layerInit.type)
            ∧ (∃ v inputIdx, layerInit.input_indices.get 0 k = some v
                ∧ toInt v = some inputIdx ∧ inputIdx = truncate v
                ∧ 0 ≤ inputIdx ∧ inputIdx < 2 ^ 31
                ∧ n.data.input_start_index = some inputIdx)
            ∧ n.cls = classOf n.data.type) := by
  constructor
  · intro newNodes newEdges hdim
    unfold CreateInputLayer
    split
    · rfl
    · simp only
      by_cases h1 : layerInit.input_indices.size1 ≠ 1
          ∨ layerInit.input_indices.size2 ≠ sizeT layerInit.size
      · rw [if_pos h1]
      · rw [if_neg h1]
        have h2 : layerInit.has_node_list = true
            ∧ (layerInit.node_list.size1 ≠ 1
              ∨ layerInit.node_list.size2 ≠ sizeT layerInit.size) := by
          rcases hdim with h | h | h
          · exact absurd (Or.inl h) h1
          · exact absurd (Or.inr h) h1
          · exact h
        rw [if_pos h2]
  · intro newNodes newEdges h
    unfold CreateInputLayer at h
    split at h
    · simp at h
    · simp only at h
      split at h
      · simp at h
      · split at h
        · simp at h
        · rcases hl : CreateInputLayer.loop decode layerInit layerInit.node_list
            layerInit.input_indices alloc layerInit.size.toNat 0 [] with _ | ⟨b, ns⟩
          · simp [hl] at h
          · simp only [hl, Option.some.injEq, Prod.mk.injEq] at h
            obtain ⟨rfl, rfl, rfl⟩ := h
            obtain ⟨created, heq, hlen, hall⟩ :=
              CreateInputLayer.loop_types _ _ _ _ _ _ _ _ _ hl
            rw [List.nil_append] at heq
            subst heq
            refine ⟨rfl, hlen, fun k n hk => ?_⟩
            obtain ⟨h1, h2, ⟨v, inputIdx, hv, hvc, hpos, hbind⟩, h4⟩ := hall k n hk
            rw [Nat.zero_add] at hv
            refine ⟨fun hhas => ?_, h2,
              ⟨v, inputIdx, hv, hvc, (toInt_eq_some hvc).1, hpos, (toInt_eq_some hvc).2.2,
                hbind⟩, h4⟩
            obtain ⟨t, c, ht, hc, hd⟩ := h1 hhas
            rw [Nat.zero_add] at ht
            exact ⟨t, c, ht, hc, (toInt_eq_some hc).1, hd⟩

/-- The witness of claim C25: an Input layer with an input-index vector of three entries
for two nodes is rejected, and the two nodes of `exampleMixedInputLayer` have the types
coded by its type vector. -/
theorem CreateInputLayer_types_and_sizes_witness :
    CreateInputLayer declarationOrder
        ⟨.INPUT, "in", true, 2, true, pimatrix.ofRows [[0, 1, 2]], false, emptyMatrix,
          false, 0⟩ 0 [] [] = some (false, [], [])
    ∧ (CreateInputLayer declarationOrder exampleMixedInputLayer 0 [] []
          = some (true, [⟨0, .InputNode, ⟨"in_0", .INPUT, 1, some 0⟩⟩,
              ⟨1, .SumNode, ⟨"in_1", .SUM, 1, some 1⟩⟩], [])
        ∧ ∀ (k : Nat) (n : Node),
            [(⟨0, .InputNode, ⟨"in_0", .INPUT, 1, some 0⟩⟩ : Node),
              ⟨1, .SumNode, ⟨"in_1", .SUM, 1, some 1⟩⟩][k]? = some n →
            ∃ t c, exampleMixedInputLayer.node_list.get 0 k = some t ∧ toInt t = some c
              ∧ c = truncate t ∧ declarationOrder c = some n.data.type) :=
  ⟨(CreateInputLayer_types_and_sizes declarationOrder
      ⟨.INPUT, "in", true, 2, true, pimatrix.ofRows [[0, 1, 2]], false, emptyMatrix,
        false, 0⟩ 0).1 [] [] (Or.inr (Or.inl (by decide))),
    by decide,
    fun k n hk =>
      (((CreateInputLayer_types_and_sizes declarationOrder exampleMixedInputLayer 0).2
        [⟨0, .InputNode, ⟨"in_0", .INPUT, 1, some 0⟩⟩, ⟨1, .SumNode, ⟨"in_1", .SUM, 1, some 1⟩⟩]
        [] (by decide)).2.2 k n hk).1 rfl⟩

/-- Claim C25 fails as stated: `exampleMixedInputLayer` has size 2, an input-index vector
and a type vector of size `1 × 2`, and the entry 3 of its type vector codes the type Sum;
the layer is accepted and its second node is a Sum node. -/
theorem CreateInputLayer_accepts_sum_node :
    exampleMixedInputLayer.node_list.get 0 1 = some 3
    ∧ (toInt 3).bind declarationOrder = some NodeType.SUM
    ∧ CreateInputLayer declarationOrder exampleMixedInputLayer 0 [] []
      = some (true, [⟨0, .InputNode, ⟨"in_0", .INPUT, 1, some 0⟩⟩,
          ⟨1, .SumNode, ⟨"in_1", .SUM, 1, some 1⟩⟩], []) := by
  refine ⟨?_, ?_, ?_⟩ <;> decide

/-! ## Layered construction: the edges of a layer -/

theorem mem_comboEdges (layerInit : SpnLayerInit) (alloc : Nat) (combos : List (List Node))
    (cnt : Nat) (e : Edge) (h : e ∈ comboEdges layerInit alloc cnt combos) :
    ∃ s c, combos[s]? = some c ∧ e.node1 ∈ c
      ∧ e.node2 = layerNode layerInit alloc (cnt + s) := by
  induction combos generalizing cnt with
  | nil => simp [comboEdges] at h
  | cons c combos ih =>
    simp only [comboEdges, List.mem_append, List.mem_map] at h
    rcases h with ⟨lower, hl, rfl⟩ | h
    · exact ⟨0, c, by simp, hl, rfl⟩
    · obtain ⟨s, c1, hs, h1, h2⟩ := ih (cnt + 1) h
      refine ⟨s + 1, c1, by simpa using hs, h1, ?_⟩
      rw [h2]
      congr 1
      omega

theorem mem_productEdges (layerInit : SpnLayerInit) (lowerLayer : List Node) (alloc : Nat)
    (fuel p cnt : Nat) (e : Edge)
    (h : e ∈ productEdges layerInit lowerLayer alloc fuel p cnt) :
    e.node1 ∈ lowerLayer
      ∧ e.node2 ∈ (productBlocks layerInit lowerLayer.length alloc fuel p cnt).flatten := by
  induction fuel generalizing p cnt with
  | zero => simp [productEdges] at h
  | succ fuel ih =>
    simp only [productEdges, List.mem_append] at h
    simp only [productBlocks, List.flatten_cons, List.mem_append]
    rcases h with h | h
    · obtain ⟨s, c, hs, h1, h2⟩ := mem_comboEdges layerInit alloc _ cnt e h
      have hc : c ∈ combinationsOf lowerLayer p :=
        List.mem_of_mem_take (List.mem_iff_getElem?.mpr ⟨s, hs⟩)
      have hsub := ((mem_combinationsOf lowerLayer p c).mp hc).1
      have hslt : s < roundToFloat (lowerLayer.length.choose p) := by
        have h3 := (List.getElem?_eq_some_iff.mp hs).1
        have h4 := List.length_take_le (roundToFloat (lowerLayer.length.choose p))
          (combinationsOf lowerLayer p)
        omega
      refine ⟨hsub.subset h1, Or.inl ?_⟩
      rw [h2]
      exact List.mem_map.mpr ⟨cnt + s, List.mem_range'_1.mpr ⟨by omega, by omega⟩, rfl⟩
    · obtain ⟨h1, h2⟩ := ih _ _ h
      exact ⟨h1, Or.inr h2⟩

/-- The edges that a layer creates go from the nodes of the layer below to its own
nodes. -/
theorem CreateLayer_edges_between (decode : Int → Option NodeType) (layerInit : SpnLayerInit)
    (lowerLayer : List Node) (alloc : Nat) (newNodes : List Node) (newEdges : List Edge)
    (h : CreateLayer decode layerInit lowerLayer alloc [] [] = some (true, newNodes, newEdges)) :
    ∀ e ∈ newEdges, e.node1 ∈ lowerLayer ∧ e.node2 ∈ newNodes := by
  unfold CreateLayer at h
  split at h
  · have := (CreateInputLayer_true decode layerInit alloc newNodes newEdges h).1
    subst this
    simp
  · unfold CreateSumMaxLayer at h
    split at h
    · cases h
    · split at h
      · simp at h
      · rw [CreateSumMaxLayer.loop_eq] at h
        simp only [List.nil_append, Option.some.injEq, Prod.mk.injEq, true_and] at h
        obtain ⟨rfl, rfl⟩ := h
        intro e he
        simp only [List.mem_flatMap, List.mem_map] at he
        obtain ⟨t, ht, lower, hl, rfl⟩ := he
        exact ⟨hl, List.mem_map.mpr ⟨t, ht, rfl⟩⟩
  · obtain ⟨-, hn, he⟩ := CreateProductLayer_true layerInit lowerLayer alloc newNodes newEdges h
    subst hn
    subst he
    intro e hmem
    exact mem_productEdges layerInit lowerLayer alloc _ _ _ e hmem
  · simp at h

/-- The edges that enter a node of a Sum layer or of a Product layer: one from every node
of the layer below for a Sum layer, at least one for a Product layer. -/
theorem CreateLayer_incoming (decode : Int → Option NodeType) (layerInit : SpnLayerInit)
    (lowerLayer : List Node) (alloc : Nat) (newNodes : List Node) (newEdges : List Edge)
    (h : CreateLayer decode layerInit lowerLayer alloc [] [] = some (true, newNodes, newEdges)) :
    ∀ n ∈ newNodes,
      (layerInit.type = NodeType.SUM → ∀ l ∈ lowerLayer, (⟨l, n, true⟩ : Edge) ∈ newEdges)
      ∧ (layerInit.type = NodeType.PRODUCT →
          ∃ e ∈ newEdges, e.node2 = n ∧ e.node1 ∈ lowerLayer) := by
  intro n hn
  constructor
  · intro htype l hl
    unfold CreateLayer at h
    rw [htype] at h
    simp only at h
    unfold CreateSumMaxLayer at h
    split at h
    · cases h
    · split at h
      · simp at h
      · rw [CreateSumMaxLayer.loop_eq] at h
        simp only [List.nil_append, Option.some.injEq, Prod.mk.injEq, true_and] at h
        obtain ⟨rfl, rfl⟩ := h
        obtain ⟨t, ht, rfl⟩ := List.mem_map.mp hn
        simp only [List.mem_flatMap, List.mem_map]
        exact ⟨t, ht, l, hl, rfl⟩
  · intro htype
    unfold CreateLayer at h
    rw [htype] at h
    simp only at h
    obtain ⟨hcounts, hnodes, hedges⟩ :=
      CreateProductLayer_true layerInit lowerLayer alloc newNodes newEdges h
    subst hnodes
    subst hedges
    obtain ⟨B, hB, hnB⟩ := List.mem_flatten.mp hn
    obtain ⟨t, ht⟩ := List.mem_iff_getElem?.mp hB
    obtain ⟨s, c, -, -, hsub, hlen, -, hfilter⟩ :=
      productBlocks_mem layerInit lowerLayer alloc _ t B
        (fun q h1 h2 => (hcounts q h1 h2).2.2) ht n hnB
    have hne : c ≠ [] := by
      intro hc
      rw [hc] at hlen
      simp at hlen
    obtain ⟨x, hx⟩ := List.exists_mem_of_ne_nil c hne
    rw [← hfilter] at hx
    obtain ⟨e, he, rfl⟩ := List.mem_map.mp hx
    rw [List.mem_filter] at he
    have hsub2 : e.node1 ∈ c := by
      rw [← hfilter]
      exact List.mem_map.mpr ⟨e, List.mem_filter.mpr he, rfl⟩
    exact ⟨e, he.1, by simpa using he.2, hsub.subset hsub2⟩

/-! ## Layered construction: the layers of an accepted description -/

theorem LoadSpnLayerInit.loop_layers (decode : Int → Option NodeType)
    (layers : List SpnLayerInit) (st st1 : LayerState)
    (h : LoadSpnLayerInit.loop decode layers st = some (true, st1)) :
    ∃ (groups : List (List Node)) (edgeGroups : List (List Edge)),
      st1.nodes = st.nodes ++ groups.flatten
      ∧ st1.edges = st.edges ++ edgeGroups.flatten
      ∧ groups.length = layers.length
      ∧ edgeGroups.length = layers.length
      ∧ (∀ a n, groups.flatten[a]? = some n → n.addr = st.alloc + a)
      ∧ ∀ (i : Nat) (layerInit : SpnLayerInit), layers[i]? = some layerInit →
          ∃ lower g eg, (st.lastLayer :: groups)[i]? = some lower
            ∧ groups[i]? = some g ∧ edgeGroups[i]? = some eg
            ∧ ∃ alloc1, CreateLayer decode layerInit lower alloc1 [] [] = some (true, g, eg) := by
  induction layers generalizing st with
  | nil =>
    simp only [LoadSpnLayerInit.loop, Option.some.injEq, Prod.mk.injEq, true_and] at h
    subst h
    exact ⟨[], [], by simp, by simp, rfl, rfl, by simp, by simp⟩
  | cons layerInit rest ih =>
    unfold LoadSpnLayerInit.loop at h
    rcases hc : CreateLayer decode layerInit st.lastLayer st.alloc [] [] with _ | ⟨b, nn, ne⟩
    · simp [hc] at h
    cases b
    · simp [hc] at h
    simp only [hc] at h
    obtain ⟨groups, edgeGroups, h1, h2, h3, h3e, h4, h5⟩ := ih _ h
    simp only at h1 h2 h4 h5
    refine ⟨nn :: groups, ne :: edgeGroups, ?_, ?_, ?_, ?_, ?_, ?_⟩
    · rw [h1]
      simp
    · rw [h2]
      simp
    · simp [h3]
    · simp [h3e]
    · intro a n ha
      rw [List.flatten_cons] at ha
      by_cases hlt : a < nn.length
      · rw [List.getElem?_append_left hlt] at ha
        exact (CreateLayer_names decode layerInit st.lastLayer st.alloc nn ne hc a n ha).1
      · rw [List.getElem?_append_right (by omega)] at ha
        have := h4 _ n ha
        omega
    · intro i li hi
      cases i with
      | zero =>
        simp only [List.getElem?_cons_zero, Option.some.injEq] at hi
        subst hi
        exact ⟨st.lastLayer, nn, ne, by simp, by simp, by simp, st.alloc, hc⟩
      | succ i =>
        simp only [List.getElem?_cons_succ] at hi
        obtain ⟨lower, g, eg, a1, a2, a3, a4⟩ := h5 i li hi
        exact ⟨lower, g, eg, by simpa using a1, by simpa using a2, by simpa using a3, a4⟩

theorem flatten_getElem?_of_group {α : Type} (groups : List (List α)) (i k : Nat)
    (g : List α) (x : α) (hg : groups[i]? = some g) (hx : g[k]? = some x) :
    groups.flatten[(groups.take i).flatten.length + k]? = some x := by
  induction groups generalizing i with
  | nil => simp at hg
  | cons g0 rest ih =>
    cases i with
    | zero =>
      simp only [List.getElem?_cons_zero, Option.some.injEq] at hg
      subst hg
      have hk : k < g0.length := (List.getElem?_eq_some_iff.mp hx).1
      simp only [List.take_zero, List.flatten_nil, List.length_nil, Nat.zero_add,
        List.flatten_cons]
      rw [List.getElem?_append_left hk]
      exact hx
    | succ i =>
      simp only [List.getElem?_cons_succ] at hg
      have := ih i hg
      simp only [List.take_succ_cons, List.flatten_cons, List.length_append]
      rw [List.getElem?_append_right (by omega)]
      rw [show g0.length + (List.take i rest).flatten.length + k - g0.length
        = (List.take i rest).flatten.length + k by omega]
      exact this

theorem take_succ_flatten_length {α : Type} (groups : List (List α)) (i : Nat) (g : List α)
    (hg : groups[i]? = some g) :
    (groups.take (i + 1)).flatten.length = (groups.take i).flatten.length + g.length := by
  rw [List.take_succ, hg]
  simp

theorem nodup_of_addr {nodes : List Node} {alloc : Nat}
    (haddr : ∀ k n, nodes[k]? = some n → n.addr = alloc + k) : nodes.Nodup := by
  rw [List.nodup_iff_getElem?_ne_getElem?]
  intro i j hij hj hc
  have hi : i < nodes.length := by omega
  have e1 : nodes[i]? = some nodes[i] := List.getElem?_eq_getElem hi
  have e2 : nodes[j]? = some nodes[i] := by rw [← hc, e1]
  have := getElem?_injective_of_addr haddr e1 e2
  omega

theorem LoadSpnLayerInit_layers (decode : Int → Option NodeType) (spnData : SpnData)
    (alloc : Nat) (ns : List Node) (es : List Edge)
    (h : LoadSpnLayerInit decode spnData alloc [] [] = some (true, ns, es)) :
    ∃ (groups : List (List Node)) (edgeGroups : List (List Edge)),
      ns = groups.flatten ∧ es = edgeGroups.flatten
      ∧ groups.length = spnData.layers.length
      ∧ edgeGroups.length = spnData.layers.length
      ∧ (∀ a n, ns[a]? = some n → n.addr = alloc + a)
      ∧ (∀ layerInit, spnData.layers[0]? = some layerInit → layerInit.type = NodeType.INPUT)
      ∧ ∀ (i : Nat) (layerInit : SpnLayerInit), spnData.layers[i]? = some layerInit →
          ∃ lower g eg, (([] : List Node) :: groups)[i]? = some lower
            ∧ groups[i]? = some g ∧ edgeGroups[i]? = some eg
            ∧ ∃ alloc1, CreateLayer decode layerInit lower alloc1 [] [] = some (true, g, eg) := by
  unfold LoadSpnLayerInit at h
  split at h
  · cases h
  · rename_i layer0 rest hl
    split at h
    · simp at h
    · rename_i htype
      rcases hloop : LoadSpnLayerInit.loop decode spnData.layers ⟨[], alloc, [], []⟩
        with _ | ⟨b, st⟩
      · simp [hloop] at h
      · simp only [hloop, Option.some.injEq, Prod.mk.injEq] at h
        obtain ⟨rfl, rfl, rfl⟩ := h
        obtain ⟨groups, edgeGroups, h1, h2, h3, h3e, h4, h5⟩ :=
          LoadSpnLayerInit.loop_layers decode _ _ _ hloop
        simp only [List.nil_append] at h1 h2 h4 h5
        refine ⟨groups, edgeGroups, h1, h2, h3, h3e, ?_, ?_, h5⟩
        · intro a n ha
          rw [h1] at ha
          exact h4 a n ha
        · intro layerInit h0
          rw [hl] at h0
          simp only [List.getElem?_cons_zero, Option.some.injEq] at h0
          subst h0
          simpa using htype

/-- Claim C26: in the node and edge vectors that `LoadSpnLayerInit` returns on success
(called with empty output vectors) the node vector is the concatenation of one group of
nodes per layer description, in layer order, the `k`-th node of the group of a layer being
named `<layerName>_<k>`; every edge goes from a node of the group of some layer `i` to a
node of the group of layer `i + 1`; no node occurs twice in the node vector; and the
source of every edge stands at a smaller position of the node vector than its
destination, so the construction order is a topological order of the graph. -/
theorem LoadSpnLayerInit_topological_order (decode : Int → Option NodeType)
    (spnData : SpnData) (alloc : Nat) (ns : List Node) (es : List Edge)
    (h : LoadSpnLayerInit decode spnData alloc [] [] = some (true, ns, es)) :
    ∃ groups : List (List Node), ns = groups.flatten
      ∧ groups.length = spnData.layers.length
      ∧ (∀ (l : Nat) (layerInit : SpnLayerInit) (g : List Node),
          spnData.layers[l]? = some layerInit → groups[l]? = some g →
          ∀ (k : Nat) (n : Node), g[k]? = some n →
            n.data.name = fmtNodeName layerInit.name k)
      ∧ (∀ e ∈ es, ∃ i g g1, groups[i]? = some g ∧ groups[i + 1]? = some g1
          ∧ e.node1 ∈ g ∧ e.node2 ∈ g1)
      ∧ ns.Nodup
      ∧ (∀ e ∈ es, ∃ a b : Nat, a < b ∧ ns[a]? = some e.node1 ∧ ns[b]? = some e.node2) := by
  obtain ⟨groups, edgeGroups, h1, h2, h3, h3e, h4, -, h5⟩ :=
    LoadSpnLayerInit_layers decode spnData alloc ns es h
  have hbetween : ∀ e ∈ es, ∃ i g g1, groups[i]? = some g ∧ groups[i + 1]? = some g1
      ∧ e.node1 ∈ g ∧ e.node2 ∈ g1 := by
    intro e he
    rw [h2] at he
    obtain ⟨eg, heg, hmem⟩ := List.mem_flatten.mp he
    obtain ⟨i, hi⟩ := List.mem_iff_getElem?.mp heg
    have hilt : i < spnData.layers.length := by
      rw [← h3e]
      exact (List.getElem?_eq_some_iff.mp hi).1
    obtain ⟨lower, g, eg1, a1, a2, a3, alloc1, a4⟩ :=
      h5 i spnData.layers[i] (List.getElem?_eq_getElem hilt)
    rw [hi, Option.some.injEq] at a3
    subst a3
    obtain ⟨b1, b2⟩ := CreateLayer_edges_between decode _ lower alloc1 g eg a4 e hmem
    cases i with
    | zero =>
      simp only [List.getElem?_cons_zero, Option.some.injEq] at a1
      subst a1
      simp at b1
    | succ j =>
      simp only [List.getElem?_cons_succ] at a1
      exact ⟨j, lower, g, a1, a2, b1, b2⟩
  refine ⟨groups, h1, h3, ?_, hbetween, nodup_of_addr h4, ?_⟩
  · intro l layerInit g hL hG k n hk
    obtain ⟨lower, g1, eg, -, a2, -, alloc1, a4⟩ := h5 l layerInit hL
    rw [hG, Option.some.injEq] at a2
    subst a2
    exact (CreateLayer_names decode layerInit lower alloc1 g eg a4 k n hk).2
  · intro e he
    obtain ⟨i, g, g1, hg, hg1, hm, hm1⟩ := hbetween e he
    obtain ⟨k, hk⟩ := List.mem_iff_getElem?.mp hm
    obtain ⟨k1, hk1⟩ := List.mem_iff_getElem?.mp hm1
    have hklt : k < g.length := (List.getElem?_eq_some_iff.mp hk).1
    refine ⟨(groups.take i).flatten.length + k, (groups.take (i + 1)).flatten.length + k1,
      ?_, ?_, ?_⟩
    · rw [take_succ_flatten_length groups i g hg]
      omega
    · rw [h1]
      exact flatten_getElem?_of_group groups i k g _ hg hk
    · rw [h1]
      exact flatten_getElem?_of_group groups (i + 1) k1 g1 _ hg1 hk1

/-- The witness of claim C26: the Input layer of four nodes followed by the Sum layer of one
node; the four edges go from the Input nodes at positions 0 to 3 to the Sum node at
position 4. -/
theorem LoadSpnLayerInit_topological_order_witness :
    LoadSpnLayerInit declarationOrder (layeredData [exampleInputLayer, exampleSumLayer]) 0 [] []
      = some (true, exampleInputs ++ [layerNode exampleSumLayer 4 0],
          exampleInputs.map (fun lower => ⟨lower, layerNode exampleSumLayer 4 0, true⟩))
    ∧ (exampleInputs ++ [layerNode exampleSumLayer 4 0]).Nodup
    ∧ ∀ e ∈ exampleInputs.map (fun lower => (⟨lower, layerNode exampleSumLayer 4 0, true⟩ : Edge)),
        ∃ a b : Nat, a < b ∧ (exampleInputs ++ [layerNode exampleSumLayer 4 0])[a]? = some e.node1
          ∧ (exampleInputs ++ [layerNode exampleSumLayer 4 0])[b]? = some e.node2 := by
  obtain ⟨groups, -, -, -, -, h5, h6⟩ := LoadSpnLayerInit_topological_order declarationOrder
    (layeredData [exampleInputLayer, exampleSumLayer]) 0
    (exampleInputs ++ [layerNode exampleSumLayer 4 0])
    (exampleInputs.map (fun lower => ⟨lower, layerNode exampleSumLayer 4 0, true⟩))
    (by decide)
  exact ⟨by decide, h5, h6⟩

/-- Claim C23, as amended: construction does not look at the number of incoming edges.  In
a graph that `LoadSpnLayerInit` builds (called with empty output vectors) the node vector
is the concatenation of the node groups, and the edge vector of the edge groups, that the
calls of `CreateLayer` return, one call per layer description, in layer order, each call
being given the group of the layer before as its lower layer (the empty vector for the
first layer); node `a` of the node vector has the address `alloc + a`; the first layer is
an Input layer; every node of a Sum layer has an incoming edge from every node of the
layer below it, and every node of a Product layer has at least one incoming edge, from a
node of the layer below it; so a node created for a Sum or Product layer has an incoming
edge unless it belongs to a Sum layer above an empty layer. -/
theorem LoadSpnLayerInit_incoming_edges (decode : Int → Option NodeType)
    (spnData : SpnData) (alloc : Nat) (ns : List Node) (es : List Edge)
    (h : LoadSpnLayerInit decode spnData alloc [] [] = some (true, ns, es)) :
    ∃ (groups : List (List Node)) (edgeGroups : List (List Edge)),
      ns = groups.flatten ∧ es = edgeGroups.flatten
      ∧ groups.length = spnData.layers.length
      ∧ edgeGroups.length = spnData.layers.length
      ∧ (∀ (a : Nat) (n : Node), ns[a]? = some n → n.addr = alloc + a)
      ∧ (∀ layerInit, spnData.layers[0]? = some layerInit → layerInit.type = NodeType.INPUT)
      ∧ (∀ (i : Nat) (layerInit : SpnLayerInit), spnData.layers[i]? = some layerInit →
          ∃ lower g eg, (([] : List Node) :: groups)[i]? = some lower
            ∧ groups[i]? = some g ∧ edgeGroups[i]? = some eg
            ∧ ∃ alloc1, CreateLayer decode layerInit lower alloc1 [] [] = some (true, g, eg))
      ∧ ∀ (i : Nat) (layerInit : SpnLayerInit) (lower g : List Node),
          spnData.layers[i + 1]? = some layerInit → groups[i]? = some lower →
          groups[i + 1]? = some g →
          ∀ n ∈ g,
            (layerInit.type = NodeType.SUM → ∀ l ∈ lower, (⟨l, n, true⟩ : Edge) ∈ es)
            ∧ (layerInit.type = NodeType.PRODUCT →
                ∃ e ∈ es, e.node2 = n ∧ e.node1 ∈ lower)
            ∧ ((layerInit.type = NodeType.SUM ∨ layerInit.type = NodeType.PRODUCT) →
                lower ≠ [] → ∃ e ∈ es, e.node2 = n) := by
  obtain ⟨groups, edgeGroups, h1, h2, h3, h3e, h4, h0, h5⟩ :=
    LoadSpnLayerInit_layers decode spnData alloc ns es h
  refine ⟨groups, edgeGroups, h1, h2, h3, h3e, h4, h0, h5, ?_⟩
  intro i layerInit lower g hL hlower hG n hn
  obtain ⟨lower1, g1, eg, a1, a2, a3, alloc1, a4⟩ := h5 (i + 1) layerInit hL
  simp only [List.getElem?_cons_succ] at a1
  rw [hlower, Option.some.injEq] at a1
  subst a1
  rw [hG, Option.some.injEq] at a2
  subst a2
  have hsub : ∀ e ∈ eg, e ∈ es := by
    intro e he
    rw [h2]
    exact List.mem_flatten.mpr ⟨eg, List.mem_iff_getElem?.mpr ⟨i + 1, a3⟩, he⟩
  obtain ⟨c1, c2⟩ := CreateLayer_incoming decode layerInit lower alloc1 g eg a4 n hn
  have hsum : layerInit.type = NodeType.SUM → ∀ l ∈ lower, (⟨l, n, true⟩ : Edge) ∈ es :=
    fun ht l hl => hsub _ (c1 ht l hl)
  have hprod : layerInit.type = NodeType.PRODUCT → ∃ e ∈ es, e.node2 = n ∧ e.node1 ∈ lower := by
    intro ht
    obtain ⟨e, he, d1, d2⟩ := c2 ht
    exact ⟨e, hsub e he, d1, d2⟩
  refine ⟨hsum, hprod, ?_⟩
  rintro (ht | ht) hne
  · obtain ⟨l, hl⟩ := List.exists_mem_of_ne_nil lower hne
    exact ⟨⟨l, n, true⟩, hsum ht l hl, rfl⟩
  · obtain ⟨e, he, d1, -⟩ := hprod ht
    exact ⟨e, he, d1⟩

/-- The witness of claim C23: the Input layer of four nodes below the Sum layer of one
node.  The groups are the four Input nodes and the Sum node, and the Sum node has an
incoming edge from each of the four nodes. -/
theorem LoadSpnLayerInit_incoming_edges_witness :
    LoadSpnLayerInit declarationOrder (layeredData [exampleInputLayer, exampleSumLayer]) 0 [] []
      = some (true, exampleInputs ++ [layerNode exampleSumLayer 4 0],
          exampleInputs.map (fun lower => ⟨lower, layerNode exampleSumLayer 4 0, true⟩))
    ∧ ∃ groups : List (List Node),
        exampleInputs ++ [layerNode exampleSumLayer 4 0] = groups.flatten
        ∧ groups.length = 2
        ∧ (∃ alloc1 eg, groups[0]? = some exampleInputs
            ∧ CreateLayer declarationOrder exampleInputLayer [] alloc1 [] []
              = some (true, exampleInputs, eg))
        ∧ ∀ (lower g : List Node), groups[0]? = some lower → groups[1]? = some g →
            ∀ n ∈ g, ∀ l ∈ lower, (⟨l, n, true⟩ : Edge)
              ∈ exampleInputs.map
                (fun lower => (⟨lower, layerNode exampleSumLayer 4 0, true⟩ : Edge)) := by
  obtain ⟨groups, edgeGroups, h1, -, h2, -, haddr, -, h5, h4⟩ :=
    LoadSpnLayerInit_incoming_edges declarationOrder
      (layeredData [exampleInputLayer, exampleSumLayer]) 0
      (exampleInputs ++ [layerNode exampleSumLayer 4 0])
      (exampleInputs.map (fun lower => ⟨lower, layerNode exampleSumLayer 4 0, true⟩))
      (by decide)
  refine ⟨by decide, groups, h1, h2, ?_, ?_⟩
  · obtain ⟨lower, g, eg, a1, a2, -, alloc1, a4⟩ := h5 0 exampleInputLayer rfl
    simp only [List.getElem?_cons_zero, Option.some.injEq] at a1
    subst a1
    have hg : g = exampleInputs := by
      have hlen : g.length = exampleInputLayer.size.toNat :=
        (CreateInputLayer_true declarationOrder exampleInputLayer alloc1 g eg a4).2.1
      have hpre : List.IsPrefix g (exampleInputs ++ [layerNode exampleSumLayer 4 0]) := by
        rw [h1]
        obtain ⟨rest, hrest⟩ : ∃ rest, groups = g :: rest := by
          cases groups with
          | nil => simp at a2
          | cons g0 rest =>
            simp only [List.getElem?_cons_zero, Option.some.injEq] at a2
            exact ⟨rest, by rw [a2]⟩
        rw [hrest, List.flatten_cons]
        exact List.prefix_append _ _
      have := List.prefix_iff_eq_take.mp hpre
      rw [hlen] at this
      rw [this]
      decide
    subst hg
    exact ⟨alloc1, eg, a2, a4⟩
  · intro lower g hlower hg n hn
    exact (h4 0 exampleSumLayer lower g rfl hlower hg n hn).1 rfl

/-- Claim C23 fails as stated, for both construction protocols.  `FromProto` returns a graph
for the explicit description `exampleOrphanSum`, in which node 0 is a Sum node that no
edge enters; and it returns a graph for the layered description of
`exampleMixedInputLayer` below a Sum layer, in which the node `in_1` is a Sum node that no
edge enters. -/
theorem FromProto_sum_node_without_incoming_edge :
    (∃ spn, FromProto declarationOrder replaceNodeData (storedModel exampleOrphanSum []) 0
        = some (some spn)
      ∧ ∃ n ∈ spn.m_nodes, n.data.type = NodeType.SUM ∧ n.cls = NodeClass.SumNode
        ∧ ∀ e ∈ spn.m_edges, e.node2 ≠ n)
    ∧ (∃ spn, FromProto declarationOrder replaceNodeData
        (storedModel (layeredData [exampleMixedInputLayer, exampleSumLayer]) []) 0
        = some (some spn)
      ∧ ∃ n ∈ spn.m_nodes, n.data.type = NodeType.SUM ∧ n.cls = NodeClass.SumNode
        ∧ ∀ e ∈ spn.m_edges, e.node2 ≠ n) := by
  constructor
  · refine ⟨⟨[⟨⟨0, .SumNode, ⟨"0", .SUM, 1, none⟩⟩, ⟨2, .SumNode, ⟨"2", .SUM, 1, some 0⟩⟩, true⟩,
        ⟨⟨1, .InputNode, ⟨"1", .INPUT, 1, some 0⟩⟩, ⟨2, .SumNode, ⟨"2", .SUM, 1, some 0⟩⟩,
          true⟩],
      [⟨0, .SumNode, ⟨"0", .SUM, 1, none⟩⟩, ⟨1, .InputNode, ⟨"1", .INPUT, 1, some 0⟩⟩,
        ⟨2, .SumNode, ⟨"2", .SUM, 1, some 0⟩⟩],
      [⟨1, .InputNode, ⟨"1", .INPUT, 1, some 0⟩⟩], [], [], [], none⟩, by decide,
      ⟨0, .SumNode, ⟨"0", .SUM, 1, none⟩⟩, by decide, rfl, rfl, by decide⟩
  · refine ⟨⟨[⟨⟨0, .InputNode, ⟨"in_0", .INPUT, 1, some 0⟩⟩,
          ⟨2, .SumNode, ⟨"sum_0", .SUM, 1, none⟩⟩, true⟩,
        ⟨⟨1, .SumNode, ⟨"in_1", .SUM, 1, some 1⟩⟩,
          ⟨2, .SumNode, ⟨"sum_0", .SUM, 1, none⟩⟩, true⟩],
      [⟨0, .InputNode, ⟨"in_0", .INPUT, 1, some 0⟩⟩, ⟨1, .SumNode, ⟨"in_1", .SUM, 1, some 1⟩⟩,
        ⟨2, .SumNode, ⟨"sum_0", .SUM, 1, none⟩⟩],
      [⟨0, .InputNode, ⟨"in_0", .INPUT, 1, some 0⟩⟩], [], [], [], none⟩, by decide,
      ⟨1, .SumNode, ⟨"in_1", .SUM, 1, some 1⟩⟩, by decide, rfl, rfl, by decide⟩

end Spn
